import Mathlib

/-!
Cockpit web server: the request pipeline of `src/common/cockpitwebserver.c`.

A shallow embedding of the URL-root setter, of the request pipeline
(`on_socket_input`, `parse_and_process_request`, `process_request`, the default handlers,
the reuse of a stream by `on_web_response_done`), of the cookie parser and of the
Accept-list parser.

Conventions of the embedding.

* A C string (`gchar *`, `GString`) is the `List Char` of its characters before the
  terminating NUL; a `NULL` pointer is `none`.
* The byte buffer of a request (`GByteArray`) is a `List Char`, one element per byte.
* Observable effects (responses written, signal emissions, handler invocations, the
  request being finished) are recorded, in order, in a trace of `Event`s.
* The two parsers of `websocket/websocket.c` are parameters of the pipeline; the parsers
  that section 4.1 of the specification describes are used for concrete requests.
* A `double` is a finite number, given as the rational number it stands for, an infinity
  or NaN. The Accept-list parser takes its `g_ascii_strtod` as a parameter; the model
  `g_ascii_strtod` of the library function is used for concrete headers.
-/

set_option autoImplicit false

namespace Cockpit

/-! ## Strings and library functions -/

/-- The C library `strchr (s, c)`: the suffix of `s` that starts at the first occurrence
of `c`, or `none` (a `NULL` result) when `c` does not occur. -/
def strchr : List Char → Char → Option (List Char)
  | [], _ => none
  | a :: t, c => if a = c then some (a :: t) else strchr t c

/-- The characters of `s` in front of the position `pos`, where `pos` is a suffix of `s`
(a pointer into `s`): what remains of `s` after `*pos = 0`. -/
def cut_at (s pos : List Char) : List Char :=
  s.take (s.length - pos.length)

/-- GLib `g_ascii_isspace`: the characters that have the bit `G_ASCII_SPACE` in
`g_ascii_table`, which are space, form feed, newline, carriage return and tab. The
vertical tab is not among them. -/
def g_ascii_isspace (c : Char) : Bool :=
  c = ' ' || c = '\x0c' || c = '\n' || c = '\r' || c = '\t'

/-- The macro `ISSPACE` of `gstrfuncs.c`, which is also the white space that `strtoull`
and `strtod` of the C library skip in the C locale: space, form feed, newline, carriage
return, tab and vertical tab. -/
def ISSPACE (c : Char) : Bool :=
  c = ' ' || c = '\x0c' || c = '\n' || c = '\r' || c = '\t' || c = '\x0b'

/-- Decimal digit test used by the digit loop of `g_parse_long_long`. -/
def is_digit (c : Char) : Bool :=
  decide ('0'.toNat ≤ c.toNat) && decide (c.toNat ≤ '9'.toNat)

/-- `G_MAXUINT64`. -/
def G_MAXUINT64 : Nat := 2 ^ 64 - 1

/-- The loop `while (ISSPACE (*s)) ++s;` of `g_parse_long_long`. -/
def skip_space : List Char → List Char
  | [] => []
  | c :: t => if ISSPACE c then skip_space t else c :: t

/-- The digit loop of GLib `g_parse_long_long` for base 10, from the accumulator `ui64`
and the flag `overflow`: the accumulator, the flag and the unread rest. A character that
is not a decimal digit ends the loop (a letter has digit value at least 10, the base). -/
def parse_digits : List Char → Nat → Bool → Nat × Bool × List Char
  | [], ui64, overflow => (ui64, overflow, [])
  | c :: t, ui64, overflow =>
    if is_digit c then
      let d := c.toNat - '0'.toNat
      if ui64 > G_MAXUINT64 / 10 ∨ (ui64 = G_MAXUINT64 / 10 ∧ d > G_MAXUINT64 % 10) then
        parse_digits t ui64 true
      else
        parse_digits t (ui64 * 10 + d) overflow
    else (ui64, overflow, c :: t)

/-- GLib `g_parse_long_long (nptr, &endptr, 10, &negative)`: the magnitude, the sign flag
and `endptr` (a suffix of `nptr`). Leading white space is skipped, one sign is accepted,
then decimal digits are read; without any digit there is no conversion and `endptr` is
`nptr`; on overflow the magnitude is `G_MAXUINT64`. -/
def g_parse_long_long (nptr : List Char) : Nat × Bool × List Char :=
  let s := skip_space nptr
  match s with
  | [] => (0, false, nptr)
  | c :: t =>
    let negative := decide (c = '-')
    let save := if c = '-' ∨ c = '+' then t else c :: t
    let r := parse_digits save 0 false
    if r.2.2.length = save.length then (0, negative, nptr)
    else if r.2.1 then (G_MAXUINT64, negative, r.2.2)
    else (r.1, negative, r.2.2)

/-- Whether the decimal digits of `nptr`, behind the white space and the sign, do not fit
64 bits: the flag `overflow` at the end of the digit loop. -/
def digits_overflow (nptr : List Char) : Bool :=
  match skip_space nptr with
  | [] => false
  | c :: t => (parse_digits (if c = '-' ∨ c = '+' then t else c :: t) 0 false).2.1

/-- GLib `g_ascii_strtoull (nptr, &end, 10)`: the `guint64` result and `end`. Where the C
library has `strtoull_l`, as glibc does, GLib returns what that function returns in the C
locale: it reads what `g_parse_long_long` reads; digits that do not fit 64 bits give
`G_MAXUINT64` whatever the sign is, and otherwise a leading minus sign gives the negation
modulo `2 ^ 64`. (The fallback of GLib negates also the `G_MAXUINT64` of an overflow.) -/
def g_ascii_strtoull (nptr : List Char) : Nat × List Char :=
  let r := g_parse_long_long nptr
  (if r.2.1 = true ∧ digits_overflow nptr = false then (2 ^ 64 - r.1) % 2 ^ 64 else r.1,
    r.2.2)

/-- ASCII lower-casing of one character (`g_ascii_tolower`). -/
def g_ascii_tolower (c : Char) : Char :=
  if 'A'.toNat ≤ c.toNat ∧ c.toNat ≤ 'Z'.toNat then Char.ofNat (c.toNat + 32) else c

/-- Modelled from the spec: `cockpit_str_case_equal` of `cockpithash.c`, which is not among
the sources. The spec calls the header table a case-insensitive name to value map. -/
def cockpit_str_case_equal (a b : List Char) : Bool :=
  a.map g_ascii_tolower == b.map g_ascii_tolower

/-- The header table (`GHashTable` made by `cockpit_web_server_new_table`), as the list of
its entries. -/
abbrev GHashTable := List (List Char × List Char)

/-- The call `g_hash_table_lookup (table, key)` on a header table. -/
def g_hash_table_lookup : GHashTable → List Char → Option (List Char)
  | [], _ => none
  | (k, v) :: t, key => if cockpit_str_case_equal k key then some v else g_hash_table_lookup t key

/-- The call `g_hash_table_replace (table, key, value)`: the entry whose key equals `key`
is replaced, otherwise a new entry is added. -/
def g_hash_table_replace : GHashTable → List Char → List Char → GHashTable
  | [], key, value => [(key, value)]
  | (k, v) :: t, key, value =>
    if cockpit_str_case_equal k key then (key, value) :: t
    else (k, v) :: g_hash_table_replace t key value

/-! ## Data model -/

/-- The request object `struct _CockpitWebRequest`, without its I/O handles and sources. -/
structure CockpitWebRequest where
  buffer : List Char
  delayed_reply : Int
  eof_okay : Bool
  headers : Option GHashTable
  protocol : Option (List Char)
  host : Option (List Char)
  original_path : Option (List Char)
  path : Option (List Char)
  query : Option (List Char)
  method : Option (List Char)
  origin : Option (List Char)
  deriving DecidableEq

/-- The request made by `g_new0` and `g_byte_array_new` in `cockpit_web_request_start`:
all fields zero, empty buffer, `eof_okay = TRUE`. -/
def cockpit_web_request_start : CockpitWebRequest :=
  { buffer := [], delayed_reply := 0, eof_okay := true, headers := none, protocol := none,
    host := none, original_path := none, path := none, query := none, method := none,
    origin := none }

/-- The server object `struct _CockpitWebServer`, with the handlers connected to its two
signals: `handle-stream` handlers see the request, `handle-resource` handlers are connected
with an optional detail and see the path and the headers. Every handler returns whether it
claimed the request. -/
structure CockpitWebServer where
  url_root : List Char
  forwarded_host_header : Option (List Char)
  forwarded_protocol_header : Option (List Char)
  forwarded_for_header : Option (List Char)
  stream_handlers : List (CockpitWebRequest → Bool)
  resource_handlers : List (Option (List Char) × (List Char → GHashTable → Bool))

/-- The server made by `cockpit_web_server_init`: empty URL root, nothing connected. -/
def cockpit_web_server_new : CockpitWebServer :=
  { url_root := [], forwarded_host_header := none, forwarded_protocol_header := none,
    forwarded_for_header := none, stream_handlers := [], resource_handlers := [] }

/-- What the pipeline does that can be observed from outside, in the order it happens. -/
inductive Event where
  /-- The call `cockpit_web_response_error (response, status, NULL, NULL)`. -/
  | response_error (status : Int)
  /-- The emission `g_signal_emit (…, sig_handle_stream, 0, request, &claimed)`. -/
  | emit_handle_stream (request : CockpitWebRequest)
  /-- The `index`-th connected `handle-stream` handler is invoked on `request`. -/
  | handle_stream (index : Nat) (request : CockpitWebRequest)
  /-- The emission of `sig_handle_resource` with the string looked up for the detail. -/
  | emit_handle_resource (detail : List Char) (path : List Char)
  /-- The `index`-th connected `handle-resource` handler is invoked on `path`. -/
  | handle_resource (index : Nat) (path : List Char)
  /-- The failing assertion `g_assert (request->delayed_reply > 299)`. -/
  | assert_failed
  /-- The log `g_critical ("no handler responded to request: %s", …)`. -/
  | critical
  /-- The call `cockpit_web_request_finish (request)`. -/
  | finish
  /-- The call `close_io_stream (request->io)`. -/
  | close_io_stream
  deriving DecidableEq

/-- Whether the event is the invocation of a connected handler. -/
def Event.is_handler : Event → Bool
  | .handle_stream _ _ => true
  | .handle_resource _ _ => true
  | _ => false

/-- Whether the event is a signal emission or the invocation of a connected handler. -/
def Event.is_dispatch : Event → Bool
  | .emit_handle_stream _ => true
  | .handle_stream _ _ => true
  | .emit_handle_resource _ _ => true
  | .handle_resource _ _ => true
  | _ => false

/-- Whether the event is a response, of any status. -/
def Event.is_response : Event → Bool
  | .response_error _ => true
  | _ => false

/-- The result of `web_socket_util_parse_req_line`: the return value and, meaningful when
it is positive, the two strings stored through the out-parameters. -/
structure ReqLine where
  off : Int
  method : List Char
  resource : Option (List Char)
  deriving DecidableEq

/-- The result of `web_socket_util_parse_headers`: the return value and, meaningful when
it is positive, the table stored through the out-parameter. -/
structure Headers where
  off : Int
  headers : GHashTable
  deriving DecidableEq

/-- The two parsers of `websocket/websocket.c`, which is not among the sources: the
pipeline is parameterised by them. Each maps the bytes it is given to its result. -/
structure Parsers where
  web_socket_util_parse_req_line : List Char → ReqLine
  web_socket_util_parse_headers : List Char → Headers

/-- What one call of `parse_and_process_request` leaves behind: its return value `again`,
the request and the trace of events. -/
structure Outcome where
  again : Bool
  request : CockpitWebRequest
  trace : List Event
  deriving DecidableEq

/-- `cockpit_webserver_request_maximum`. -/
def cockpit_webserver_request_maximum : Nat := 8192

/-! ## URL root normalisation -/

/-- The loop `while (str->str[0] == '/') g_string_erase (str, 0, 1);` of
`cockpit_web_server_set_url_root`: every iteration removes the first character. -/
def erase_leading : List Char → List Char
  | [] => []
  | c :: t => if c = '/' then erase_leading t else c :: t

/-- The loop `while (str->str[str->len - 1] == '/') g_string_truncate (str, str->len - 1);`
run for at most `fuel` iterations. It stops by itself when the last character is not `/`. -/
def truncate_trailing : Nat → List Char → List Char
  | 0, s => s
  | fuel + 1, s => if s.getLast? = some '/' then truncate_trailing fuel s.dropLast else s

/-- The value that `cockpit_web_server_set_url_root (self, url_root)` stores.
The trailing loop gets one unit of fuel per character, which is more than it can use. -/
def normalize_url_root (url_root : List Char) : List Char :=
  let str := erase_leading url_root
  let str := if str.length ≠ 0 then truncate_trailing str.length str else str
  if str.length ≠ 0 then '/' :: str else str

/-- The setter `cockpit_web_server_set_url_root (self, url_root)`. -/
def cockpit_web_server_set_url_root (self : CockpitWebServer) (url_root : List Char) :
    CockpitWebServer :=
  { self with url_root := normalize_url_root url_root }

/-- Specification side of `cockpit_web_server_set_url_root`: the string with all leading
and all trailing `/` characters removed. -/
def strip_slashes (s : List Char) : List Char :=
  (s.dropWhile (· = '/')).rdropWhile (· = '/')

/-! ## Dispatch -/

/-- Emission of `handle-stream` with the accumulator `g_signal_accumulator_true_handled`:
the connected handlers run in connection order until one returns `TRUE`. The result is
`claimed` and the handler invocations, numbered from `index`. -/
def run_stream_handlers : List (CockpitWebRequest → Bool) → Nat → CockpitWebRequest →
    Bool × List Event
  | [], _, _ => (false, [])
  | h :: hs, index, request =>
    if h request then (true, [Event.handle_stream index request])
    else
      let r := run_stream_handlers hs (index + 1) request
      (r.1, Event.handle_stream index request :: r.2)

/-- Emission of `handle-resource` with a detail: a handler connected without detail, or
with the detail of the emission, runs; the first `TRUE` stops the emission. -/
def run_resource_handlers : List (Option (List Char) × (List Char → GHashTable → Bool)) →
    Nat → List Char → List Char → GHashTable → Bool × List Event
  | [], _, _, _, _ => (false, [])
  | (d, h) :: hs, index, detail, path, headers =>
    if d = none ∨ d = some detail then
      if h path headers then (true, [Event.handle_resource index path])
      else
        let r := run_resource_handlers hs (index + 1) detail path headers
        (r.1, Event.handle_resource index path :: r.2)
    else run_resource_handlers hs (index + 1) detail path headers

/-- The string handed to `g_quark_try_string` by
`cockpit_web_server_default_handle_stream`: with `pos = strchr (path + 1, '/')` found, the
path up to and including that slash, otherwise the whole path. -/
def detail_token (path : List Char) : List Char :=
  match path with
  | [] => []
  | c :: t =>
    match strchr t '/' with
    | none => c :: t
    | some pos => c :: cut_at t pos.tail

/-- The function `cockpit_web_server_default_handle_resource`: a 404 response, claimed. -/
def cockpit_web_server_default_handle_resource : Bool × List Event :=
  (true, [Event.response_error 404])

/-- The function `cockpit_web_server_default_handle_stream`: the path is cut at its first
`?` and the query is what follows it; the original path is cut at its first `?` (the path
points into the original path, so the cut of the path is also a cut of the original path,
and `strchr (original_path, '?')` then finds the first `?` of the original string);
`handle-resource` is emitted under the detail token, and the default resource handler
answers when nobody claimed. The result is `claimed`, the request and the events. -/
def cockpit_web_server_default_handle_stream (self : CockpitWebServer)
    (request : CockpitWebRequest) : Bool × CockpitWebRequest × List Event :=
  let path := request.path.getD []
  let original_path := request.original_path.getD []
  let pos := strchr path '?'
  let path1 := match pos with
    | none => path
    | some q => cut_at path q
  let original_path1 := match strchr original_path '?' with
    | none => original_path
    | some q => cut_at original_path q
  let request1 := { request with
    path := some path1
    original_path := some original_path1
    query := pos.map List.tail }
  let headers := request1.headers.getD []
  let detail := detail_token path1
  let r := run_resource_handlers self.resource_handlers 0 detail path1 headers
  let d := if r.1 then (true, []) else cockpit_web_server_default_handle_resource
  (d.1, request1, Event.emit_handle_resource detail path1 :: (r.2 ++ d.2))

/-- The function `process_delayed_reply`: the assertion, then the error response. -/
def process_delayed_reply (request : CockpitWebRequest) : List Event :=
  if request.delayed_reply > 299 then [Event.response_error request.delayed_reply]
  else [Event.assert_failed]

/-- The function `path_has_prefix (path, prefix)`: `strncmp` over `prefix->len` characters
succeeds exactly when the first `prefix->len` characters of `path` are `prefix`; the next
character of `path` must be the terminating NUL or a slash. -/
def path_has_prefix (path pfx : List Char) : Bool :=
  decide (pfx.length > 0) &&
  (path.take pfx.length == pfx) &&
  (path.drop pfx.length == [] || (path.drop pfx.length).head? == some '/')

/-- The request after `request->path = request->original_path + url_root->len`. -/
def set_path (self : CockpitWebServer) (request : CockpitWebRequest) : CockpitWebRequest :=
  { request with path := request.original_path.map (List.drop self.url_root.length) }

/-- The function `process_request`: the request it leaves and the events. -/
def process_request (self : CockpitWebServer) (request : CockpitWebRequest) :
    CockpitWebRequest × List Event :=
  let request :=
    if self.url_root.length ≠ 0 ∧
        ( path_has_prefix (request.original_path.getD []) self.url_root) = false then
      { request with delayed_reply := 404 }
    else request
  if request.delayed_reply ≠ 0 then
    (request, process_delayed_reply request)
  else
    let request := set_path self request
    let s := run_stream_handlers self.stream_handlers 0 request
    if s.1 then
      (request, Event.emit_handle_stream request :: s.2)
    else
      let d := cockpit_web_server_default_handle_stream self request
      (d.2.1, Event.emit_handle_stream request :: (s.2 ++ d.2.2 ++
        (if d.1 then [] else [Event.critical])))

/-! ## Parsing -/

/-- The label `out:` of `parse_and_process_request`: the request is finished unless the
function asks to be called again. -/
def out (again : Bool) (request : CockpitWebRequest) (trace : List Event) : Outcome :=
  { again := again, request := request,
    trace := if again then trace else trace ++ [Event.finish] }

/-- The right-hand side `off1 + off2 + length` of the test for missing data: `off1 + off2`
is converted to `guint64` and the sum is taken modulo `2 ^ 64`. -/
def needed_length (off1 off2 : Int) (length : Nat) : Int :=
  (off1 + off2 + (length : Int)) % 2 ^ 64

/-- The call `g_byte_array_remove_range (buffer, 0, off1 + off2)`: the count is converted
to `guint`; a count beyond the length fails the precondition check of the call, which
then leaves the array as it is. -/
def g_byte_array_remove_range (buffer : List Char) (count : Int) : List Char :=
  let n := (count % 2 ^ 32).toNat
  if n ≤ buffer.length then buffer.drop n else buffer

/-- The part of `parse_and_process_request` after the test for missing data: method and
Host checks, removal of the head from the buffer, protocol and origin, `process_request`. -/
def validate_and_process (self : CockpitWebServer) (request : CockpitWebRequest)
    (off1 off2 : Int) : Outcome :=
  let request :=
    if request.method ≠ some "GET".toList ∧ request.method ≠ some "HEAD".toList then
      { request with delayed_reply := 405 }
    else request
  let request := { request with host := g_hash_table_lookup (request.headers.getD []) "Host".toList }
  let request :=
    if request.host = none ∨ request.host = some [] then
      { request with delayed_reply := 400 }
    else request
  let request := { request with buffer := g_byte_array_remove_range request.buffer (off1 + off2) }
  let request := { request with protocol := some "http".toList }
  let request := { request with
    origin := some ("http".toList ++ "://".toList ++ request.host.getD "(null)".toList) }
  let r := process_request self request
  out false r.1 r.2

/-- The part of `parse_and_process_request` after both parsers succeeded: the
Content-Length check and the test for missing data. -/
def check_length (self : CockpitWebServer) (request : CockpitWebRequest)
    (off1 off2 : Int) : Outcome :=
  match g_hash_table_lookup (request.headers.getD []) "Content-Length".toList with
  | none =>
    if (request.buffer.length : Int) < needed_length off1 off2 0 then out true request []
    else validate_and_process self request off1 off2
  | some str =>
    let r := g_ascii_strtoull str
    if r.2 ≠ [] then out false { request with delayed_reply := 400 } []
    else
      let request := if r.1 ≠ 0 then { request with delayed_reply := 413 } else request
      if (request.buffer.length : Int) < needed_length off1 off2 r.1 then out true request []
      else validate_and_process self request off1 off2

/-- The function `parse_and_process_request`. -/
def parse_and_process_request (self : CockpitWebServer) (P : Parsers)
    (request : CockpitWebRequest) : Outcome :=
  if request.buffer.length > cockpit_webserver_request_maximum * 2 then out false request []
  else
    let l := P.web_socket_util_parse_req_line request.buffer
    if l.off = 0 then out true request []
    else if l.off < 0 then out false { request with delayed_reply := 400 } []
    else
      let request := { request with method := some l.method, original_path := l.resource }
      if request.original_path = none ∨ (request.original_path.getD []).head? ≠ some '/' then
        out false { request with delayed_reply := 400 } []
      else
        let h := P.web_socket_util_parse_headers (request.buffer.drop l.off.toNat)
        if h.off = 0 then out true request []
        else if h.off < 0 then out false { request with delayed_reply := 400 } []
        else
          check_length self { request with headers := some h.headers } l.off h.off

/-! ## Socket input and connection reuse -/

/-- What `g_socket_receive_message` reports to `on_socket_input`: `data bytes` is a read
of `bytes.length` bytes (`num_read >= 0`, no byte at end of file); `would_block` and
`failed` are the error results (`num_read < 0`), with `G_IO_ERROR_WOULD_BLOCK` or with any
other error. The byte array is made without the `clear` flag, so the bytes that
`g_byte_array_set_size` adds are not initialised: `uninit` gives what they happen to
hold. -/
inductive SocketRead where
  | data (bytes : List Char)
  | would_block (uninit : Nat → Char)
  | failed (uninit : Nat → Char)

/-- The call `g_byte_array_set_size (buffer, size)`: the array is cut to `size` bytes, or
grown to `size` bytes by bytes that are not initialised. -/
def g_byte_array_set_size (buffer : List Char) (size : Nat) (uninit : Nat → Char) :
    List Char :=
  if size ≤ buffer.length then buffer.take size
  else buffer ++ (List.range (size - buffer.length)).map uninit

/-- The function `on_socket_input`. The buffer is grown by
`cockpit_webserver_request_maximum + 1` bytes and the read is made into them. On an error
the function returns before the buffer is cut back. Otherwise the buffer is cut to the
old length plus the bytes read (at most `cockpit_webserver_request_maximum + 1`); a read
of zero bytes finishes the request, closing the stream first when `eof_okay`; any other
read clears `eof_okay` and runs `parse_and_process_request`. The field `again` of the
result is the return value. -/
def on_socket_input (self : CockpitWebServer) (P : Parsers) (request : CockpitWebRequest)
    (read : SocketRead) : Outcome :=
  let length := request.buffer.length
  match read with
  | .would_block uninit =>
    { again := true
      request := { request with
        buffer := g_byte_array_set_size request.buffer
          (length + cockpit_webserver_request_maximum + 1) uninit }
      trace := [] }
  | .failed uninit =>
    { again := false
      request := { request with
        buffer := g_byte_array_set_size request.buffer
          (length + cockpit_webserver_request_maximum + 1) uninit }
      trace := [Event.finish] }
  | .data bytes =>
    let received := bytes.take (cockpit_webserver_request_maximum + 1)
    let request := { request with buffer := request.buffer ++ received }
    if received.length = 0 then
      { again := false
        request := request
        trace := (if request.eof_okay then [Event.close_io_stream] else []) ++ [Event.finish] }
    else
      parse_and_process_request self P { request with eof_okay := false }

/-- The function `on_web_response_done (response, reusable, self)`: a reusable stream gets
a new request from `cockpit_web_request_start (self, io)`, any other stream is closed. -/
def on_web_response_done (reusable : Bool) : Option CockpitWebRequest × List Event :=
  if reusable then (some cockpit_web_request_start, []) else (none, [Event.close_io_stream])

/-- Whether `needle` is at the very start of `haystack`. -/
def starts_with : List Char → List Char → Bool
  | _, [] => true
  | [], _ :: _ => false
  | a :: s, b :: t => decide (a = b) && starts_with s t

/-- The C library `strstr (haystack, needle)`: the suffix of `haystack` that starts at the
first occurrence of `needle`, or `none` (a `NULL` result). -/
def strstr : List Char → List Char → Option (List Char)
  | [], needle => if needle = [] then some [] else none
  | c :: t, needle => if starts_with (c :: t) needle then some (c :: t) else strstr t needle

/-- The value of a hexadecimal digit (`g_ascii_xdigit_value`), `none` for other
characters. -/
def g_ascii_xdigit_value (c : Char) : Option Nat :=
  if '0'.toNat ≤ c.toNat ∧ c.toNat ≤ '9'.toNat then some (c.toNat - '0'.toNat)
  else if 'a'.toNat ≤ c.toNat ∧ c.toNat ≤ 'f'.toNat then some (c.toNat - 'a'.toNat + 10)
  else if 'A'.toNat ≤ c.toNat ∧ c.toNat ≤ 'F'.toNat then some (c.toNat - 'A'.toNat + 10)
  else none

/-- GLib `g_uri_unescape_segment (start, end, NULL)` on the characters from `start` up to
`end`: every `%` must be followed by two hexadecimal digits and stands for the byte they
denote; an escape that is cut short or malformed, or that denotes the NUL byte, makes the
result `NULL`. -/
def g_uri_unescape_segment : List Char → Option (List Char)
  | [] => some []
  | [c] => if c = '%' then none else some [c]
  | [c, a] => if c = '%' then none else (g_uri_unescape_segment [a]).map (c :: ·)
  | c :: a :: b :: rest =>
    if c = '%' then
      match g_ascii_xdigit_value a, g_ascii_xdigit_value b with
      | some x, some y =>
        if 16 * x + y = 0 then none
        else (g_uri_unescape_segment rest).map (Char.ofNat (16 * x + y) :: ·)
      | _, _ => none
    else (g_uri_unescape_segment (a :: b :: rest)).map (c :: ·)

/-- The backward scan of `cockpit_web_server_parse_cookie` over the characters in front of
`pos`, nearest first: `at_start` becomes whether the first character that is not white
space is a semicolon, and `FALSE` when there is none. -/
def scan_back : List Char → Bool
  | [] => false
  | c :: t => if g_ascii_isspace c then scan_back t else decide (c = ';')

/-- The loop `for (;;)` of `cockpit_web_server_parse_cookie`, from the current `header`
and `at_start`, for at most `fuel` iterations. The result is `none` when the fuel runs
out, and otherwise the return value (`some none` for `NULL`). The backward scan looks at
`pos[-1]` down to `pos[-(diff - 1)]`, that is at all characters in front of `pos` but the
first one of `header`. -/
def parse_cookie_loop (name : List Char) : Nat → List Char → Bool →
    Option (Option (List Char))
  | 0, _, _ => none
  | fuel + 1, header, at_start =>
    match strstr header name with
    | none => some none
    | some pos =>
      let at_start :=
        if pos.length ≠ header.length then
          scan_back ((header.take (header.length - pos.length)).drop 1).reverse
        else at_start
      let pos := pos.drop name.length
      if pos.head? = some '=' ∧ at_start = true then
        let value := pos.tail
        let value_end := match strchr value ';' with
          | none => []
          | some e => e
        some (g_uri_unescape_segment (cut_at value value_end))
      else parse_cookie_loop name fuel pos false

/-- The function `cockpit_web_server_parse_cookie (headers, name)`. The loop gets one
unit of fuel per character of the Cookie header and one more, which is more than it can
use when `name` is not empty. -/
def cockpit_web_server_parse_cookie (headers : GHashTable) (name : List Char) :
    Option (Option (List Char)) :=
  match g_hash_table_lookup headers "Cookie".toList with
  | none => some none
  | some header => parse_cookie_loop name (header.length + 1) header true

/-- One iteration of the loop `for (;;)` of `cockpit_web_server_parse_cookie`, from
`header` and `at_start`: the value that the iteration returns (`Sum.inl`, with `none` for
`NULL`), or the `header` at which the next iteration starts (`Sum.inr`), where `at_start`
is `FALSE`. -/
def parse_cookie_iteration (name header : List Char) (at_start : Bool) :
    Sum (Option (List Char)) (List Char) :=
  match strstr header name with
  | none => Sum.inl none
  | some pos =>
    let at_start :=
      if pos.length ≠ header.length then
        scan_back ((header.take (header.length - pos.length)).drop 1).reverse
      else at_start
    let pos := pos.drop name.length
    if pos.head? = some '=' ∧ at_start = true then
      let value := pos.tail
      let value_end := match strchr value ';' with
        | none => []
        | some e => e
      Sum.inl (g_uri_unescape_segment (cut_at value value_end))
    else Sum.inr pos

/-! ## Accept lists -/

/-- A `double`: a finite number, given by the rational number it stands for (every finite
double is one; the two zeros are not told apart, as no comparison tells them apart), an
infinity, or NaN. -/
inductive Double where
  | nan
  | neg_inf
  | finite (value : ℚ)
  | pos_inf
  deriving DecidableEq

/-- The comparison `a == b` of C on doubles, which is false when either side is NaN. -/
def Double.eq : Double → Double → Bool
  | .nan, _ => false
  | _, .nan => false
  | .neg_inf, .neg_inf => true
  | .pos_inf, .pos_inf => true
  | .finite a, .finite b => decide (a = b)
  | _, _ => false

/-- The comparison `a < b` of C on doubles, which is false when either side is NaN. -/
def Double.lt : Double → Double → Bool
  | .nan, _ => false
  | _, .nan => false
  | .neg_inf, .neg_inf => false
  | .neg_inf, _ => true
  | .finite _, .neg_inf => false
  | .finite a, .finite b => decide (a < b)
  | .finite _, .pos_inf => true
  | .pos_inf, _ => false

/-- The structure `Language`. -/
structure Language where
  qvalue : Double
  value : List Char
  deriving DecidableEq

/-- The constant `0.1` of the source: the binary64 number nearest to one tenth, which is
`3602879701896397 / 2 ^ 55`. -/
def default_qvalue : Double :=
  Double.finite (mkRat 3602879701896397 36028797018963968)

/-- The comparison function `sort_qvalue`, on the two entries its arguments point to. With
a NaN on either side both comparisons fail and the result is 1. -/
def sort_qvalue (la lb : Language) : Int :=
  if Double.eq lb.qvalue la.qvalue then 0
  else if Double.lt lb.qvalue la.qvalue then -1 else 1

/-- The merge loop of `msort_with_tmp` with the head `x` of the first run taken off:
`rest` merges what is left of the first run. While both runs have elements the loop takes
the head of the first run when `cmp (b1, b2) <= 0` and the head of the second run
otherwise. -/
def merge_into {α : Type} (cmp : α → α → Int) (x : α) (rest : List α → List α) :
    List α → List α
  | [] => x :: rest []
  | y :: b2 => if cmp x y ≤ 0 then x :: rest (y :: b2) else y :: merge_into cmp x rest b2

/-- The merge loop `while (n1 > 0 && n2 > 0)` of `msort_with_tmp` and the copy of what is
left of either run, on the two sorted runs `b1` and `b2`. -/
def merge_loop {α : Type} (cmp : α → α → Int) : List α → List α → List α
  | [], b2 => b2
  | x :: b1, b2 => merge_into cmp x (merge_loop cmp b1) b2

/-- The function `msort_with_tmp` of GLib `gqsort.c`: an array of at most one element is
left alone; otherwise the first `n / 2` elements and the other elements are sorted and the
two runs are merged. One unit of fuel per level of the recursion. -/
def msort_with_tmp {α : Type} (cmp : α → α → Int) : Nat → List α → List α
  | 0, b => b
  | fuel + 1, b =>
    if b.length ≤ 1 then b
    else
      merge_loop cmp (msort_with_tmp cmp fuel (b.take (b.length / 2)))
        (msort_with_tmp cmp fuel (b.drop (b.length / 2)))

/-- GLib `g_ptr_array_sort (array, compare_func)`, which sorts with `g_qsort_with_data`,
the merge sort `msort_with_tmp` (since GLib 2.32). The recursion is at most as deep as the
array is long. -/
def g_ptr_array_sort (array : List Language) (compare_func : Language → Language → Int) :
    List Language :=
  msort_with_tmp compare_func array.length array

/-- GLib `g_ascii_strdown (str, len)` on the `len` characters given. -/
def g_ascii_strdown (str : List Char) : List Char :=
  str.map g_ascii_tolower

/-- GLib `g_strstrip (string)`: `g_strchug` removes the leading white space and
`g_strchomp` the trailing white space, both by `g_ascii_isspace`. -/
def g_strstrip (string : List Char) : List Char :=
  (string.dropWhile g_ascii_isspace).rdropWhile g_ascii_isspace

/-- The body of the loop `while (accept)` of `cockpit_web_server_parse_accept_list` behind
the cut at the comma: `accept` is one piece of the header. The q-value is read by
`g_ascii_strtod`, given as `strtod`, only when the text right behind the first semicolon
begins with `q=` (`strncmp (pos + 1, "q=", 2) == 0`); a result below 0 is replaced by 0 and
nothing else is done to it. -/
def parse_language (strtod : List Char → Double) (accept : List Char) : Language :=
  match strchr accept ';' with
  | none => { qvalue := Double.finite 1, value := accept }
  | some pos =>
    { qvalue :=
        if starts_with (pos.drop 1) "q=".toList then
          (if Double.lt (strtod (pos.drop 3)) (Double.finite 0) then Double.finite 0
            else strtod (pos.drop 3))
        else Double.finite 1
      value := cut_at accept pos }

/-- The loop `while (accept)` of `cockpit_web_server_parse_accept_list`, for at most
`fuel` iterations: the entries it adds to `langs`. Every iteration cuts the piece in front
of the next comma off `accept` and goes on behind that comma, or ends the loop when there
is no comma. -/
def accept_loop (strtod : List Char → Double) : Nat → Option (List Char) → List Language
  | 0, _ => []
  | _ + 1, none => []
  | fuel + 1, some accept =>
    match strchr accept ',' with
    | none => [parse_language strtod accept]
    | some next =>
      parse_language strtod (cut_at accept next) ::
        accept_loop strtod fuel (some (next.drop 1))

/-- The part of `cockpit_web_server_parse_accept_list` behind the loop `while (accept)`:
`langs` is sorted, then the first loop adds the lower-cased and stripped value of every
entry whose q-value is above 0, and the second loop adds, for every entry whose q-value is
above 0 and whose value contains `-`, the lower-cased and stripped text in front of the
first `-`. The terminating `NULL` of the result is left out. -/
def accept_list_output (langs : List Language) : List (List Char) :=
  let langs := g_ptr_array_sort langs sort_qvalue
  langs.filterMap (fun lang : Language =>
      if Double.lt (Double.finite 0) lang.qvalue then
        some (g_strstrip (g_ascii_strdown lang.value))
      else none) ++
    langs.filterMap (fun lang : Language =>
      if Double.lt (Double.finite 0) lang.qvalue then
        match strchr lang.value '-' with
        | some pos => some (g_strstrip (g_ascii_strdown (cut_at lang.value pos)))
        | none => none
      else none)

/-- The array `langs` of `cockpit_web_server_parse_accept_list` in front of the sort: the
entry of the default, with q-value `0.1`, when there is one, and the entries of the loop.
A `NULL` header gives no entry (`g_strdup (NULL)` is `NULL`). The loop gets one unit of
fuel per character of the header and one more, which is more than it can use. -/
def accept_langs (strtod : List Char → Double) (accept defawlt : Option (List Char)) :
    List Language :=
  (match defawlt with
    | some d => [{ qvalue := default_qvalue, value := d }]
    | none => []) ++
  accept_loop strtod ((accept.getD []).length + 1) accept

/-- The function `cockpit_web_server_parse_accept_list (accept, defawlt)`, for the given
`g_ascii_strtod`. -/
def cockpit_web_server_parse_accept_list (strtod : List Char → Double)
    (accept defawlt : Option (List Char)) : List (List Char) :=
  accept_list_output (accept_langs strtod accept defawlt)

/-- The doubling loop that brings `a / d` up to `2 ^ 52`: the new `a` and the number of
doublings, which the fuel keeps at 1074 at most (the exponent of the subnormal numbers). -/
def scale_up : Nat → Nat → Nat → Nat → Nat × Nat
  | 0, a, _, k => (a, k)
  | fuel + 1, a, d, k => if a / d < 2 ^ 52 then scale_up fuel (2 * a) d (k + 1) else (a, k)

/-- The doubling loop that brings `a / d` below `2 ^ 53`: the new `d` and the number of
doublings. -/
def scale_down : Nat → Nat → Nat → Nat → Nat × Nat
  | 0, _, d, k => (d, k)
  | fuel + 1, a, d, k => if 2 ^ 53 ≤ a / d then scale_down fuel a (2 * d) (k + 1) else (d, k)

/-- The binary64 number nearest to `a / d`, with the given sign: the quotient is scaled
by a power of two into the range from `2 ^ 52` to `2 ^ 53` (or by `2 ^ 1074` when it is
smaller than that reaches), rounded to the nearest integer with ties to the even one, and
scaled back; a result of `2 ^ 1024` or more, which is one scaled back by `2 ^ 972`, or by
`2 ^ 971` from the integer `2 ^ 53`, is an infinity. -/
def nearest_double (negative : Bool) (a d : Nat) : Double :=
  if a = 0 ∨ d = 0 then Double.finite 0
  else
    let up := scale_up 1074 a d 0
    let down := scale_down 972 up.1 d 0
    let m := up.1 / down.1
    let r := up.1 % down.1
    let m := if down.1 < 2 * r ∨ (2 * r = down.1 ∧ m % 2 = 1) then m + 1 else m
    if 972 ≤ down.2 ∨ (971 ≤ down.2 ∧ 2 ^ 53 ≤ m) then
      (if negative then Double.neg_inf else Double.pos_inf)
    else
      Double.finite
        (mkRat (if negative then -((m * 2 ^ down.2 : Nat) : Int) else ((m * 2 ^ down.2 : Nat) : Int))
          (2 ^ up.2))

/-- The double nearest to `m * base ^ e`. -/
def nearest_scaled (negative : Bool) (m base : Nat) (e : Int) : Double :=
  if 0 ≤ e then nearest_double negative (m * base ^ e.toNat) 1
  else nearest_double negative m (base ^ (-e).toNat)

/-- The exponent part of a numeral: behind the letter `marker` (in either case) an
optional sign and decimal digits; 0 when there is no such part. -/
def read_exponent (marker : Char) (rest : List Char) : Int :=
  match rest with
  | [] => 0
  | c :: t =>
    if g_ascii_tolower c = marker then
      let digits := (if t.head? = some '-' ∨ t.head? = some '+' then t.tail else t).takeWhile
        is_digit
      let value := digits.foldl (fun acc d => acc * 10 + (d.toNat - '0'.toNat)) 0
      if t.head? = some '-' then -(value : Int) else (value : Int)
    else 0

/-- GLib `g_ascii_strtod (nptr, NULL)`, which is `strtod` of the C library in the C
locale: white space is skipped and a sign is read; then `inf` or `infinity` gives an
infinity and `nan` gives NaN (letters in either case); a hexadecimal numeral (`0x`,
hexadecimal digits with an optional point, an optional binary exponent behind `p`) or a
decimal numeral (digits with an optional point, an optional exponent behind `e`) gives the
double nearest to the number written; and the result is 0 when there is no numeral. Used
for the concrete headers below. -/
def g_ascii_strtod (nptr : List Char) : Double :=
  let negative := decide ((skip_space nptr).head? = some '-')
  let s :=
    if (skip_space nptr).head? = some '-' ∨ (skip_space nptr).head? = some '+' then
      (skip_space nptr).tail
    else skip_space nptr
  let is_xdigit := fun c : Char => (g_ascii_xdigit_value c).isSome
  let xwhole := (s.drop 2).takeWhile is_xdigit
  let xrest := (s.drop 2).dropWhile is_xdigit
  let xfrac := if xrest.head? = some '.' then xrest.tail.takeWhile is_xdigit else []
  let whole := s.takeWhile is_digit
  let rest := s.dropWhile is_digit
  let frac := if rest.head? = some '.' then rest.tail.takeWhile is_digit else []
  if starts_with (s.map g_ascii_tolower) "inf".toList then
    (if negative then Double.neg_inf else Double.pos_inf)
  else if starts_with (s.map g_ascii_tolower) "nan".toList then Double.nan
  else if starts_with (s.map g_ascii_tolower) "0x".toList ∧ (xwhole ≠ [] ∨ xfrac ≠ []) then
    nearest_scaled negative
      ((xwhole ++ xfrac).foldl (fun acc c => acc * 16 + (g_ascii_xdigit_value c).getD 0) 0) 2
      (read_exponent 'p'
          (if xrest.head? = some '.' then xrest.tail.dropWhile is_xdigit else xrest) -
        4 * (xfrac.length : Int))
  else if whole = [] ∧ frac = [] then Double.finite 0
  else
    nearest_scaled negative
      ((whole ++ frac).foldl (fun acc c => acc * 10 + (c.toNat - '0'.toNat)) 0) 10
      (read_exponent 'e'
          (if rest.head? = some '.' then rest.tail.dropWhile is_digit else rest) -
        (frac.length : Int))

/-! ## The parsers of the spec, for concrete requests -/

/-- The line in front of the first CRLF of `data` and what follows that CRLF. -/
def split_crlf : List Char → Option (List Char × List Char)
  | [] => none
  | [_] => none
  | a :: b :: t =>
    if a = '\r' ∧ b = '\n' then some ([], t)
    else match split_crlf (b :: t) with
      | none => none
      | some (line, rest) => some (a :: line, rest)

/-- The pieces of a line between its space characters. -/
def split_spaces : List Char → List (List Char)
  | [] => [[]]
  | c :: t =>
    match split_spaces t with
    | [] => [[]]
    | w :: ws => if c = ' ' then [] :: w :: ws else (c :: w) :: ws

/-- Modelled from the spec: `web_socket_util_parse_req_line` of `websocket/websocket.c`,
which is not among the sources. Section 4.1: it reads up to CRLF and splits the line into
method, target and version; without a CRLF it needs more input (result `0`); a line with
the wrong token count or a non-ASCII byte is invalid (negative result); otherwise the
result is the number of bytes consumed. -/
def spec_parse_req_line (data : List Char) : ReqLine :=
  match split_crlf data with
  | none => { off := 0, method := [], resource := none }
  | some (line, _) =>
    if line.any (fun c => decide (c.toNat ≥ 128)) then { off := -1, method := [], resource := none }
    else
      match split_spaces line with
      | [method, target, _] =>
        { off := (line.length : Int) + 2, method := method, resource := some target }
      | _ => { off := -1, method := [], resource := none }

/-- Surrounding white space removed. -/
def trim (s : List Char) : List Char :=
  (s.dropWhile g_ascii_isspace).rdropWhile g_ascii_isspace

/-- The line loop of `spec_parse_headers`: `consumed` bytes are behind, `table` holds the
headers read so far. One unit of fuel per line. -/
def spec_parse_headers_loop : Nat → List Char → Nat → GHashTable → Headers
  | 0, _, _, _ => { off := 0, headers := [] }
  | fuel + 1, data, consumed, table =>
    match split_crlf data with
    | none => { off := 0, headers := [] }
    | some (line, rest) =>
      if line = [] then { off := (consumed : Int) + 2, headers := table }
      else
        match strchr line ':' with
        | none => { off := -1, headers := [] }
        | some pos =>
          spec_parse_headers_loop fuel rest (consumed + line.length + 2)
            (g_hash_table_replace table (trim (cut_at line pos)) (trim pos.tail))

/-- Modelled from the spec: `web_socket_util_parse_headers` of `websocket/websocket.c`,
which is not among the sources. Section 4.1: it consumes lines `Name: Value` until a blank
line, trims the values, lets the last duplicate win, needs more input (result `0`) while
the blank line is missing, and otherwise reports the number of bytes consumed. A line
without a colon is invalid (negative result). -/
def spec_parse_headers (data : List Char) : Headers :=
  spec_parse_headers_loop (data.length + 1) data 0 []

/-- The parsers as the spec describes them. -/
def spec_parsers : Parsers :=
  { web_socket_util_parse_req_line := spec_parse_req_line
    web_socket_util_parse_headers := spec_parse_headers }

/-- A request as `cockpit_web_request_start` makes it, with `data` read into its buffer
by `on_socket_input`. -/
def request_with (data : String) : CockpitWebRequest :=
  { cockpit_web_request_start with buffer := data.toList, eof_okay := false }

/-- A server with the given URL root set through the setter. -/
def server_with_root (url_root : String) : CockpitWebServer :=
  cockpit_web_server_set_url_root cockpit_web_server_new url_root.toList

/-! ## Vocabulary of the claims -/

/-- What the request-line parser reports on the buffer of the request. -/
abbrev req_line (P : Parsers) (request : CockpitWebRequest) : ReqLine :=
  P.web_socket_util_parse_req_line request.buffer

/-- What the header parser reports on the buffer behind the request line. -/
abbrev req_headers (P : Parsers) (request : CockpitWebRequest) : Headers :=
  P.web_socket_util_parse_headers (request.buffer.drop (req_line P request).off.toNat)

/-- The request target the request-line parser found (empty when it stored none). -/
abbrev target (P : Parsers) (request : CockpitWebRequest) : List Char :=
  (req_line P request).resource.getD []

/-- The value of the header `name` in the parsed header table. -/
abbrev header (P : Parsers) (request : CockpitWebRequest) (name : String) :
    Option (List Char) :=
  g_hash_table_lookup (req_headers P request).headers name.toList

/-- The head of the request is valid: the buffer is within the hard limit, the
request-line parser consumed a positive number of bytes and found a target that begins
with a slash, and the header parser consumed a positive number of bytes. -/
abbrev head_valid (P : Parsers) (request : CockpitWebRequest) : Prop :=
  request.buffer.length ≤ 2 * cockpit_webserver_request_maximum ∧
  0 < (req_line P request).off ∧
  (req_line P request).resource ≠ none ∧
  (target P request).head? = some '/' ∧
  0 < (req_headers P request).off

/-- The number of bytes of the head: request line and header block. -/
abbrev head_length (P : Parsers) (request : CockpitWebRequest) : Int :=
  (req_line P request).off + (req_headers P request).off

/-- The target matches the URL root: the root is empty, or `path_has_prefix` holds. -/
abbrev root_matches (self : CockpitWebServer) (t : List Char) : Prop :=
  self.url_root = [] ∨ ( path_has_prefix t self.url_root) = true

/-- The body length the head declares: `some 0` without a Content-Length header,
`some n` when `g_ascii_strtoull` reads the header value to its end as `n`, and `none` when
it leaves characters unread. -/
def declared_length (P : Parsers) (request : CockpitWebRequest) : Option Nat :=
  match header P request "Content-Length" with
  | none => some 0
  | some v => if (g_ascii_strtoull v).2 = [] then some (g_ascii_strtoull v).1 else none

/-- The status in `delayed_reply` after the method check and the Host check of
`parse_and_process_request`, from the status `d` in front of them. -/
def validated_code (d : Int) (method : Option (List Char)) (host : Option (List Char)) : Int :=
  if host = none ∨ host = some [] then 400
  else if method ≠ some "GET".toList ∧ method ≠ some "HEAD".toList then 405
  else d

/-- The request that `parse_and_process_request` hands to `process_request`, from the
request in front of the method check. -/
def validated (request : CockpitWebRequest) (off1 off2 : Int) : CockpitWebRequest :=
  { request with
    buffer := g_byte_array_remove_range request.buffer (off1 + off2)
    delayed_reply := validated_code request.delayed_reply request.method
      (g_hash_table_lookup (request.headers.getD []) "Host".toList)
    host := g_hash_table_lookup (request.headers.getD []) "Host".toList
    protocol := some "http".toList
    origin := some ("http".toList ++ "://".toList ++
      (g_hash_table_lookup (request.headers.getD []) "Host".toList).getD "(null)".toList) }

/-- The request in front of the method check, when the head is valid and declares the
body length `n`. -/
def parsed (P : Parsers) (request : CockpitWebRequest) (n : Nat) : CockpitWebRequest :=
  { request with
    method := some (req_line P request).method
    original_path := (req_line P request).resource
    headers := some (req_headers P request).headers
    delayed_reply := if n ≠ 0 then 413 else request.delayed_reply }

/-- The target begins with the root followed by a slash or by the end of the string. -/
abbrev begins_with_root (root t : List Char) : Prop :=
  ∃ rest, t = root ++ rest ∧ (rest = [] ∨ rest.head? = some '/')

/-- A server with URL root `/app`, one `handle-stream` handler that declines and one
`handle-resource` handler, connected without detail, that claims. -/
def server_with_handlers : CockpitWebServer :=
  { server_with_root "/app" with
    stream_handlers := [fun _ => false]
    resource_handlers := [(none, fun _ _ => true)] }

/-- The value of a string of decimal digits. -/
def decimal_value (s : List Char) : Nat :=
  s.foldl (fun acc c => acc * 10 + (c.toNat - '0'.toNat)) 0

/-- A non-empty string of decimal digits. -/
abbrev is_decimal (s : List Char) : Prop :=
  s ≠ [] ∧ s.all is_digit = true

/-- The strings `g_ascii_strtoull` reads to their end as a number: optional white space,
an optional sign, then one or more decimal digits. -/
def is_signed_decimal (s : List Char) : Bool :=
  match skip_space s with
  | [] => false
  | c :: t =>
    if c = '-' ∨ c = '+' then (!t.isEmpty) && t.all is_digit
    else (c :: t).all is_digit

/-- The method is one the server supports. -/
abbrev method_supported (P : Parsers) (request : CockpitWebRequest) : Prop :=
  (req_line P request).method = "GET".toList ∨ (req_line P request).method = "HEAD".toList

/-- The Host header is present and not empty. -/
abbrev host_given (P : Parsers) (request : CockpitWebRequest) : Prop :=
  header P request "Host" ≠ none ∧ header P request "Host" ≠ some []

/-- The first non-zero status that the checks assign to `delayed_reply`, in the order
in which they run on a request that declares the body length `n`: 413 for a non-zero
length, 405 for the method, 400 for the Host header, 404 for the URL root; `0` when no
check fails. -/
def first_code (self : CockpitWebServer) (P : Parsers) (request : CockpitWebRequest)
    (n : Nat) : Int :=
  if n ≠ 0 then 413
  else if ¬ method_supported P request then 405
  else if ¬ host_given P request then 400
  else if ¬ root_matches self (target P request) then 404
  else 0

/-- The last status that the checks assign to `delayed_reply`: 404 for the URL root,
else 400 for the Host header, else 405 for the method, else 413 for a non-zero length;
`0` when no check fails. -/
def last_code (self : CockpitWebServer) (P : Parsers) (request : CockpitWebRequest)
    (n : Nat) : Int :=
  if ¬ root_matches self (target P request) then 404
  else if ¬ host_given P request then 400
  else if ¬ method_supported P request then 405
  else if n ≠ 0 then 413
  else 0

/-- The request states the pipeline can reach: the state `cockpit_web_request_start`
makes, and every state that `on_socket_input` leaves when it is called on a reachable
state of a request that is still live (the call before returned `TRUE`). -/
inductive Reachable (self : CockpitWebServer) (P : Parsers) : CockpitWebRequest → Prop where
  | start : Reachable self P cockpit_web_request_start
  | input (request : CockpitWebRequest) (read : SocketRead) :
      Reachable self P request →
      (on_socket_input self P request read).again = true →
      Reachable self P (on_socket_input self P request read).request

/-- The statuses that `delayed_reply` takes. -/
abbrev status_known (d : Int) : Prop :=
  d = 0 ∨ d = 400 ∨ d = 404 ∨ d = 405 ∨ d = 413

/-- The part of a target in front of its first `?`. -/
def before_query (s : List Char) : List Char :=
  s.takeWhile (· ≠ '?')

/-- Specification side of `detail_token`: the path up to and including the first slash at
an index of at least one, when there is such a slash, and the whole path otherwise. -/
def spec_detail (p : List Char) : List Char :=
  if '/' ∈ p.drop 1 then p.take ((p.drop 1).indexOf '/' + 2) else p

/-- The path of the request for which `handle-stream` is emitted, for other events
`none`. -/
def Event.stream_path : Event → Option (List Char)
  | .emit_handle_stream request => request.path
  | _ => none

/-- A server with empty URL root whose only `handle-stream` handler and only
`handle-resource` handler decline every request. -/
def server_with_decliners : CockpitWebServer :=
  { server_with_root "" with
    stream_handlers := [fun _ => false]
    resource_handlers := [(none, fun _ _ => false)] }

/-- A server with empty URL root whose `handle-stream` handler claims only the path
`/claimed` and whose `handle-resource` handler is connected with the detail `/static/` and
claims every request it is invoked on. -/
def server_with_static : CockpitWebServer :=
  { server_with_root "" with
    stream_handlers := [fun q => q.path == some "/claimed".toList]
    resource_handlers := [(some "/static/".toList, fun _ _ => true)] }

/-- A Cookie header table with the single entry `Cookie: value`. -/
def cookie_table (value : String) : GHashTable :=
  [("Cookie".toList, value.toList)]

/-- The comparison `a <= b` of C on doubles, which is false when either side is NaN. -/
def Double.le (a b : Double) : Bool :=
  Double.eq a b || Double.lt a b

/-- An order on all doubles that is `<=` between numbers and puts NaN below every number.
It serves the proofs about sorting. -/
def Double.rank_le : Double → Double → Bool
  | .nan, _ => true
  | _, .nan => false
  | a, b => Double.le a b

/-- A comparison function that orders all entries by `Double.rank_le` of their q-values,
descending. It agrees with `sort_qvalue` on entries whose q-values are not NaN. -/
def rank_compare (la lb : Language) : Int :=
  if Double.rank_le lb.qvalue la.qvalue then 0 else 1

/-- The pieces of a header between its commas; a header without a comma is one piece. -/
def comma_pieces : List Char → List (List Char)
  | [] => [[]]
  | c :: t =>
    if c = ',' then [] :: comma_pieces t
    else match comma_pieces t with
      | [] => [[c]]
      | piece :: pieces => (c :: piece) :: pieces

/-- The q-value of a piece the way the source reads it: when the text from the first
semicolon of the piece on begins with `;q=`, the number behind that, with 0 in the place
of a number below 0; and 1 otherwise. -/
def piece_qvalue (strtod : List Char → Double) (piece : List Char) : Double :=
  if starts_with (piece.dropWhile (· ≠ ';')) ";q=".toList then
    (if Double.lt (strtod ((piece.dropWhile (· ≠ ';')).drop 3)) (Double.finite 0) then
      Double.finite 0
    else strtod ((piece.dropWhile (· ≠ ';')).drop 3))
  else Double.finite 1

/-- The q-value of a piece the way C24 words it: the number behind the first `;q=` of the
piece, and 1 when the piece has no `;q=`. -/
def claimed_qvalue (strtod : List Char → Double) (piece : List Char) : Double :=
  match strstr piece ";q=".toList with
  | none => Double.finite 1
  | some pos => strtod (pos.drop 3)

/-- The entries of C24 for a given reading of the q-value: the default with q-value `0.1`,
when there is one, and then one entry for every piece, whose token is the text in front of
the first semicolon of the piece. -/
def entries_of (qvalue : List Char → Double) (accept : List Char)
    (defawlt : Option (List Char)) : List Language :=
  (match defawlt with
    | some d => [{ qvalue := default_qvalue, value := d }]
    | none => []) ++
  (comma_pieces accept).map (fun piece =>
    { qvalue := qvalue piece, value := piece.takeWhile (· ≠ ';') })

/-- The full token of an entry in the output: lower-cased and stripped. -/
def full_token (lang : Language) : List Char :=
  g_strstrip (g_ascii_strdown lang.value)

/-- The base-language token of an entry in the output: the text in front of the first
`-`, lower-cased and stripped. -/
def base_token (lang : Language) : List Char :=
  g_strstrip (g_ascii_strdown (lang.value.takeWhile (· ≠ '-')))

/-- The output of C24 for a list of entries that is already in the order of the output:
the full tokens, then the base-language tokens of the entries that contain `-`. -/
def tokens_of (sorted : List Language) : List (List Char) :=
  sorted.map full_token ++
    (sorted.filter (fun lang => decide ('-' ∈ lang.value))).map base_token

/-- The output of C24 for a list of entries: the entries with a q-value above 0 are
brought into descending order of q-value, entries of equal q-value keeping their order,
and listed by `tokens_of`. -/
def listed (entries : List Language) : List (List Char) :=
  tokens_of ((entries.filter (fun lang => Double.lt (Double.finite 0) lang.qvalue)).insertionSort
    (fun a b => Double.le b.qvalue a.qvalue = true))

/-! ## Theorems: URL root -/

theorem erase_leading_eq_dropWhile (s : List Char) :
    erase_leading s = s.dropWhile (· = '/') := by
  induction s with
  | nil => rfl
  | cons c t ih =>
    by_cases h : c = '/'
    · simp [erase_leading, h, ih]
    · simp [erase_leading, h]

theorem truncate_trailing_eq_rdropWhile (fuel : Nat) (s : List Char) (h : s.length ≤ fuel) :
    truncate_trailing fuel s = s.rdropWhile (· = '/') := by
  induction fuel generalizing s with
  | zero =>
    have : s = [] := List.length_eq_zero.mp (Nat.le_zero.mp h)
    subst this
    simp [truncate_trailing]
  | succ n ih =>
    rcases List.eq_nil_or_concat s with rfl | ⟨l, x, rfl⟩
    · simp [truncate_trailing]
    · have hl : l.length ≤ n := by simpa using h
      by_cases hx : x = '/'
      · simp [truncate_trailing, hx, ih l hl, List.rdropWhile_concat]
      · simp [truncate_trailing, hx, List.rdropWhile_concat]

theorem normalize_url_root_eq (s : List Char) :
    normalize_url_root s = if strip_slashes s = [] then [] else '/' :: strip_slashes s := by
  unfold normalize_url_root strip_slashes
  rw [erase_leading_eq_dropWhile]
  by_cases h0 : (s.dropWhile (· = '/')).length = 0
  · have h1 : s.dropWhile (· = '/') = [] := List.length_eq_zero.mp h0
    simp [h1]
  · simp only [h0, ne_eq, not_false_eq_true, if_true]
    rw [truncate_trailing_eq_rdropWhile _ _ (le_refl _)]
    by_cases h2 : (s.dropWhile (· = '/')).rdropWhile (· = '/') = []
    · simp [h2]
    · have h3 : ((s.dropWhile (· = '/')).rdropWhile (· = '/')).length ≠ 0 := by
        intro hc; exact h2 (List.length_eq_zero.mp hc)
      simp [h2]

theorem strip_slashes_getLast (s : List Char) (h : strip_slashes s ≠ []) :
    (strip_slashes s).getLast? ≠ some '/' := by
  have := List.rdropWhile_last_not (fun c : Char => decide (c = '/')) (s.dropWhile (· = '/')) h
  intro hc
  rw [List.getLast?_eq_getLast _ h] at hc
  simp only [Option.some.injEq] at hc
  apply this
  unfold strip_slashes at hc
  simp [hc]

/-- C1: after `cockpit_web_server_set_url_root (self, s)` the stored URL root is empty when
`s` without its leading and trailing slashes is empty, and otherwise is a slash followed by
that stripped string; so it is empty, or begins with a slash and does not end with one. -/
theorem set_url_root_normalized (self : CockpitWebServer) (s : List Char) :
    (cockpit_web_server_set_url_root self s).url_root =
        (if strip_slashes s = [] then [] else '/' :: strip_slashes s) ∧
      ((cockpit_web_server_set_url_root self s).url_root = [] ∨
        ((cockpit_web_server_set_url_root self s).url_root.head? = some '/' ∧
          (cockpit_web_server_set_url_root self s).url_root.getLast? ≠ some '/')) := by
  have e : (cockpit_web_server_set_url_root self s).url_root = normalize_url_root s := rfl
  rw [e, normalize_url_root_eq]
  refine ⟨rfl, ?_⟩
  by_cases h : strip_slashes s = []
  · left; simp [h]
  · right
    simp only [h, if_false, List.head?_cons, true_and]
    obtain ⟨a, t, hat⟩ := List.exists_cons_of_ne_nil h
    have := strip_slashes_getLast s h
    rw [hat] at this ⊢
    simpa [List.getLast?_cons_cons] using this

/-! ## Theorems: the pipeline -/

theorem parse_reaches_check_length (self : CockpitWebServer) (P : Parsers)
    (request : CockpitWebRequest) (hv : head_valid P request) :
    parse_and_process_request self P request =
      check_length self
        { request with
          method := some (req_line P request).method
          original_path := (req_line P request).resource
          headers := some (req_headers P request).headers }
        (req_line P request).off (req_headers P request).off := by
  obtain ⟨h1, h2, h3, h4, h5⟩ := hv
  unfold parse_and_process_request
  have a1 : ¬ request.buffer.length > cockpit_webserver_request_maximum * 2 := by omega
  have a2 : ¬ (P.web_socket_util_parse_req_line request.buffer).off = 0 := by
    intro h; simp only [req_line] at h2; omega
  have a3 : ¬ (P.web_socket_util_parse_req_line request.buffer).off < 0 := by
    simp only [req_line] at h2; omega
  have a4 : ¬ (P.web_socket_util_parse_headers
      (List.drop (P.web_socket_util_parse_req_line request.buffer).off.toNat
        request.buffer)).off = 0 := by
    intro h; simp only [req_headers, req_line] at h5; omega
  have a5 : ¬ (P.web_socket_util_parse_headers
      (List.drop (P.web_socket_util_parse_req_line request.buffer).off.toNat
        request.buffer)).off < 0 := by
    simp only [req_headers, req_line] at h5; omega
  simp only [a1, a2, a3, a4, a5, if_false]
  simp only [req_line, target] at h3 h4
  simp [h3, h4]

theorem needed_length_eq (off1 off2 : Int) (n : Nat) (len : Nat) (h1 : 0 < off1)
    (h2 : 0 < off2) (hl : len ≤ 2 * cockpit_webserver_request_maximum)
    (h : off1 + off2 + (n : Int) ≤ len) :
    ¬ ((len : Int) < needed_length off1 off2 n) := by
  unfold needed_length
  unfold cockpit_webserver_request_maximum at hl
  have : (off1 + off2 + (n : Int)) % 2 ^ 64 = off1 + off2 + (n : Int) := by
    apply Int.emod_eq_of_lt <;> omega
  rw [this]; omega

theorem parse_of_declared (self : CockpitWebServer) (P : Parsers)
    (request : CockpitWebRequest) (hv : head_valid P request) (n : Nat)
    (hn : declared_length P request = some n) :
    parse_and_process_request self P request =
      if (request.buffer.length : Int) <
          needed_length (req_line P request).off (req_headers P request).off n then
        out true (parsed P request n) []
      else
        validate_and_process self (parsed P request n)
          (req_line P request).off (req_headers P request).off := by
  rw [parse_reaches_check_length self P request hv]
  unfold check_length parsed
  unfold declared_length header at hn
  simp only [Option.getD_some]
  cases hc : g_hash_table_lookup (req_headers P request).headers "Content-Length".toList with
  | none =>
    rw [hc] at hn
    simp only [Option.some.injEq] at hn
    subst hn
    simp
  | some v =>
    rw [hc] at hn
    simp only at hn
    by_cases he : (g_ascii_strtoull v).2 = []
    · simp only [he, if_true, Option.some.injEq] at hn
      subst hn
      by_cases h0 : (g_ascii_strtoull v).1 = 0
      · simp [he, h0]
      · simp [he, h0]
    · simp [he] at hn

theorem validate_and_process_eq (self : CockpitWebServer) (request : CockpitWebRequest)
    (off1 off2 : Int) :
    validate_and_process self request off1 off2 =
      out false (process_request self (validated request off1 off2)).1
        (process_request self (validated request off1 off2)).2 := by
  unfold validate_and_process validated validated_code
  simp only []
  split_ifs <;> rfl


theorem out_trace (again : Bool) (request : CockpitWebRequest) (trace : List Event) :
    (out again request trace).trace = if again then trace else trace ++ [Event.finish] := rfl

theorem out_again (again : Bool) (request : CockpitWebRequest) (trace : List Event) :
    (out again request trace).again = again := rfl

theorem out_request (again : Bool) (request : CockpitWebRequest) (trace : List Event) :
    (out again request trace).request = request := rfl

theorem parse_invalid_head (self : CockpitWebServer) (P : Parsers)
    (request : CockpitWebRequest) (hv : ¬ head_valid P request) :
    (parse_and_process_request self P request).trace = [] ∨
      (parse_and_process_request self P request).trace = [Event.finish] := by
  unfold parse_and_process_request
  simp only []
  split_ifs with h1 h2 h3 h4 h5 h6
  · right; rfl
  · left; rfl
  · right; rfl
  · right; rfl
  · left; rfl
  · right; rfl
  · exfalso
    apply hv
    refine ⟨by omega, by simp only [req_line]; omega, ?_, ?_, by simp only [req_headers, req_line]; omega⟩
    · intro hc; exact h4 (Or.inl hc)
    · by_contra hc; exact h4 (Or.inr hc)

theorem parse_invalid_length (self : CockpitWebServer) (P : Parsers)
    (request : CockpitWebRequest) (hv : head_valid P request)
    (hn : declared_length P request = none) :
    parse_and_process_request self P request =
      out false { parsed P request 0 with delayed_reply := 400 } [] := by
  rw [parse_reaches_check_length self P request hv]
  unfold check_length parsed
  unfold declared_length header at hn
  simp only [Option.getD_some]
  cases hc : g_hash_table_lookup (req_headers P request).headers "Content-Length".toList with
  | none => rw [hc] at hn; simp at hn
  | some v =>
    rw [hc] at hn
    simp only at hn
    by_cases he : (g_ascii_strtoull v).2 = []
    · simp [he] at hn
    · simp [he]

theorem parse_received (self : CockpitWebServer) (P : Parsers)
    (request : CockpitWebRequest) (hv : head_valid P request) (n : Nat)
    (hn : declared_length P request = some n)
    (hrecv : ¬ ((request.buffer.length : Int) <
      needed_length (req_line P request).off (req_headers P request).off n)) :
    parse_and_process_request self P request =
      out false
        (process_request self (validated (parsed P request n)
          (req_line P request).off (req_headers P request).off)).1
        (process_request self (validated (parsed P request n)
          (req_line P request).off (req_headers P request).off)).2 := by
  rw [parse_of_declared self P request hv n hn, if_neg hrecv, validate_and_process_eq]

theorem parse_pending (self : CockpitWebServer) (P : Parsers)
    (request : CockpitWebRequest) (hv : head_valid P request) (n : Nat)
    (hn : declared_length P request = some n)
    (hpend : (request.buffer.length : Int) <
      needed_length (req_line P request).off (req_headers P request).off n) :
    parse_and_process_request self P request = out true (parsed P request n) [] := by
  rw [parse_of_declared self P request hv n hn, if_pos hpend]

/-! ### `process_request` -/

theorem process_request_mismatch (self : CockpitWebServer) (r : CockpitWebRequest)
    (h1 : self.url_root ≠ [])
    (h2 : ( path_has_prefix (r.original_path.getD []) self.url_root) = false) :
    process_request self r = ({ r with delayed_reply := 404 }, [Event.response_error 404]) := by
  have h3 : self.url_root.length ≠ 0 := fun h => h1 (List.length_eq_zero.mp h)
  unfold process_request process_delayed_reply
  simp [h1, h2]

theorem process_request_delayed (self : CockpitWebServer) (r : CockpitWebRequest)
    (hroot : root_matches self (r.original_path.getD []))
    (hd : 299 < r.delayed_reply) :
    process_request self r = (r, [Event.response_error r.delayed_reply]) := by
  have hd0 : r.delayed_reply ≠ 0 := by omega
  unfold process_request process_delayed_reply
  rcases hroot with h | h
  · simp [h, hd0, hd]
  · simp [h, hd0, hd]

theorem run_stream_handlers_events (hs : List (CockpitWebRequest → Bool)) (index : Nat)
    (request : CockpitWebRequest) (e : Event)
    (he : e ∈ (run_stream_handlers hs index request).2) :
    ∃ i, e = Event.handle_stream i request := by
  induction hs generalizing index with
  | nil => simp [run_stream_handlers] at he
  | cons h t ih =>
    unfold run_stream_handlers at he
    split_ifs at he with hc
    · simp only [List.mem_singleton] at he
      exact ⟨index, he⟩
    · simp only [List.mem_cons] at he
      rcases he with he | he
      · exact ⟨index, he⟩
      · exact ih (index + 1) he

theorem run_resource_handlers_events
    (hs : List (Option (List Char) × (List Char → GHashTable → Bool))) (index : Nat)
    (detail path : List Char) (headers : GHashTable) (e : Event)
    (he : e ∈ (run_resource_handlers hs index detail path headers).2) :
    ∃ i, e = Event.handle_resource i path := by
  induction hs generalizing index with
  | nil => simp [run_resource_handlers] at he
  | cons h t ih =>
    obtain ⟨d, f⟩ := h
    unfold run_resource_handlers at he
    split_ifs at he with hc hf
    · simp only [List.mem_singleton] at he
      exact ⟨index, he⟩
    · simp only [List.mem_cons] at he
      rcases he with he | he
      · exact ⟨index, he⟩
      · exact ih (index + 1) he
    · exact ih (index + 1) he

theorem default_handle_stream_events (self : CockpitWebServer) (r : CockpitWebRequest)
    (e : Event) (he : e ∈ (cockpit_web_server_default_handle_stream self r).2.2) :
    (∃ d p, e = Event.emit_handle_resource d p) ∨ (∃ i p, e = Event.handle_resource i p) ∨
      e = Event.response_error 404 := by
  unfold cockpit_web_server_default_handle_stream at he
  simp only [List.mem_cons, List.mem_append] at he
  rcases he with he | he | he
  · exact Or.inl ⟨_, _, he⟩
  · obtain ⟨i, hi⟩ := run_resource_handlers_events _ _ _ _ _ _ he
    exact Or.inr (Or.inl ⟨i, _, hi⟩)
  · split_ifs at he with hc
    · simp at he
    · simp only [cockpit_web_server_default_handle_resource, List.mem_singleton] at he
      exact Or.inr (Or.inr he)

theorem default_handle_stream_claimed (self : CockpitWebServer) (r : CockpitWebRequest) :
    (cockpit_web_server_default_handle_stream self r).1 = true := by
  unfold cockpit_web_server_default_handle_stream
  simp only []
  split_ifs <;> rfl

theorem process_request_dispatch (self : CockpitWebServer) (r : CockpitWebRequest)
    (hroot : root_matches self (r.original_path.getD []))
    (hd : r.delayed_reply = 0) :
    ∃ rest, (process_request self r).2 = Event.emit_handle_stream (set_path self r) :: rest ∧
      ∀ e ∈ rest, (∀ q, e ≠ Event.emit_handle_stream q) ∧
        (∀ i q, e = Event.handle_stream i q → q = set_path self r) := by
  have hc : ¬ (self.url_root.length ≠ 0 ∧
      ( path_has_prefix (r.original_path.getD []) self.url_root) = false) := by
    rcases hroot with h | h
    · simp [h]
    · simp [h]
  unfold process_request
  simp only [hc, if_false, hd, ne_eq, not_true_eq_false, default_handle_stream_claimed,
    if_true, List.append_nil]
  split_ifs with hs
  · refine ⟨_, rfl, ?_⟩
    intro e he
    obtain ⟨i, hi⟩ := run_stream_handlers_events _ _ _ _ he
    subst hi
    exact ⟨fun q hq => (by cases hq), fun j q hq => (by cases hq; rfl)⟩
  · refine ⟨_, rfl, ?_⟩
    intro e he
    simp only [List.mem_append] at he
    rcases he with he | he
    · obtain ⟨i, hi⟩ := run_stream_handlers_events _ _ _ _ he
      subst hi
      exact ⟨fun q hq => (by cases hq), fun j q hq => (by cases hq; rfl)⟩
    · rcases default_handle_stream_events _ _ _ he with ⟨d, p, h⟩ | ⟨i, p, h⟩ | h <;> subst h <;>
        exact ⟨fun q hq => (by cases hq), fun j q hq => (by cases hq)⟩

theorem process_request_no_dispatch (self : CockpitWebServer) (r : CockpitWebRequest)
    (h : ¬ (r.delayed_reply = 0 ∧ root_matches self (r.original_path.getD []))) :
    ∀ e ∈ (process_request self r).2, e.is_dispatch = false := by
  by_cases hm : self.url_root ≠ [] ∧
      ( path_has_prefix (r.original_path.getD []) self.url_root) = false
  · rw [process_request_mismatch self r hm.1 hm.2]
    intro e he
    simp only [List.mem_singleton] at he
    subst he; rfl
  · have hroot : root_matches self (r.original_path.getD []) := by
      by_cases h1 : self.url_root = []
      · exact Or.inl h1
      · right
        by_contra h2
        exact hm ⟨h1, by simpa using h2⟩
    have hd : r.delayed_reply ≠ 0 := fun h0 => h ⟨h0, hroot⟩
    have hc : ¬ (self.url_root.length ≠ 0 ∧
        ( path_has_prefix (r.original_path.getD []) self.url_root) = false) := by
      rcases hroot with h | h
      · simp [h]
      · simp [h]
    unfold process_request process_delayed_reply
    simp only [hc, if_false, hd, ne_eq, not_false_eq_true, if_true]
    intro e he
    split_ifs at he <;> simp only [List.mem_singleton] at he <;> subst he <;> rfl


theorem validated_code_eq_zero (d : Int) (method host : Option (List Char))
    (h : validated_code d method host = 0) :
    d = 0 ∧ (method = some "GET".toList ∨ method = some "HEAD".toList) ∧
      host ≠ none ∧ host ≠ some [] := by
  unfold validated_code at h
  split_ifs at h with h1 h2
  · omega
  · omega
  · refine ⟨h, ?_, fun hc => h1 (Or.inl hc), fun hc => h1 (Or.inr hc)⟩
    by_contra hc
    exact h2 ⟨fun h3 => hc (Or.inl h3), fun h3 => hc (Or.inr h3)⟩

theorem dispatch_inv (self : CockpitWebServer) (P : Parsers) (request : CockpitWebRequest)
    (e : Event) (he : e ∈ (parse_and_process_request self P request).trace)
    (hd : e.is_dispatch = true) :
    head_valid P request ∧ declared_length P request = some 0 ∧ request.delayed_reply = 0 ∧
      ((req_line P request).method = "GET".toList ∨
        (req_line P request).method = "HEAD".toList) ∧
      header P request "Host" ≠ none ∧ header P request "Host" ≠ some [] ∧
      root_matches self (target P request) ∧
      (validated (parsed P request 0) (req_line P request).off
        (req_headers P request).off).delayed_reply = 0 ∧
      (parse_and_process_request self P request).trace =
        (process_request self (validated (parsed P request 0)
          (req_line P request).off (req_headers P request).off)).2 ++ [Event.finish] := by
  by_cases hv : head_valid P request
  swap
  · rcases parse_invalid_head self P request hv with h | h <;> rw [h] at he
    · simp at he
    · simp only [List.mem_singleton] at he; subst he; cases hd
  cases hn : declared_length P request with
  | none =>
    rw [parse_invalid_length self P request hv hn, out_trace] at he
    simp only [Bool.false_eq_true, if_false, List.nil_append, List.mem_singleton] at he
    subst he; cases hd
  | some n =>
    by_cases hp : (request.buffer.length : Int) <
        needed_length (req_line P request).off (req_headers P request).off n
    · rw [parse_pending self P request hv n hn hp, out_trace] at he
      simp at he
    · have hr := parse_received self P request hv n hn hp
      rw [hr, out_trace] at he ⊢
      simp only [Bool.false_eq_true, if_false, List.mem_append, List.mem_singleton] at he ⊢
      have he2 : e ∈ (process_request self (validated (parsed P request n)
          (req_line P request).off (req_headers P request).off)).2 := by
        rcases he with he | he
        · exact he
        · subst he; cases hd
      have hq : (validated (parsed P request n) (req_line P request).off
            (req_headers P request).off).delayed_reply = 0 ∧
          root_matches self ((validated (parsed P request n) (req_line P request).off
            (req_headers P request).off).original_path.getD []) := by
        by_contra hc
        have := process_request_no_dispatch self _ hc e he2
        rw [this] at hd; cases hd
      obtain ⟨hq1, hq2⟩ := hq
      have hz := validated_code_eq_zero _ _ _ hq1
      obtain ⟨hz1, hz2, hz3, hz4⟩ := hz
      have hn0 : n = 0 := by
        by_contra hc
        simp [parsed, hc] at hz1
      subst hn0
      refine ⟨hv, rfl, ?_, ?_, hz3, hz4, hq2, hq1, rfl⟩
      · simpa [parsed] using hz1
      · simpa [parsed] using hz2


/-! ## Theorems: the claims about validation and dispatch -/

theorem path_has_prefix_iff (t root : List Char) :
    ( path_has_prefix t root) = true ↔ root ≠ [] ∧ begins_with_root root t := by
  unfold path_has_prefix begins_with_root
  simp only [Bool.and_eq_true, decide_eq_true_eq, beq_iff_eq, Bool.or_eq_true]
  constructor
  · rintro ⟨⟨h1, h2⟩, h3⟩
    refine ⟨fun h => by simp [h] at h1, t.drop root.length, ?_, h3⟩
    conv_lhs => rw [← List.take_append_drop root.length t]
    rw [h2]
  · rintro ⟨h1, rest, h2, h3⟩
    subst h2
    refine ⟨⟨List.length_pos.mpr h1, by simp⟩, by simpa using h3⟩

theorem root_matches_iff (self : CockpitWebServer) (t : List Char) :
    root_matches self t ↔ (self.url_root = [] ∨ begins_with_root self.url_root t) := by
  unfold root_matches
  rw [path_has_prefix_iff]
  constructor
  · rintro (h | h)
    · exact Or.inl h
    · exact Or.inr h.2
  · rintro (h | h)
    · exact Or.inl h
    · by_cases h0 : self.url_root = []
      · exact Or.inl h0
      · exact Or.inr ⟨h0, h⟩

theorem validated_original_path (P : Parsers) (request : CockpitWebRequest) (n : Nat)
    (off1 off2 : Int) :
    (validated (parsed P request n) off1 off2).original_path = (req_line P request).resource :=
  rfl

theorem target_of_valid (P : Parsers) (request : CockpitWebRequest)
    (hv : head_valid P request) :
    (req_line P request).resource = some (target P request) := by
  obtain ⟨t, ht⟩ := Option.ne_none_iff_exists'.mp hv.2.2.1
  simp [target, ht]

/-- C2 (amended): with a non-empty URL root, a request whose head is valid, whose declared
body length is valid and whose declared body is in the buffer, and whose target does not
begin with the URL root followed by a slash or the end of the string, is answered with
status 404 and nothing else happens before the request is finished: no signal is emitted
and no handler is invoked. -/
theorem root_mismatch_404 (self : CockpitWebServer) (P : Parsers)
    (request : CockpitWebRequest)
    (hroot : self.url_root ≠ [])
    (hv : head_valid P request)
    (n : Nat) (hn : declared_length P request = some n)
    (hrecv : head_length P request + (n : Int) ≤ request.buffer.length)
    (hmis : ¬ begins_with_root self.url_root (target P request)) :
    (parse_and_process_request self P request).again = false ∧
      (parse_and_process_request self P request).trace =
        [Event.response_error 404, Event.finish] := by
  have hp := needed_length_eq _ _ n _ hv.2.1 hv.2.2.2.2 hv.1 hrecv
  rw [parse_received self P request hv n hn hp]
  have hm : ( path_has_prefix ((validated (parsed P request n) (req_line P request).off
      (req_headers P request).off).original_path.getD []) self.url_root) = false := by
    rw [validated_original_path, target_of_valid P request hv, Option.getD_some]
    by_contra hc
    exact hmis ((path_has_prefix_iff _ _).mp (by simpa using hc)).2
  rw [process_request_mismatch self _ hroot hm]
  exact ⟨rfl, rfl⟩

/-- Witness for C2 (amended): root `/app`, target `/other`. -/
theorem root_mismatch_404_witness :
    (parse_and_process_request (server_with_root "/app") spec_parsers
        (request_with "GET /other HTTP/1.1\r\nHost: x\r\n\r\n")).again = false ∧
      (parse_and_process_request (server_with_root "/app") spec_parsers
        (request_with "GET /other HTTP/1.1\r\nHost: x\r\n\r\n")).trace =
        [Event.response_error 404, Event.finish] :=
  root_mismatch_404 (server_with_root "/app") spec_parsers
    (request_with "GET /other HTTP/1.1\r\nHost: x\r\n\r\n")
    (by decide) (by decide) 0 (by decide) (by decide)
    (fun h => absurd ((path_has_prefix_iff _ _).mpr ⟨by decide, h⟩) (by decide))

/-- C2 (counterexample): with URL root `/app`, the request line and the headers of
`GET /other` parse and the target does not match the root, yet no 404 is written: with
`Content-Length: 5` and no body in the buffer the pipeline waits for more input, and with
`Content-Length: 5x` the request is finished without any response. -/
theorem root_mismatch_no_reply :
    (server_with_root "/app").url_root ≠ [] ∧
    ¬ begins_with_root (server_with_root "/app").url_root "/other".toList ∧
    (0 < (req_line spec_parsers
        (request_with "GET /other HTTP/1.1\r\nHost: x\r\nContent-Length: 5\r\n\r\n")).off ∧
      target spec_parsers
        (request_with "GET /other HTTP/1.1\r\nHost: x\r\nContent-Length: 5\r\n\r\n") =
        "/other".toList ∧
      0 < (req_headers spec_parsers
        (request_with "GET /other HTTP/1.1\r\nHost: x\r\nContent-Length: 5\r\n\r\n")).off ∧
      (parse_and_process_request (server_with_root "/app") spec_parsers
        (request_with "GET /other HTTP/1.1\r\nHost: x\r\nContent-Length: 5\r\n\r\n")).again
        = true ∧
      (parse_and_process_request (server_with_root "/app") spec_parsers
        (request_with "GET /other HTTP/1.1\r\nHost: x\r\nContent-Length: 5\r\n\r\n")).trace
        = []) ∧
    (0 < (req_line spec_parsers
        (request_with "GET /other HTTP/1.1\r\nHost: x\r\nContent-Length: 5x\r\n\r\n")).off ∧
      target spec_parsers
        (request_with "GET /other HTTP/1.1\r\nHost: x\r\nContent-Length: 5x\r\n\r\n") =
        "/other".toList ∧
      0 < (req_headers spec_parsers
        (request_with "GET /other HTTP/1.1\r\nHost: x\r\nContent-Length: 5x\r\n\r\n")).off ∧
      (parse_and_process_request (server_with_root "/app") spec_parsers
        (request_with "GET /other HTTP/1.1\r\nHost: x\r\nContent-Length: 5x\r\n\r\n")).trace
        = [Event.finish]) := by
  refine ⟨by decide, ?_, by decide, by decide⟩
  exact fun h => absurd ((path_has_prefix_iff _ _).mpr ⟨by decide, h⟩) (by decide)


theorem stream_event_request (self : CockpitWebServer) (P : Parsers)
    (request : CockpitWebRequest) (r : CockpitWebRequest)
    (h : Event.emit_handle_stream r ∈ (parse_and_process_request self P request).trace ∨
      ∃ i, Event.handle_stream i r ∈ (parse_and_process_request self P request).trace) :
    head_valid P request ∧ root_matches self (target P request) ∧
      (validated (parsed P request 0) (req_line P request).off
        (req_headers P request).off).delayed_reply = 0 ∧
      r = set_path self (validated (parsed P request 0)
        (req_line P request).off (req_headers P request).off) := by
  have key : ∃ e, e ∈ (parse_and_process_request self P request).trace ∧
      e.is_dispatch = true ∧ (e = Event.emit_handle_stream r ∨ ∃ i, e = Event.handle_stream i r) := by
    rcases h with h | ⟨i, h⟩
    · exact ⟨_, h, rfl, Or.inl rfl⟩
    · exact ⟨_, h, rfl, Or.inr ⟨i, rfl⟩⟩
  obtain ⟨e, he, hd, hr⟩ := key
  obtain ⟨hv, hn, h0, hm, hh1, hh2, hroot, hz, ht⟩ := dispatch_inv self P request e he hd
  refine ⟨hv, hroot, hz, ?_⟩
  have hroot2 : root_matches self ((validated (parsed P request 0) (req_line P request).off
      (req_headers P request).off).original_path.getD []) := by
    rw [validated_original_path, target_of_valid P request hv, Option.getD_some]
    exact hroot
  obtain ⟨rest, hrest, hall⟩ := process_request_dispatch self _ hroot2 hz
  rw [ht, hrest] at he
  simp only [List.cons_append, List.mem_cons, List.mem_append, List.not_mem_nil,
    or_false] at he
  rcases he with he | he | he
  · rcases hr with hr | ⟨i, hr⟩
    · rw [hr] at he; cases he; rfl
    · rw [hr] at he; cases he
  · rcases hr with hr | ⟨i, hr⟩
    · exact absurd hr ((hall e he).1 r)
    · exact (hall e he).2 i r hr
  · subst he; cases hd

/-- C3: in every request that is dispatched (the request of a `handle-stream` emission,
which is also the request every `handle-stream` handler is invoked on), the original path
is the request target, it is the URL root followed by the path, and the length of the
path is the length of the original path minus the length of the URL root. -/
theorem accepted_path_strips_root (self : CockpitWebServer) (P : Parsers)
    (request : CockpitWebRequest) (r : CockpitWebRequest)
    (h : Event.emit_handle_stream r ∈ (parse_and_process_request self P request).trace ∨
      ∃ i, Event.handle_stream i r ∈ (parse_and_process_request self P request).trace) :
    r.delayed_reply = 0 ∧
    ∃ original_path path, r.original_path = some original_path ∧ r.path = some path ∧
      original_path = target P request ∧
      original_path = self.url_root ++ path ∧
      path.length = original_path.length - self.url_root.length := by
  obtain ⟨hv, hroot, hz, hr⟩ := stream_event_request self P request r h
  have hd : r.delayed_reply = 0 := by subst hr; exact hz
  refine ⟨hd, target P request, (target P request).drop self.url_root.length, ?_, ?_, rfl, ?_, ?_⟩
  · subst hr
    exact target_of_valid P request hv
  · subst hr
    show Option.map _ (req_line P request).resource = _
    rw [target_of_valid P request hv]; rfl
  · rcases (root_matches_iff self _).mp hroot with h0 | ⟨rest, h1, -⟩
    · simp [h0]
    · rw [h1]; simp
  · simp

/-- Witness for C3: root `/app` and target `/app/index` give the path `/index`. -/
theorem accepted_path_strips_root_witness :
    ∃ r, Event.emit_handle_stream r ∈
        (parse_and_process_request (server_with_root "/app") spec_parsers
          (request_with "GET /app/index HTTP/1.1\r\nHost: x\r\n\r\n")).trace ∧
      r.path = some "/index".toList ∧
      (r.delayed_reply = 0 ∧
        ∃ original_path path, r.original_path = some original_path ∧ r.path = some path ∧
        original_path = target spec_parsers
          (request_with "GET /app/index HTTP/1.1\r\nHost: x\r\n\r\n") ∧
        original_path = (server_with_root "/app").url_root ++ path ∧
        path.length = original_path.length - (server_with_root "/app").url_root.length) :=
  ⟨set_path (server_with_root "/app") (validated (parsed spec_parsers
      (request_with "GET /app/index HTTP/1.1\r\nHost: x\r\n\r\n") 0) 25 11),
    by decide, by decide,
    accepted_path_strips_root (server_with_root "/app") spec_parsers
      (request_with "GET /app/index HTTP/1.1\r\nHost: x\r\n\r\n") _ (Or.inl (by decide))⟩


theorem declared_length_eq_some (P : Parsers) (request : CockpitWebRequest) (n : Nat) :
    declared_length P request = some n ↔
      ((header P request "Content-Length" = none ∧ n = 0) ∨
        ∃ v, header P request "Content-Length" = some v ∧ g_ascii_strtoull v = (n, [])) := by
  unfold declared_length
  cases hc : header P request "Content-Length" with
  | none =>
    constructor
    · intro h
      left
      exact ⟨rfl, (Option.some.inj h).symm⟩
    · rintro (⟨-, h⟩ | ⟨v, hv, -⟩)
      · rw [h]
      · cases hv
  | some v =>
    constructor
    · intro h
      right
      refine ⟨v, rfl, ?_⟩
      simp only at h
      by_cases he : (g_ascii_strtoull v).2 = []
      · rw [if_pos he] at h
        exact Prod.ext (Option.some.inj h) he
      · rw [if_neg he] at h
        cases h
    · rintro (⟨h, -⟩ | ⟨w, hw, h⟩)
      · cases h
      · cases hw
        simp [h]

/-- C4: whenever a signal is emitted for a request or a connected handler is invoked on
it (`handle-stream`, or `handle-resource` through the default stream handler), the method
is `GET` or `HEAD`, the target begins with a slash, the Host header is present and not
empty, the Content-Length header is absent or is read to its end as zero, and the URL
root is empty or the target begins with the URL root followed by a slash or the end of
the string. -/
theorem handler_invoked_valid (self : CockpitWebServer) (P : Parsers)
    (request : CockpitWebRequest) (e : Event)
    (he : e ∈ (parse_and_process_request self P request).trace)
    (hd : e.is_dispatch = true) :
    ((req_line P request).method = "GET".toList ∨
      (req_line P request).method = "HEAD".toList) ∧
    (target P request).head? = some '/' ∧
    (∃ h, header P request "Host" = some h ∧ h ≠ []) ∧
    (header P request "Content-Length" = none ∨
      ∃ v, header P request "Content-Length" = some v ∧ g_ascii_strtoull v = (0, [])) ∧
    (self.url_root = [] ∨ begins_with_root self.url_root (target P request)) := by
  obtain ⟨hv, hn, -, hm, hh1, hh2, hroot, -, -⟩ := dispatch_inv self P request e he hd
  refine ⟨hm, hv.2.2.2.1, ?_, ?_, (root_matches_iff self _).mp hroot⟩
  · obtain ⟨h, hh⟩ := Option.ne_none_iff_exists'.mp hh1
    exact ⟨h, hh, fun hc => hh2 (by rw [hh, hc])⟩
  · rcases (declared_length_eq_some P request 0).mp hn with ⟨h, -⟩ | h
    · exact Or.inl h
    · exact Or.inr h

/-- Witness for C4: `GET /app/index` with `Host: x` on a server with root `/app` whose
`handle-resource` handler is invoked. -/
theorem handler_invoked_valid_witness :
    Event.handle_resource 0 "/index".toList ∈
      (parse_and_process_request server_with_handlers spec_parsers
        (request_with "GET /app/index HTTP/1.1\r\nHost: x\r\n\r\n")).trace ∧
    (((req_line spec_parsers
        (request_with "GET /app/index HTTP/1.1\r\nHost: x\r\n\r\n")).method = "GET".toList ∨
      (req_line spec_parsers
        (request_with "GET /app/index HTTP/1.1\r\nHost: x\r\n\r\n")).method = "HEAD".toList) ∧
    (target spec_parsers
      (request_with "GET /app/index HTTP/1.1\r\nHost: x\r\n\r\n")).head? = some '/' ∧
    (∃ h, header spec_parsers
      (request_with "GET /app/index HTTP/1.1\r\nHost: x\r\n\r\n") "Host" = some h ∧ h ≠ []) ∧
    (header spec_parsers
        (request_with "GET /app/index HTTP/1.1\r\nHost: x\r\n\r\n") "Content-Length" = none ∨
      ∃ v, header spec_parsers
        (request_with "GET /app/index HTTP/1.1\r\nHost: x\r\n\r\n") "Content-Length" = some v ∧
        g_ascii_strtoull v = (0, [])) ∧
    (server_with_handlers.url_root = [] ∨ begins_with_root server_with_handlers.url_root
      (target spec_parsers (request_with "GET /app/index HTTP/1.1\r\nHost: x\r\n\r\n")))) :=
  ⟨by decide,
    handler_invoked_valid server_with_handlers spec_parsers
      (request_with "GET /app/index HTTP/1.1\r\nHost: x\r\n\r\n")
      (Event.handle_resource 0 "/index".toList) (by decide) rfl⟩

theorem validated_code_method (d : Int) (m : List Char) (host : Option (List Char))
    (h1 : host ≠ none) (h2 : host ≠ some [])
    (hm : m ≠ "GET".toList ∧ m ≠ "HEAD".toList) :
    validated_code d (some m) host = 405 := by
  unfold validated_code
  have a : ¬ (host = none ∨ host = some []) := fun h => h.elim h1 h2
  have b : (some m ≠ some "GET".toList ∧ some m ≠ some "HEAD".toList) :=
    ⟨fun h => hm.1 (Option.some.inj h), fun h => hm.2 (Option.some.inj h)⟩
  rw [if_neg a, if_pos b]

theorem validated_code_supported (d : Int) (m : List Char) (host : Option (List Char))
    (h1 : host ≠ none) (h2 : host ≠ some [])
    (hm : m = "GET".toList ∨ m = "HEAD".toList) :
    validated_code d (some m) host = d := by
  unfold validated_code
  have a : ¬ (host = none ∨ host = some []) := fun h => h.elim h1 h2
  have b : ¬ (some m ≠ some "GET".toList ∧ some m ≠ some "HEAD".toList) := by
    rintro ⟨b1, b2⟩
    rcases hm with hm | hm
    · exact b1 (by rw [hm])
    · exact b2 (by rw [hm])
  rw [if_neg a, if_neg b]

theorem validated_code_no_host (d : Int) (m : Option (List Char)) (host : Option (List Char))
    (h : host = none ∨ host = some []) :
    validated_code d m host = 400 := by
  unfold validated_code
  rw [if_pos h]

theorem validated_delayed_reply (P : Parsers) (request : CockpitWebRequest) (n : Nat)
    (off1 off2 : Int) :
    (validated (parsed P request n) off1 off2).delayed_reply =
      validated_code (if n ≠ 0 then 413 else request.delayed_reply)
        (some (req_line P request).method) (header P request "Host") := rfl

theorem root_matches_validated (self : CockpitWebServer) (P : Parsers)
    (request : CockpitWebRequest) (n : Nat) (off1 off2 : Int) (hv : head_valid P request)
    (hroot : self.url_root = [] ∨ begins_with_root self.url_root (target P request)) :
    root_matches self ((validated (parsed P request n) off1 off2).original_path.getD []) := by
  rw [validated_original_path, target_of_valid P request hv, Option.getD_some]
  exact (root_matches_iff self _).mpr hroot

/-- C5: a fully received request (the buffer, within the hard limit, holds the whole
head) with a valid head, a Host header that is present and not empty, a Content-Length
that is absent or zero and a target that matches the URL root, whose method is neither
`GET` nor `HEAD`, is answered with status 405 and nothing else happens before the request
is finished: no signal is emitted and no handler is invoked. -/
theorem unsupported_method_405 (self : CockpitWebServer) (P : Parsers)
    (request : CockpitWebRequest)
    (hv : head_valid P request)
    (hcl : declared_length P request = some 0)
    (hrecv : head_length P request ≤ request.buffer.length)
    (hhost : header P request "Host" ≠ none ∧ header P request "Host" ≠ some [])
    (hroot : self.url_root = [] ∨ begins_with_root self.url_root (target P request))
    (hm : (req_line P request).method ≠ "GET".toList ∧
      (req_line P request).method ≠ "HEAD".toList) :
    (parse_and_process_request self P request).again = false ∧
      (parse_and_process_request self P request).trace =
        [Event.response_error 405, Event.finish] := by
  have hp := needed_length_eq _ _ 0 _ hv.2.1 hv.2.2.2.2 hv.1 (by simpa using hrecv)
  rw [parse_received self P request hv 0 hcl hp]
  have hc : (validated (parsed P request 0) (req_line P request).off
      (req_headers P request).off).delayed_reply = 405 := by
    rw [validated_delayed_reply]
    exact validated_code_method _ _ _ hhost.1 hhost.2 hm
  rw [process_request_delayed self _ (root_matches_validated self P request 0 _ _ hv hroot)
    (by rw [hc]; decide), hc]
  exact ⟨rfl, rfl⟩

/-- Witness for C5: `POST /x` with `Host: x` and `Content-Length: 0`. -/
theorem unsupported_method_405_witness :
    (parse_and_process_request (server_with_root "") spec_parsers
        (request_with "POST /x HTTP/1.1\r\nHost: x\r\nContent-Length: 0\r\n\r\n")).again
        = false ∧
      (parse_and_process_request (server_with_root "") spec_parsers
        (request_with "POST /x HTTP/1.1\r\nHost: x\r\nContent-Length: 0\r\n\r\n")).trace =
        [Event.response_error 405, Event.finish] :=
  unsupported_method_405 (server_with_root "") spec_parsers
    (request_with "POST /x HTTP/1.1\r\nHost: x\r\nContent-Length: 0\r\n\r\n")
    (by decide) (by decide) (by decide) (by decide) (Or.inl (by decide)) (by decide)


/-! ## Theorems: `g_ascii_strtoull` -/

theorem decimal_fold_ge (s : List Char) (acc : Nat) :
    acc ≤ s.foldl (fun a c => a * 10 + (c.toNat - '0'.toNat)) acc := by
  induction s generalizing acc with
  | nil => exact le_refl _
  | cons c t ih =>
    simp only [List.foldl_cons]
    exact le_trans (by omega) (ih _)

theorem parse_digits_all (s : List Char) (acc : Nat) (ov : Bool)
    (hall : s.all is_digit = true)
    (hb : s.foldl (fun a c => a * 10 + (c.toNat - '0'.toNat)) acc < 2 ^ 64) :
    parse_digits s acc ov = (s.foldl (fun a c => a * 10 + (c.toNat - '0'.toNat)) acc, ov, []) := by
  induction s generalizing acc with
  | nil => rfl
  | cons c t ih =>
    simp only [List.all_cons, Bool.and_eq_true] at hall
    simp only [List.foldl_cons] at hb ⊢
    have hge := decimal_fold_ge t (acc * 10 + (c.toNat - '0'.toNat))
    have hd : c.toNat - '0'.toNat ≤ 9 := by
      have := hall.1
      simp only [is_digit, Bool.and_eq_true, decide_eq_true_eq] at this
      have h9 : '9'.toNat = 57 := by decide
      have h0 : '0'.toNat = 48 := by decide
      omega
    have hno : ¬ (acc > G_MAXUINT64 / 10 ∨
        (acc = G_MAXUINT64 / 10 ∧ c.toNat - '0'.toNat > G_MAXUINT64 % 10)) := by
      have e1 : G_MAXUINT64 / 10 = 1844674407370955161 := by decide
      have e2 : G_MAXUINT64 % 10 = 5 := by decide
      rw [e1, e2]
      have e3 : (2 : Nat) ^ 64 = 18446744073709551616 := by norm_num
      rw [e3] at hb
      omega
    unfold parse_digits
    rw [if_pos hall.1]
    simp only [hno, if_false]
    exact ih _ hall.2 hb

theorem parse_digits_rest_nil (s : List Char) (acc : Nat) (ov : Bool)
    (h : (parse_digits s acc ov).2.2 = []) : s.all is_digit = true := by
  induction s generalizing acc ov with
  | nil => rfl
  | cons c t ih =>
    unfold parse_digits at h
    by_cases hc : is_digit c = true
    · rw [if_pos hc] at h
      simp only [List.all_cons, hc, Bool.true_and]
      simp only at h
      split_ifs at h
      · exact ih _ _ h
      · exact ih _ _ h
    · rw [if_neg hc] at h
      cases h

theorem is_digit_not_space (c : Char) (h : is_digit c = true) : ISSPACE c = false := by
  simp only [is_digit, Bool.and_eq_true, decide_eq_true_eq] at h
  have h0 : '0'.toNat = 48 := by decide
  simp only [ISSPACE, Bool.or_eq_false_iff, decide_eq_false_iff_not]
  refine ⟨⟨⟨⟨⟨?_, ?_⟩, ?_⟩, ?_⟩, ?_⟩, ?_⟩ <;> (intro hc; subst hc; revert h; decide)

theorem is_digit_not_sign (c : Char) (h : is_digit c = true) : ¬ (c = '-' ∨ c = '+') := by
  rintro (hc | hc) <;> (subst hc; revert h; decide)

/-- A non-empty string of decimal digits whose value fits 64 bits is read to its end by
`g_ascii_strtoull`, as its decimal value. -/
theorem g_ascii_strtoull_decimal (v : List Char) (hd : is_decimal v)
    (hb : decimal_value v < 2 ^ 64) :
    g_ascii_strtoull v = (decimal_value v, []) := by
  obtain ⟨hne, hall⟩ := hd
  obtain ⟨c, t, rfl⟩ := List.exists_cons_of_ne_nil hne
  have hc : is_digit c = true := by
    simp only [List.all_cons, Bool.and_eq_true] at hall
    exact hall.1
  have hs : skip_space (c :: t) = c :: t := by
    simp [skip_space, is_digit_not_space c hc]
  have hsign := is_digit_not_sign c hc
  have hneg : decide (c = '-') = false := decide_eq_false (fun h => hsign (Or.inl h))
  unfold g_ascii_strtoull g_parse_long_long
  rw [hs]
  simp only [if_neg hsign, hneg]
  rw [parse_digits_all (c :: t) 0 false hall hb]
  simp [decimal_value]

/-- A non-empty string that is not of the form white space, optional sign, digits is not
read to its end by `g_ascii_strtoull`. -/
theorem g_ascii_strtoull_unread (v : List Char) (hne : v ≠ [])
    (h : is_signed_decimal v = false) : (g_ascii_strtoull v).2 ≠ [] := by
  unfold g_ascii_strtoull g_parse_long_long
  unfold is_signed_decimal at h
  cases hs : skip_space v with
  | nil => simpa using hne
  | cons c t =>
    rw [hs] at h
    simp only at h ⊢
    by_cases hc : c = '-' ∨ c = '+'
    · simp only [if_pos hc] at h ⊢
      by_cases hl : (parse_digits t 0 false).2.2.length = t.length
      · simp only [if_pos hl]
        exact hne
      · simp only [if_neg hl]
        have key : (parse_digits t 0 false).2.2 ≠ [] := by
          intro hr
          have hall := parse_digits_rest_nil _ _ _ hr
          rw [hr] at hl
          have ht : t ≠ [] := fun ht => hl (by rw [ht])
          have : t.isEmpty = false := by
            cases t with
            | nil => exact absurd rfl ht
            | cons a l => rfl
          rw [hall, this] at h
          cases h
        split_ifs <;> exact key
    · simp only [if_neg hc] at h ⊢
      by_cases hl : (parse_digits (c :: t) 0 false).2.2.length = (c :: t).length
      · simp only [if_pos hl]
        exact hne
      · simp only [if_neg hl]
        have key : (parse_digits (c :: t) 0 false).2.2 ≠ [] := by
          intro hr
          have hall := parse_digits_rest_nil _ _ _ hr
          rw [hall] at h
          cases h
        split_ifs <;> exact key


/-! ## Theorems: the claims about rejected requests -/

/-- A request with a valid head, a valid declared length whose body is in the buffer and
a target that matches the URL root, but without a Host header or with an empty one, is
answered with status 400, whatever its method is. -/
theorem missing_host_400 (self : CockpitWebServer) (P : Parsers)
    (request : CockpitWebRequest)
    (hv : head_valid P request)
    (n : Nat) (hn : declared_length P request = some n)
    (hrecv : head_length P request + (n : Int) ≤ request.buffer.length)
    (hroot : self.url_root = [] ∨ begins_with_root self.url_root (target P request))
    (hhost : header P request "Host" = none ∨ header P request "Host" = some []) :
    (parse_and_process_request self P request).again = false ∧
      (parse_and_process_request self P request).trace =
        [Event.response_error 400, Event.finish] := by
  have hp := needed_length_eq _ _ n _ hv.2.1 hv.2.2.2.2 hv.1 hrecv
  rw [parse_received self P request hv n hn hp]
  have hc : (validated (parsed P request n) (req_line P request).off
      (req_headers P request).off).delayed_reply = 400 := by
    rw [validated_delayed_reply]
    exact validated_code_no_host _ _ _ hhost
  rw [process_request_delayed self _ (root_matches_validated self P request n _ _ hv hroot)
    (by rw [hc]; decide), hc]
  exact ⟨rfl, rfl⟩

/-- C6 (the code at the failing input): the request `GET /x` without a Host header and
with `Content-Length: 5x` is fully received, its request line and headers are valid and
its target matches the empty URL root; `delayed_reply` becomes 400, but the request is
finished without any response. -/
theorem missing_host_invalid_length_no_response :
    head_valid spec_parsers (request_with "GET /x HTTP/1.1\r\nContent-Length: 5x\r\n\r\n") ∧
    header spec_parsers (request_with "GET /x HTTP/1.1\r\nContent-Length: 5x\r\n\r\n") "Host"
      = none ∧
    (server_with_root "").url_root = [] ∧
    head_length spec_parsers (request_with "GET /x HTTP/1.1\r\nContent-Length: 5x\r\n\r\n") =
      ((request_with "GET /x HTTP/1.1\r\nContent-Length: 5x\r\n\r\n").buffer.length : Int) ∧
    (parse_and_process_request (server_with_root "") spec_parsers
      (request_with "GET /x HTTP/1.1\r\nContent-Length: 5x\r\n\r\n")).request.delayed_reply
      = 400 ∧
    (parse_and_process_request (server_with_root "") spec_parsers
      (request_with "GET /x HTTP/1.1\r\nContent-Length: 5x\r\n\r\n")).again = false ∧
    (parse_and_process_request (server_with_root "") spec_parsers
      (request_with "GET /x HTTP/1.1\r\nContent-Length: 5x\r\n\r\n")).trace
      = [Event.finish] := by
  decide

/-- Whenever the request-line parser or the header parser reports its input invalid,
`delayed_reply` becomes 400 and the request is finished; nothing else happens, so no
response is written. -/
theorem invalid_head_finishes (self : CockpitWebServer) (P : Parsers)
    (request : CockpitWebRequest)
    (hlen : request.buffer.length ≤ 2 * cockpit_webserver_request_maximum)
    (hbad : (req_line P request).off < 0 ∨
      (0 < (req_line P request).off ∧ (req_line P request).resource ≠ none ∧
        (target P request).head? = some '/' ∧ (req_headers P request).off < 0)) :
    (parse_and_process_request self P request).again = false ∧
      (parse_and_process_request self P request).request.delayed_reply = 400 ∧
      (parse_and_process_request self P request).trace = [Event.finish] := by
  unfold parse_and_process_request
  have a1 : ¬ request.buffer.length > cockpit_webserver_request_maximum * 2 := by omega
  simp only [a1, if_false]
  rcases hbad with h | ⟨h1, h2, h3, h4⟩
  · have a2 : ¬ (P.web_socket_util_parse_req_line request.buffer).off = 0 := by
      simp only [req_line] at h; omega
    simp only [req_line] at h
    simp only [a2, if_false, h, if_true]
    exact ⟨rfl, rfl, rfl⟩
  · simp only [req_line, target, req_headers] at h1 h2 h3 h4
    have a2 : ¬ (P.web_socket_util_parse_req_line request.buffer).off = 0 := by omega
    have a3 : ¬ (P.web_socket_util_parse_req_line request.buffer).off < 0 := by omega
    have a4 : ¬ ((P.web_socket_util_parse_req_line request.buffer).resource = none ∨
        ((P.web_socket_util_parse_req_line request.buffer).resource.getD []).head? ≠
          some '/') := by
      rintro (h | h)
      · exact h2 h
      · exact h h3
    have a5 : ¬ (P.web_socket_util_parse_headers (List.drop
        (P.web_socket_util_parse_req_line request.buffer).off.toNat request.buffer)).off = 0 := by
      omega
    simp only [a2, a3, a4, a5, if_false, h4, if_true]
    exact ⟨rfl, rfl, rfl⟩

/-- C7 (the code at the failing inputs): the request line `GET` is reported invalid by
the request-line parser, and the header line `Host x` is reported invalid by the header
parser; in both cases `delayed_reply` becomes 400 and the request is finished without any
response on the stream. -/
theorem invalid_head_no_response :
    ((req_line spec_parsers (request_with "GET\r\nHost: x\r\n\r\n")).off < 0 ∧
      (parse_and_process_request (server_with_root "") spec_parsers
        (request_with "GET\r\nHost: x\r\n\r\n")).request.delayed_reply = 400 ∧
      (parse_and_process_request (server_with_root "") spec_parsers
        (request_with "GET\r\nHost: x\r\n\r\n")).trace = [Event.finish]) ∧
    (0 < (req_line spec_parsers (request_with "GET / HTTP/1.1\r\nHost x\r\n\r\n")).off ∧
      (req_headers spec_parsers (request_with "GET / HTTP/1.1\r\nHost x\r\n\r\n")).off < 0 ∧
      (parse_and_process_request (server_with_root "") spec_parsers
        (request_with "GET / HTTP/1.1\r\nHost x\r\n\r\n")).request.delayed_reply = 400 ∧
      (parse_and_process_request (server_with_root "") spec_parsers
        (request_with "GET / HTTP/1.1\r\nHost x\r\n\r\n")).trace = [Event.finish]) := by
  decide

/-- C8 (amended): a request with a valid head whose Content-Length value is not empty and
is not of the form optional white space, optional sign, one or more decimal digits, gets
`delayed_reply = 400`, is finished, and no signal is emitted and no handler invoked. -/
theorem invalid_content_length_rejected (self : CockpitWebServer) (P : Parsers)
    (request : CockpitWebRequest) (v : List Char)
    (hv : head_valid P request)
    (hcl : header P request "Content-Length" = some v)
    (hne : v ≠ [])
    (hbad : is_signed_decimal v = false) :
    (parse_and_process_request self P request).again = false ∧
      (parse_and_process_request self P request).request.delayed_reply = 400 ∧
      ∀ e ∈ (parse_and_process_request self P request).trace, e.is_dispatch = false := by
  have hn : declared_length P request = none := by
    unfold declared_length
    rw [hcl]
    simp only
    rw [if_neg (g_ascii_strtoull_unread v hne hbad)]
  rw [parse_invalid_length self P request hv hn]
  refine ⟨rfl, rfl, ?_⟩
  intro e he
  rw [out_trace] at he
  simp only [Bool.false_eq_true, if_false, List.nil_append, List.mem_singleton] at he
  subst he; rfl

/-- Witness for C8 (amended): `Content-Length: 5x`. -/
theorem invalid_content_length_rejected_witness :
    (parse_and_process_request (server_with_root "") spec_parsers
      (request_with "GET /x HTTP/1.1\r\nHost: x\r\nContent-Length: 5x\r\n\r\n")).again
      = false ∧
    (parse_and_process_request (server_with_root "") spec_parsers
      (request_with "GET /x HTTP/1.1\r\nHost: x\r\nContent-Length: 5x\r\n\r\n")).request.delayed_reply
      = 400 ∧
    ∀ e ∈ (parse_and_process_request (server_with_root "") spec_parsers
      (request_with "GET /x HTTP/1.1\r\nHost: x\r\nContent-Length: 5x\r\n\r\n")).trace,
      e.is_dispatch = false :=
  invalid_content_length_rejected (server_with_root "") spec_parsers
    (request_with "GET /x HTTP/1.1\r\nHost: x\r\nContent-Length: 5x\r\n\r\n") "5x".toList
    (by decide) (by decide) (by decide) (by decide)

/-- C8 (counterexample): the Content-Length values `+5` and the empty string are not
non-empty strings of decimal digits, yet `+5` with its five body bytes is answered with
413, not 400, and the empty value is accepted as zero: the request is dispatched and the
default handler answers 404. -/
theorem signed_or_empty_content_length_accepted :
    (head_valid spec_parsers
        (request_with "GET /x HTTP/1.1\r\nHost: x\r\nContent-Length: +5\r\n\r\nHELLO") ∧
      header spec_parsers
        (request_with "GET /x HTTP/1.1\r\nHost: x\r\nContent-Length: +5\r\n\r\nHELLO")
        "Content-Length" = some "+5".toList ∧
      ¬ is_decimal "+5".toList ∧
      (parse_and_process_request (server_with_root "") spec_parsers
        (request_with "GET /x HTTP/1.1\r\nHost: x\r\nContent-Length: +5\r\n\r\nHELLO")).trace
        = [Event.response_error 413, Event.finish]) ∧
    (head_valid spec_parsers
        (request_with "GET /x HTTP/1.1\r\nHost: x\r\nContent-Length:\r\n\r\n") ∧
      header spec_parsers
        (request_with "GET /x HTTP/1.1\r\nHost: x\r\nContent-Length:\r\n\r\n")
        "Content-Length" = some [] ∧
      ¬ is_decimal [] ∧
      (parse_and_process_request (server_with_root "") spec_parsers
        (request_with "GET /x HTTP/1.1\r\nHost: x\r\nContent-Length:\r\n\r\n")).trace.map
          Event.is_dispatch = [true, true, false, false] ∧
      (parse_and_process_request (server_with_root "") spec_parsers
        (request_with "GET /x HTTP/1.1\r\nHost: x\r\nContent-Length:\r\n\r\n")).trace.filter
          Event.is_response = [Event.response_error 404]) := by
  decide

/-- C9: for a request with a valid head, method `GET` or `HEAD`, a Host header that is
present and not empty, a target that matches the URL root and a Content-Length that is a
non-empty string of decimal digits with value `n`, once the buffer (within the hard
limit) holds the head and `n` more bytes: if `n` is not zero the request is answered with
status 413 and nothing else happens before it is finished (no signal is emitted, no
handler is invoked); if `n` is zero, and no delayed reply was pending, the request is
dispatched: `handle-stream` is emitted first, for the request with its path set. -/
theorem nonzero_content_length_413 (self : CockpitWebServer) (P : Parsers)
    (request : CockpitWebRequest) (v : List Char)
    (hv : head_valid P request)
    (hm : (req_line P request).method = "GET".toList ∨
      (req_line P request).method = "HEAD".toList)
    (hhost : header P request "Host" ≠ none ∧ header P request "Host" ≠ some [])
    (hroot : self.url_root = [] ∨ begins_with_root self.url_root (target P request))
    (hcl : header P request "Content-Length" = some v)
    (hdec : is_decimal v)
    (hrecv : head_length P request + (decimal_value v : Int) ≤ request.buffer.length)
    (hfresh : decimal_value v = 0 → request.delayed_reply = 0) :
    (parse_and_process_request self P request).again = false ∧
    ((decimal_value v ≠ 0 ∧
        (parse_and_process_request self P request).trace =
          [Event.response_error 413, Event.finish]) ∨
      (decimal_value v = 0 ∧
        ∃ r rest, (parse_and_process_request self P request).trace =
            Event.emit_handle_stream r :: rest ∧
          r.delayed_reply = 0 ∧
          r.path = some ((target P request).drop self.url_root.length))) := by
  have hb : decimal_value v < 2 ^ 64 := by
    have h1 := hv.1
    have h2 := hv.2.1
    have h3 := hv.2.2.2.2
    unfold cockpit_webserver_request_maximum at h1
    have e3 : (2 : Nat) ^ 64 = 18446744073709551616 := by norm_num
    rw [e3]
    simp only [head_length] at hrecv
    omega
  have hn : declared_length P request = some (decimal_value v) :=
    (declared_length_eq_some P request _).mpr
      (Or.inr ⟨v, hcl, g_ascii_strtoull_decimal v hdec hb⟩)
  have hp := needed_length_eq _ _ (decimal_value v) _ hv.2.1 hv.2.2.2.2 hv.1 hrecv
  rw [parse_received self P request hv _ hn hp]
  have hc : (validated (parsed P request (decimal_value v)) (req_line P request).off
      (req_headers P request).off).delayed_reply =
      if decimal_value v ≠ 0 then 413 else request.delayed_reply := by
    rw [validated_delayed_reply]
    exact validated_code_supported _ _ _ hhost.1 hhost.2 hm
  have hr := root_matches_validated self P request (decimal_value v)
    (req_line P request).off (req_headers P request).off hv hroot
  refine ⟨rfl, ?_⟩
  by_cases h0 : decimal_value v = 0
  · right
    rw [if_neg (by simpa using h0), hfresh h0] at hc
    obtain ⟨rest, hrest, -⟩ := process_request_dispatch self _ hr hc
    refine ⟨h0, set_path self (validated (parsed P request (decimal_value v))
      (req_line P request).off (req_headers P request).off), rest ++ [Event.finish], ?_, hc, ?_⟩
    · rw [out_trace, hrest]; rfl
    · show Option.map _ (req_line P request).resource = _
      rw [target_of_valid P request hv]; rfl
  · left
    rw [if_pos h0] at hc
    rw [process_request_delayed self _ hr (by rw [hc]; decide), hc]
    exact ⟨h0, rfl⟩

/-- Witness for C9: `Content-Length: 5` with the body `HELLO` is answered with 413;
`Content-Length: 0` is dispatched. -/
theorem nonzero_content_length_413_witness :
    ((parse_and_process_request (server_with_root "") spec_parsers
        (request_with "GET /x HTTP/1.1\r\nHost: x\r\nContent-Length: 5\r\n\r\nHELLO")).again
        = false ∧
      ((decimal_value "5".toList ≠ 0 ∧
        (parse_and_process_request (server_with_root "") spec_parsers
          (request_with "GET /x HTTP/1.1\r\nHost: x\r\nContent-Length: 5\r\n\r\nHELLO")).trace
          = [Event.response_error 413, Event.finish]) ∨
      (decimal_value "5".toList = 0 ∧
        ∃ r rest, (parse_and_process_request (server_with_root "") spec_parsers
          (request_with "GET /x HTTP/1.1\r\nHost: x\r\nContent-Length: 5\r\n\r\nHELLO")).trace
            = Event.emit_handle_stream r :: rest ∧
          r.delayed_reply = 0 ∧
          r.path = some ((target spec_parsers
            (request_with "GET /x HTTP/1.1\r\nHost: x\r\nContent-Length: 5\r\n\r\nHELLO")).drop
              (server_with_root "").url_root.length)))) ∧
    ((parse_and_process_request (server_with_root "") spec_parsers
        (request_with "GET /x HTTP/1.1\r\nHost: x\r\nContent-Length: 0\r\n\r\n")).again
        = false ∧
      ((decimal_value "0".toList ≠ 0 ∧
        (parse_and_process_request (server_with_root "") spec_parsers
          (request_with "GET /x HTTP/1.1\r\nHost: x\r\nContent-Length: 0\r\n\r\n")).trace
          = [Event.response_error 413, Event.finish]) ∨
      (decimal_value "0".toList = 0 ∧
        ∃ r rest, (parse_and_process_request (server_with_root "") spec_parsers
          (request_with "GET /x HTTP/1.1\r\nHost: x\r\nContent-Length: 0\r\n\r\n")).trace
            = Event.emit_handle_stream r :: rest ∧
          r.delayed_reply = 0 ∧
          r.path = some ((target spec_parsers
            (request_with "GET /x HTTP/1.1\r\nHost: x\r\nContent-Length: 0\r\n\r\n")).drop
              (server_with_root "").url_root.length)))) :=
  ⟨nonzero_content_length_413 (server_with_root "") spec_parsers
      (request_with "GET /x HTTP/1.1\r\nHost: x\r\nContent-Length: 5\r\n\r\nHELLO") "5".toList
      (by decide) (by decide) (by decide) (Or.inl (by decide)) (by decide) (by decide)
      (by decide) (by decide),
    nonzero_content_length_413 (server_with_root "") spec_parsers
      (request_with "GET /x HTTP/1.1\r\nHost: x\r\nContent-Length: 0\r\n\r\n") "0".toList
      (by decide) (by decide) (by decide) (Or.inl (by decide)) (by decide) (by decide)
      (by decide) (by decide)⟩

/-- While the sum of head length and declared length stays below `2 ^ 64`, the test for
missing data is exact: with fewer bytes in the buffer the pipeline asks for more input and
nothing is written. -/
theorem body_pending_keeps_reading (self : CockpitWebServer) (P : Parsers)
    (request : CockpitWebRequest)
    (hv : head_valid P request)
    (n : Nat) (hn : declared_length P request = some n)
    (hsmall : head_length P request + (n : Int) < 2 ^ 64)
    (hfew : (request.buffer.length : Int) < head_length P request + (n : Int)) :
    (parse_and_process_request self P request).again = true ∧
      (parse_and_process_request self P request).trace = [] := by
  have h1 := hv.2.1
  have h2 := hv.2.2.2.2
  have hp : (request.buffer.length : Int) <
      needed_length (req_line P request).off (req_headers P request).off n := by
    unfold needed_length
    simp only [head_length] at hsmall hfew
    rw [Int.emod_eq_of_lt (by omega) hsmall]
    exact hfew
  rw [parse_pending self P request hv n hn hp]
  exact ⟨rfl, rfl⟩

/-- C10 (the code at the failing input): the head of 66 bytes declares
`Content-Length: 18446744073709551615`, which `g_ascii_strtoull` returns as `2 ^ 64 - 1`.
The buffer holds the head only, far fewer than head length plus declared length bytes,
but the 64-bit sum wraps to 65, the test for missing data fails, and the 413 response is
written at once. -/
theorem content_length_wraps_413 :
    head_valid spec_parsers (request_with
      "GET /x HTTP/1.1\r\nHost: x\r\nContent-Length: 18446744073709551615\r\n\r\n") ∧
    declared_length spec_parsers (request_with
      "GET /x HTTP/1.1\r\nHost: x\r\nContent-Length: 18446744073709551615\r\n\r\n") =
      some (2 ^ 64 - 1) ∧
    head_length spec_parsers (request_with
      "GET /x HTTP/1.1\r\nHost: x\r\nContent-Length: 18446744073709551615\r\n\r\n") = 66 ∧
    (request_with
      "GET /x HTTP/1.1\r\nHost: x\r\nContent-Length: 18446744073709551615\r\n\r\n").buffer.length
      = 66 ∧
    ((66 : Int) < 66 + ((2 ^ 64 - 1 : Nat) : Int)) ∧
    needed_length 17 49 (2 ^ 64 - 1) = 65 ∧
    (parse_and_process_request (server_with_root "") spec_parsers (request_with
      "GET /x HTTP/1.1\r\nHost: x\r\nContent-Length: 18446744073709551615\r\n\r\n")).again
      = false ∧
    (parse_and_process_request (server_with_root "") spec_parsers (request_with
      "GET /x HTTP/1.1\r\nHost: x\r\nContent-Length: 18446744073709551615\r\n\r\n")).trace
      = [Event.response_error 413, Event.finish] := by
  decide

/-! ## Theorems: the status that is sent -/

theorem not_root_matches (self : CockpitWebServer) (t : List Char)
    (h : ¬ root_matches self t) :
    self.url_root ≠ [] ∧ ( path_has_prefix t self.url_root) = false := by
  refine ⟨fun h0 => h (Or.inl h0), ?_⟩
  by_contra hc
  exact h (Or.inr (by simpa using hc))

theorem validated_code_eq_last (self : CockpitWebServer) (P : Parsers)
    (request : CockpitWebRequest) (n : Nat)
    (hroot : root_matches self (target P request))
    (hfail : last_code self P request n ≠ 0) :
    validated_code (if n ≠ 0 then 413 else request.delayed_reply)
        (some (req_line P request).method) (header P request "Host") =
      last_code self P request n := by
  unfold last_code at hfail ⊢
  rw [if_neg (not_not.mpr hroot)] at hfail ⊢
  by_cases hh : host_given P request
  · rw [if_neg (not_not.mpr hh)] at hfail ⊢
    by_cases hm : method_supported P request
    · rw [if_neg (not_not.mpr hm)] at hfail ⊢
      rw [validated_code_supported _ _ _ hh.1 hh.2 hm]
      by_cases h0 : n ≠ 0
      · rw [if_pos h0, if_pos h0]
      · rw [if_neg h0] at hfail
        exact absurd rfl hfail
    · rw [if_pos hm]
      exact validated_code_method _ _ _ hh.1 hh.2
        ⟨fun h => hm (Or.inl h), fun h => hm (Or.inr h)⟩
  · rw [if_pos hh]
    apply validated_code_no_host
    by_contra hc
    exact hh ⟨fun h => hc (Or.inl h), fun h => hc (Or.inr h)⟩

theorem last_code_cases (self : CockpitWebServer) (P : Parsers)
    (request : CockpitWebRequest) (n : Nat) :
    status_known (last_code self P request n) := by
  unfold last_code status_known
  split_ifs <;> simp

/-- C11 (amended): for a request with a valid head, whose Content-Length is absent or is
read to its end by `g_ascii_strtoull` and whose declared body is in the buffer, and on
which at least one check fails, the status sent is the last one that validation
assigned: 404 when the target does not match the URL root, else 400 when the Host header
is missing or empty, else 405 when the method is not supported, else 413 for a non-zero
Content-Length. Nothing else happens before the request is finished. -/
theorem last_code_sent (self : CockpitWebServer) (P : Parsers)
    (request : CockpitWebRequest)
    (hv : head_valid P request)
    (n : Nat) (hn : declared_length P request = some n)
    (hrecv : head_length P request + (n : Int) ≤ request.buffer.length)
    (hfail : last_code self P request n ≠ 0) :
    (parse_and_process_request self P request).again = false ∧
      (parse_and_process_request self P request).trace =
        [Event.response_error (last_code self P request n), Event.finish] := by
  have hp := needed_length_eq _ _ n _ hv.2.1 hv.2.2.2.2 hv.1 hrecv
  rw [parse_received self P request hv n hn hp]
  by_cases hroot : root_matches self (target P request)
  · have hc : (validated (parsed P request n) (req_line P request).off
        (req_headers P request).off).delayed_reply = last_code self P request n := by
      rw [validated_delayed_reply]
      exact validated_code_eq_last self P request n hroot hfail
    have hr : root_matches self ((validated (parsed P request n) (req_line P request).off
        (req_headers P request).off).original_path.getD []) := by
      rw [validated_original_path, target_of_valid P request hv, Option.getD_some]
      exact hroot
    have hk := last_code_cases self P request n
    have hbig : 299 < (validated (parsed P request n) (req_line P request).off
        (req_headers P request).off).delayed_reply := by
      rw [hc]
      rcases hk with h | h | h | h | h
      · exact absurd h hfail
      all_goals (rw [h]; decide)
    rw [process_request_delayed self _ hr hbig, hc]
    exact ⟨rfl, rfl⟩
  · obtain ⟨h1, h2⟩ := not_root_matches self _ hroot
    have hm : ( path_has_prefix ((validated (parsed P request n) (req_line P request).off
        (req_headers P request).off).original_path.getD []) self.url_root) = false := by
      rw [validated_original_path, target_of_valid P request hv, Option.getD_some]
      exact h2
    rw [process_request_mismatch self _ h1 hm]
    have hl : last_code self P request n = 404 := by
      unfold last_code
      rw [if_pos hroot]
    rw [hl]
    exact ⟨rfl, rfl⟩

/-- Witness for C11 (amended): `POST` with `Content-Length: 5` and its body is answered
with 405, the last status assigned. -/
theorem last_code_sent_witness :
    last_code (server_with_root "") spec_parsers
      (request_with "POST /x HTTP/1.1\r\nHost: x\r\nContent-Length: 5\r\n\r\nHELLO") 5 = 405 ∧
    ((parse_and_process_request (server_with_root "") spec_parsers
      (request_with "POST /x HTTP/1.1\r\nHost: x\r\nContent-Length: 5\r\n\r\nHELLO")).again
      = false ∧
    (parse_and_process_request (server_with_root "") spec_parsers
      (request_with "POST /x HTTP/1.1\r\nHost: x\r\nContent-Length: 5\r\n\r\nHELLO")).trace =
      [Event.response_error (last_code (server_with_root "") spec_parsers
        (request_with "POST /x HTTP/1.1\r\nHost: x\r\nContent-Length: 5\r\n\r\nHELLO") 5),
        Event.finish]) :=
  ⟨by decide,
    last_code_sent (server_with_root "") spec_parsers
      (request_with "POST /x HTTP/1.1\r\nHost: x\r\nContent-Length: 5\r\n\r\nHELLO")
      (by decide) 5 (by decide) (by decide) (by decide)⟩

/-- C11 (counterexample): on `POST /x` with `Content-Length: 5` and its body the first
status assigned is 413, but 405, a lower one, replaces it and is sent; on `POST /x`
without a Host header the first status assigned is 405 and 400 is sent; on `POST /other`
with URL root `/app` the first status assigned is 405 and 404 is sent. -/
theorem first_code_not_sent :
    (declared_length spec_parsers
        (request_with "POST /x HTTP/1.1\r\nHost: x\r\nContent-Length: 5\r\n\r\nHELLO") =
        some 5 ∧
      first_code (server_with_root "") spec_parsers
        (request_with "POST /x HTTP/1.1\r\nHost: x\r\nContent-Length: 5\r\n\r\nHELLO") 5 = 413 ∧
      (parse_and_process_request (server_with_root "") spec_parsers
        (request_with "POST /x HTTP/1.1\r\nHost: x\r\nContent-Length: 5\r\n\r\nHELLO")).trace
        = [Event.response_error 405, Event.finish]) ∧
    (declared_length spec_parsers (request_with "POST /x HTTP/1.1\r\n\r\n") = some 0 ∧
      first_code (server_with_root "") spec_parsers
        (request_with "POST /x HTTP/1.1\r\n\r\n") 0 = 405 ∧
      (parse_and_process_request (server_with_root "") spec_parsers
        (request_with "POST /x HTTP/1.1\r\n\r\n")).trace
        = [Event.response_error 400, Event.finish]) ∧
    (declared_length spec_parsers
        (request_with "POST /other HTTP/1.1\r\nHost: x\r\n\r\n") = some 0 ∧
      first_code (server_with_root "/app") spec_parsers
        (request_with "POST /other HTTP/1.1\r\nHost: x\r\n\r\n") 0 = 405 ∧
      (parse_and_process_request (server_with_root "/app") spec_parsers
        (request_with "POST /other HTTP/1.1\r\nHost: x\r\n\r\n")).trace
        = [Event.response_error 404, Event.finish]) := by
  decide

/-! ## Theorems: request states -/

theorem default_handle_stream_request (self : CockpitWebServer) (r : CockpitWebRequest) :
    (cockpit_web_server_default_handle_stream self r).2.1.delayed_reply = r.delayed_reply ∧
      (cockpit_web_server_default_handle_stream self r).2.1.buffer = r.buffer ∧
      (cockpit_web_server_default_handle_stream self r).2.1.eof_okay = r.eof_okay :=
  ⟨rfl, rfl, rfl⟩

theorem process_request_request (self : CockpitWebServer) (r : CockpitWebRequest) :
    ((process_request self r).1.delayed_reply = r.delayed_reply ∨
        (process_request self r).1.delayed_reply = 404) ∧
      (process_request self r).1.buffer = r.buffer ∧
      (process_request self r).1.eof_okay = r.eof_okay := by
  unfold process_request
  simp only []
  split_ifs <;> first | exact ⟨Or.inl rfl, rfl, rfl⟩ | exact ⟨Or.inr rfl, rfl, rfl⟩

theorem process_request_no_assert (self : CockpitWebServer) (r : CockpitWebRequest)
    (hk : status_known r.delayed_reply) :
    Event.assert_failed ∉ (process_request self r).2 := by
  by_cases hm : self.url_root ≠ [] ∧
      ( path_has_prefix (r.original_path.getD []) self.url_root) = false
  · rw [process_request_mismatch self r hm.1 hm.2]
    simp
  · have hroot : root_matches self (r.original_path.getD []) := by
      by_cases h1 : self.url_root = []
      · exact Or.inl h1
      · right
        by_contra h2
        exact hm ⟨h1, by simpa using h2⟩
    by_cases hd : r.delayed_reply = 0
    · obtain ⟨rest, hrest, -⟩ := process_request_dispatch self r hroot hd
      intro hc
      have hdis := process_request_no_dispatch self r
      unfold process_request at hc
      have hcond : ¬ (self.url_root.length ≠ 0 ∧
          ( path_has_prefix (r.original_path.getD []) self.url_root) = false) := by
        rcases hroot with h | h
        · simp [h]
        · simp [h]
      simp only [hcond, if_false, hd, ne_eq, not_true_eq_false, default_handle_stream_claimed,
        if_true, List.append_nil] at hc
      split_ifs at hc with hs
      · simp only [List.mem_cons] at hc
        rcases hc with hc | hc
        · cases hc
        · obtain ⟨i, hi⟩ := run_stream_handlers_events _ _ _ _ hc
          cases hi
      · simp only [List.mem_cons, List.mem_append] at hc
        rcases hc with hc | hc | hc
        · cases hc
        · obtain ⟨i, hi⟩ := run_stream_handlers_events _ _ _ _ hc
          cases hi
        · rcases default_handle_stream_events _ _ _ hc with ⟨d, p, h⟩ | ⟨i, p, h⟩ | h <;> cases h
    · have hbig : 299 < r.delayed_reply := by
        rcases hk with h | h | h | h | h
        · exact absurd h hd
        all_goals omega
      rw [process_request_delayed self r hroot hbig]
      simp

theorem parse_invalid_head_outcome (self : CockpitWebServer) (P : Parsers)
    (request : CockpitWebRequest) (hv : ¬ head_valid P request) :
    ∃ a r, parse_and_process_request self P request = out a r [] ∧
      r.buffer = request.buffer ∧ r.eof_okay = request.eof_okay ∧
      (r.delayed_reply = request.delayed_reply ∨ r.delayed_reply = 400) ∧
      (a = true → request.buffer.length ≤ 2 * cockpit_webserver_request_maximum) := by
  unfold parse_and_process_request
  simp only []
  split_ifs with h1 h2 h3 h4 h5 h6
  · exact ⟨false, _, rfl, rfl, rfl, Or.inl rfl, fun h => by cases h⟩
  · exact ⟨true, _, rfl, rfl, rfl, Or.inl rfl, fun _ => by omega⟩
  · exact ⟨false, _, rfl, rfl, rfl, Or.inr rfl, fun h => by cases h⟩
  · exact ⟨false, _, rfl, rfl, rfl, Or.inr rfl, fun h => by cases h⟩
  · exact ⟨true, _, rfl, rfl, rfl, Or.inl rfl, fun _ => by omega⟩
  · exact ⟨false, _, rfl, rfl, rfl, Or.inr rfl, fun h => by cases h⟩
  · exfalso
    apply hv
    refine ⟨by omega, by simp only [req_line]; omega, ?_, ?_,
      by simp only [req_headers, req_line]; omega⟩
    · intro hc; exact h4 (Or.inl hc)
    · by_contra hc; exact h4 (Or.inr hc)

/-- One call of `parse_and_process_request` keeps `delayed_reply` among the known
statuses and does not fail the assertion of `process_delayed_reply`; when it asks for more
input, the buffer is unchanged and within the hard limit. -/
theorem parse_step (self : CockpitWebServer) (P : Parsers) (request : CockpitWebRequest) :
    (status_known request.delayed_reply →
      status_known (parse_and_process_request self P request).request.delayed_reply ∧
      Event.assert_failed ∉ (parse_and_process_request self P request).trace) ∧
    ((parse_and_process_request self P request).again = true →
      (parse_and_process_request self P request).request.buffer = request.buffer ∧
      request.buffer.length ≤ 2 * cockpit_webserver_request_maximum) ∧
    (parse_and_process_request self P request).request.eof_okay = request.eof_okay := by
  by_cases hv : head_valid P request
  swap
  · obtain ⟨a, r, ho, hb, he, hd, ha⟩ := parse_invalid_head_outcome self P request hv
    rw [ho]
    refine ⟨fun hk => ⟨?_, ?_⟩, fun h => ⟨hb, ha h⟩, he⟩
    · rw [out_request]
      rcases hd with hd | hd <;> rw [hd]
      · exact hk
      · right; left; rfl
    · rw [out_trace]
      cases a <;> simp
  cases hn : declared_length P request with
  | none =>
    rw [parse_invalid_length self P request hv hn]
    refine ⟨fun _ => ⟨Or.inr (Or.inl rfl), by rw [out_trace]; simp⟩, fun h => (by cases h), rfl⟩
  | some n =>
    by_cases hp : (request.buffer.length : Int) <
        needed_length (req_line P request).off (req_headers P request).off n
    · rw [parse_pending self P request hv n hn hp]
      refine ⟨fun hk => ⟨?_, by rw [out_trace]; simp⟩, fun _ => ⟨rfl, hv.1⟩, rfl⟩
      rw [out_request]
      show status_known (if n ≠ 0 then 413 else request.delayed_reply)
      split_ifs
      · right; right; right; right; rfl
      · exact hk
    · rw [parse_received self P request hv n hn hp]
      have hreq := process_request_request self (validated (parsed P request n)
        (req_line P request).off (req_headers P request).off)
      refine ⟨fun hk => ?_, fun h => (by cases h), ?_⟩
      · have hkv : status_known (validated (parsed P request n) (req_line P request).off
            (req_headers P request).off).delayed_reply := by
          rw [validated_delayed_reply]
          unfold validated_code
          split_ifs
          · right; left; rfl
          · right; right; right; left; rfl
          · right; right; right; right; rfl
          · exact hk
        refine ⟨?_, ?_⟩
        · rw [out_request]
          rcases hreq.1 with h | h <;> rw [h]
          · exact hkv
          · right; right; left; rfl
        · rw [out_trace]
          simp only [Bool.false_eq_true, if_false, List.mem_append, List.mem_singleton,
            not_or]
          exact ⟨process_request_no_assert self _ hkv, fun h => by cases h⟩
      · rw [out_request, hreq.2.2]
        rfl

theorem set_size_grow_length (buffer : List Char) (k : Nat) (uninit : Nat → Char) :
    (g_byte_array_set_size buffer (buffer.length + k + 1) uninit).length =
      buffer.length + k + 1 := by
  unfold g_byte_array_set_size
  have h : ¬ buffer.length + k + 1 ≤ buffer.length := by omega
  rw [if_neg h]
  simp
  omega

theorem on_socket_input_would_block (self : CockpitWebServer) (P : Parsers)
    (request : CockpitWebRequest) (uninit : Nat → Char) :
    (on_socket_input self P request (SocketRead.would_block uninit)).again = true ∧
      (on_socket_input self P request (SocketRead.would_block uninit)).trace = [] ∧
      (on_socket_input self P request (SocketRead.would_block uninit)).request.delayed_reply =
        request.delayed_reply ∧
      (on_socket_input self P request (SocketRead.would_block uninit)).request.buffer.length =
        request.buffer.length + cockpit_webserver_request_maximum + 1 :=
  ⟨rfl, rfl, rfl, set_size_grow_length _ _ _⟩

theorem on_socket_input_eof (self : CockpitWebServer) (P : Parsers)
    (request : CockpitWebRequest) (bytes : List Char)
    (h0 : (bytes.take (cockpit_webserver_request_maximum + 1)).length = 0) :
    on_socket_input self P request (SocketRead.data bytes) =
      { again := false
        request := { request with
          buffer := request.buffer ++ bytes.take (cockpit_webserver_request_maximum + 1) }
        trace := (if request.eof_okay then [Event.close_io_stream] else []) ++
          [Event.finish] } := by
  unfold on_socket_input
  simp only [h0, if_true]

theorem on_socket_input_data (self : CockpitWebServer) (P : Parsers)
    (request : CockpitWebRequest) (bytes : List Char)
    (h0 : (bytes.take (cockpit_webserver_request_maximum + 1)).length ≠ 0) :
    on_socket_input self P request (SocketRead.data bytes) =
      parse_and_process_request self P
        { request with
          buffer := request.buffer ++ bytes.take (cockpit_webserver_request_maximum + 1)
          eof_okay := false } := by
  unfold on_socket_input
  simp only [h0, if_false]

theorem on_socket_input_step (self : CockpitWebServer) (P : Parsers)
    (request : CockpitWebRequest) (read : SocketRead)
    (hk : status_known request.delayed_reply) :
    status_known (on_socket_input self P request read).request.delayed_reply ∧
      Event.assert_failed ∉ (on_socket_input self P request read).trace := by
  cases read with
  | would_block uninit => exact ⟨hk, by simp [on_socket_input]⟩
  | failed uninit => exact ⟨hk, by simp [on_socket_input]⟩
  | data bytes =>
    by_cases h0 : (bytes.take (cockpit_webserver_request_maximum + 1)).length = 0
    · rw [on_socket_input_eof self P request bytes h0]
      refine ⟨hk, ?_⟩
      simp only [List.mem_append, List.mem_singleton, not_or]
      refine ⟨?_, fun h => by cases h⟩
      split_ifs <;> simp
    · rw [on_socket_input_data self P request bytes h0]
      exact (parse_step self P _).1 hk

theorem reachable_known (self : CockpitWebServer) (P : Parsers) (request : CockpitWebRequest)
    (h : Reachable self P request) : status_known request.delayed_reply := by
  induction h with
  | start => exact Or.inl rfl
  | input request read _ _ ih => exact (on_socket_input_step self P request read ih).1

/-- C12: in every request state the pipeline can reach, `delayed_reply` is one of 0, 400,
404, 405 and 413, hence 0 or above 299; and whatever is read next, `on_socket_input`
leaves `delayed_reply` among these values and never fails the assertion
`delayed_reply > 299` of `process_delayed_reply`. -/
theorem delayed_reply_known (self : CockpitWebServer) (P : Parsers)
    (request : CockpitWebRequest) (h : Reachable self P request) :
    status_known request.delayed_reply ∧
      (request.delayed_reply = 0 ∨ 299 < request.delayed_reply) ∧
      ∀ read, status_known (on_socket_input self P request read).request.delayed_reply ∧
        Event.assert_failed ∉ (on_socket_input self P request read).trace := by
  have hk := reachable_known self P request h
  refine ⟨hk, ?_, fun read => on_socket_input_step self P request read hk⟩
  rcases hk with h | h | h | h | h
  · exact Or.inl h
  all_goals (right; omega)

/-- Witness for C12: the state after the head of a request with `Content-Length: 5` was
read, where `delayed_reply` is 413 and the request waits for its body. -/
theorem delayed_reply_known_witness :
    (on_socket_input (server_with_root "") spec_parsers cockpit_web_request_start
      (SocketRead.data "GET /x HTTP/1.1\r\nHost: x\r\nContent-Length: 5\r\n\r\n".toList)).request.delayed_reply
      = 413 ∧
    (status_known (on_socket_input (server_with_root "") spec_parsers cockpit_web_request_start
      (SocketRead.data "GET /x HTTP/1.1\r\nHost: x\r\nContent-Length: 5\r\n\r\n".toList)).request.delayed_reply ∧
    ((on_socket_input (server_with_root "") spec_parsers cockpit_web_request_start
      (SocketRead.data "GET /x HTTP/1.1\r\nHost: x\r\nContent-Length: 5\r\n\r\n".toList)).request.delayed_reply
        = 0 ∨
      299 < (on_socket_input (server_with_root "") spec_parsers cockpit_web_request_start
      (SocketRead.data "GET /x HTTP/1.1\r\nHost: x\r\nContent-Length: 5\r\n\r\n".toList)).request.delayed_reply) ∧
    ∀ read, status_known (on_socket_input (server_with_root "") spec_parsers
        (on_socket_input (server_with_root "") spec_parsers cockpit_web_request_start
          (SocketRead.data "GET /x HTTP/1.1\r\nHost: x\r\nContent-Length: 5\r\n\r\n".toList)).request
        read).request.delayed_reply ∧
      Event.assert_failed ∉ (on_socket_input (server_with_root "") spec_parsers
        (on_socket_input (server_with_root "") spec_parsers cockpit_web_request_start
          (SocketRead.data "GET /x HTTP/1.1\r\nHost: x\r\nContent-Length: 5\r\n\r\n".toList)).request
        read).trace) :=
  ⟨by decide,
    delayed_reply_known (server_with_root "") spec_parsers _
      (Reachable.input cockpit_web_request_start
        (SocketRead.data "GET /x HTTP/1.1\r\nHost: x\r\nContent-Length: 5\r\n\r\n".toList)
        Reachable.start (by decide))⟩

/-! ## Theorems: the buffer -/

/-- After a read that brought bytes, a request that is still live has at most
`2 * 8192` bytes in its buffer. -/
theorem live_after_data_bounded (self : CockpitWebServer) (P : Parsers)
    (request : CockpitWebRequest) (bytes : List Char)
    (h : (on_socket_input self P request (SocketRead.data bytes)).again = true) :
    (on_socket_input self P request (SocketRead.data bytes)).request.buffer.length ≤
      2 * cockpit_webserver_request_maximum := by
  by_cases h0 : (bytes.take (cockpit_webserver_request_maximum + 1)).length = 0
  · rw [on_socket_input_eof self P request bytes h0] at h
    cases h
  · rw [on_socket_input_data self P request bytes h0] at h ⊢
    have := (parse_step self P _).2.1 h
    rw [this.1]
    exact this.2

/-- C13 (the code at the failing input): a read that would block leaves the buffer grown
by `8192 + 1` bytes and the request live; after two such reads the request made by
`cockpit_web_request_start` is live and waits for input with 16386 bytes in its buffer. -/
theorem would_block_exceeds_limit :
    (on_socket_input (server_with_root "") spec_parsers
      (on_socket_input (server_with_root "") spec_parsers cockpit_web_request_start
        (SocketRead.would_block (fun _ => 'x'))).request
      (SocketRead.would_block (fun _ => 'x'))).again = true ∧
    (on_socket_input (server_with_root "") spec_parsers
      (on_socket_input (server_with_root "") spec_parsers cockpit_web_request_start
        (SocketRead.would_block (fun _ => 'x'))).request
      (SocketRead.would_block (fun _ => 'x'))).request.buffer.length = 16386 ∧
    2 * cockpit_webserver_request_maximum < 16386 := by
  refine ⟨rfl, ?_, by decide⟩
  rw [(on_socket_input_would_block _ _ _ _).2.2.2, (on_socket_input_would_block _ _ _ _).2.2.2]
  rfl

/-- C14: on a buffer of more than `2 * 8192` bytes, whatever it holds,
`parse_and_process_request` returns `FALSE` (it does not ask for more input) and the only
thing that happens is that the request is finished: no response, no signal emission, no
handler invocation. The request itself is left as it was. -/
theorem oversize_closes (self : CockpitWebServer) (P : Parsers)
    (request : CockpitWebRequest)
    (h : 2 * cockpit_webserver_request_maximum < request.buffer.length) :
    (parse_and_process_request self P request).again = false ∧
      (parse_and_process_request self P request).trace = [Event.finish] ∧
      (parse_and_process_request self P request).request = request := by
  unfold parse_and_process_request
  have h1 : request.buffer.length > cockpit_webserver_request_maximum * 2 := by omega
  rw [if_pos h1]
  exact ⟨rfl, rfl, rfl⟩

/-- Witness for C14: a complete valid request followed by 16385 more bytes. -/
theorem oversize_closes_witness :
    (parse_and_process_request (server_with_root "") spec_parsers
      { cockpit_web_request_start with
        buffer := "GET / HTTP/1.1\r\nHost: x\r\n\r\n".toList ++ List.replicate 16385 'a' }).again
      = false ∧
    (parse_and_process_request (server_with_root "") spec_parsers
      { cockpit_web_request_start with
        buffer := "GET / HTTP/1.1\r\nHost: x\r\n\r\n".toList ++ List.replicate 16385 'a' }).trace
      = [Event.finish] ∧
    (parse_and_process_request (server_with_root "") spec_parsers
      { cockpit_web_request_start with
        buffer := "GET / HTTP/1.1\r\nHost: x\r\n\r\n".toList ++ List.replicate 16385 'a' }).request
      = { cockpit_web_request_start with
        buffer := "GET / HTTP/1.1\r\nHost: x\r\n\r\n".toList ++ List.replicate 16385 'a' } :=
  oversize_closes (server_with_root "") spec_parsers
    { cockpit_web_request_start with
      buffer := "GET / HTTP/1.1\r\nHost: x\r\n\r\n".toList ++ List.replicate 16385 'a' }
    (by
      show 2 * cockpit_webserver_request_maximum <
        ("GET / HTTP/1.1\r\nHost: x\r\n\r\n".toList ++ List.replicate 16385 'a').length
      rw [List.length_append, List.length_replicate]
      unfold cockpit_webserver_request_maximum
      omega)

theorem run_stream_handlers_unclaimed (hs : List (CockpitWebRequest → Bool)) (index : Nat)
    (request : CockpitWebRequest) (h : ∀ f ∈ hs, f request = false) :
    (run_stream_handlers hs index request).1 = false := by
  induction hs generalizing index with
  | nil => rfl
  | cons f t ih =>
    unfold run_stream_handlers
    have hf : f request = false := h f (List.mem_cons_self _ _)
    simp only [hf, Bool.false_eq_true, if_false]
    exact ih (index + 1) (fun g hg => h g (List.mem_cons_of_mem _ hg))

theorem run_resource_handlers_unclaimed
    (hs : List (Option (List Char) × (List Char → GHashTable → Bool))) (index : Nat)
    (detail path : List Char) (headers : GHashTable)
    (h : ∀ dh ∈ hs, (dh.1 = none ∨ dh.1 = some detail) → dh.2 path headers = false) :
    (run_resource_handlers hs index detail path headers).1 = false := by
  induction hs generalizing index with
  | nil => rfl
  | cons dh t ih =>
    obtain ⟨d, f⟩ := dh
    unfold run_resource_handlers
    have ht := ih (index + 1) (fun g hg => h g (List.mem_cons_of_mem _ hg))
    by_cases hd : d = none ∨ d = some detail
    · have hf : f path headers = false := h (d, f) (List.mem_cons_self _ _) hd
      rw [if_pos hd]
      simp only [hf, Bool.false_eq_true, if_false]
      exact ht
    · rw [if_neg hd]
      exact ht

theorem filter_response_of_none (l : List Event) (h : ∀ e ∈ l, e.is_response = false) :
    l.filter Event.is_response = [] := by
  rw [List.filter_eq_nil_iff]
  intro e he
  rw [h e he]
  simp

theorem run_stream_handlers_no_response (hs : List (CockpitWebRequest → Bool)) (index : Nat)
    (request : CockpitWebRequest) :
    (run_stream_handlers hs index request).2.filter Event.is_response = [] := by
  apply filter_response_of_none
  intro e he
  obtain ⟨i, hi⟩ := run_stream_handlers_events _ _ _ _ he
  rw [hi]; rfl

theorem run_resource_handlers_no_response
    (hs : List (Option (List Char) × (List Char → GHashTable → Bool))) (index : Nat)
    (detail path : List Char) (headers : GHashTable) :
    (run_resource_handlers hs index detail path headers).2.filter Event.is_response = [] := by
  apply filter_response_of_none
  intro e he
  obtain ⟨i, hi⟩ := run_resource_handlers_events _ _ _ _ _ _ he
  rw [hi]; rfl

theorem process_request_dispatch_trace (self : CockpitWebServer) (r : CockpitWebRequest)
    (hroot : root_matches self (r.original_path.getD []))
    (hd : r.delayed_reply = 0) :
    (process_request self r).2 =
      Event.emit_handle_stream (set_path self r) ::
        ((run_stream_handlers self.stream_handlers 0 (set_path self r)).2 ++
          if (run_stream_handlers self.stream_handlers 0 (set_path self r)).1 then []
          else (cockpit_web_server_default_handle_stream self (set_path self r)).2.2) := by
  have hc : ¬ (self.url_root.length ≠ 0 ∧
      ( path_has_prefix (r.original_path.getD []) self.url_root) = false) := by
    rcases hroot with h | h
    · simp [h]
    · simp [h]
  unfold process_request
  simp only [hc, if_false, hd, ne_eq, not_true_eq_false, default_handle_stream_claimed,
    if_true, List.append_nil]
  split_ifs <;> simp

theorem process_request_no_critical (self : CockpitWebServer) (r : CockpitWebRequest) :
    Event.critical ∉ (process_request self r).2 := by
  intro hc
  by_cases h : r.delayed_reply = 0 ∧ root_matches self (r.original_path.getD [])
  · rw [process_request_dispatch_trace self r h.2 h.1] at hc
    simp only [List.mem_cons, List.mem_append] at hc
    rcases hc with hc | hc | hc
    · cases hc
    · obtain ⟨i, hi⟩ := run_stream_handlers_events _ _ _ _ hc
      cases hi
    · split_ifs at hc
      · cases hc
      · rcases default_handle_stream_events _ _ _ hc with ⟨d, p, h⟩ | ⟨i, p, h⟩ | h <;> cases h
  · by_cases hm : self.url_root ≠ [] ∧
        ( path_has_prefix (r.original_path.getD []) self.url_root) = false
    · rw [process_request_mismatch self r hm.1 hm.2] at hc
      simp at hc
    · have hroot : root_matches self (r.original_path.getD []) := by
        by_cases h1 : self.url_root = []
        · exact Or.inl h1
        · right
          by_contra h2
          exact hm ⟨h1, by simpa using h2⟩
      have hd : r.delayed_reply ≠ 0 := fun h0 => h ⟨h0, hroot⟩
      have hcond : ¬ (self.url_root.length ≠ 0 ∧
          ( path_has_prefix (r.original_path.getD []) self.url_root) = false) := by
        rcases hroot with h | h
        · simp [h]
        · simp [h]
      unfold process_request process_delayed_reply at hc
      simp only [hcond, if_false, hd, ne_eq, not_false_eq_true, if_true] at hc
      split_ifs at hc <;> simp at hc

/-- The `g_critical` branch of `process_request` is never taken: the default stream
handler always reports the request as claimed. -/
theorem critical_never_logged (self : CockpitWebServer) (P : Parsers)
    (request : CockpitWebRequest) :
    Event.critical ∉ (parse_and_process_request self P request).trace := by
  intro hc
  by_cases hv : head_valid P request
  swap
  · rcases parse_invalid_head self P request hv with h | h <;> rw [h] at hc <;> simp at hc
  cases hn : declared_length P request with
  | none =>
    rw [parse_invalid_length self P request hv hn, out_trace] at hc
    simp at hc
  | some n =>
    by_cases hp : (request.buffer.length : Int) <
        needed_length (req_line P request).off (req_headers P request).off n
    · rw [parse_pending self P request hv n hn hp, out_trace] at hc
      simp at hc
    · rw [parse_received self P request hv n hn hp, out_trace] at hc
      simp only [Bool.false_eq_true, if_false, List.mem_append, List.mem_singleton] at hc
      rcases hc with hc | hc
      · exact process_request_no_critical self _ hc
      · cases hc

theorem strchr_spec (s : List Char) (c : Char) :
    (strchr s c = none ∧ c ∉ s) ∨
      ∃ pos, strchr s c = some pos ∧ c ∈ s ∧ pos.length + s.indexOf c = s.length ∧
        pos ≠ [] := by
  induction s with
  | nil => left; exact ⟨rfl, by simp⟩
  | cons a t ih =>
    by_cases h : a = c
    · right
      refine ⟨a :: t, by simp [strchr, h], by simp [h], ?_, by simp⟩
      rw [List.indexOf_cons_eq _ h]
      rfl
    · rcases ih with ⟨h1, h2⟩ | ⟨pos, h1, h2, h3, h4⟩
      · left
        refine ⟨by simp [strchr, h, h1], ?_⟩
        simp only [List.mem_cons, not_or]
        exact ⟨fun hc => h hc.symm, h2⟩
      · right
        refine ⟨pos, by simp [strchr, h, h1], by simp [h2], ?_, h4⟩
        rw [List.indexOf_cons_ne _ h]
        simp only [List.length_cons, Nat.succ_eq_add_one]
        omega

theorem cut_at_strchr (s : List Char) (c : Char) :
    (match strchr s c with
      | none => s
      | some q => cut_at s q) = s.takeWhile (· ≠ c) := by
  induction s with
  | nil => rfl
  | cons a t ih =>
    by_cases h : a = c
    · simp [strchr, h, cut_at]
    · have e : strchr (a :: t) c = strchr t c := by simp [strchr, h]
      rw [e]
      rw [List.takeWhile_cons_of_pos (by simpa using h)]
      rcases strchr_spec t c with ⟨h1, -⟩ | ⟨pos, h1, -, h3, -⟩
      · rw [h1] at ih ⊢
        simp only at ih ⊢
        rw [← ih]
      · rw [h1] at ih ⊢
        simp only at ih ⊢
        rw [← ih]
        unfold cut_at
        have : (a :: t).length - pos.length = (t.length - pos.length) + 1 := by
          simp only [List.length_cons]
          omega
        rw [this, List.take_succ_cons]

theorem detail_token_eq_spec (p : List Char) : detail_token p = spec_detail p := by
  unfold detail_token spec_detail
  cases p with
  | nil => simp
  | cons c t =>
    simp only [List.drop_succ_cons, List.drop_zero]
    rcases strchr_spec t '/' with ⟨h1, h2⟩ | ⟨pos, h1, h2, h3, h4⟩
    · rw [h1]
      simp [h2]
    · rw [h1]
      simp only [h2, if_true]
      unfold cut_at
      obtain ⟨x, l, rfl⟩ := List.exists_cons_of_ne_nil h4
      simp only [List.tail_cons, List.length_cons] at h3 ⊢
      have : t.length - l.length = List.indexOf '/' t + 1 := by omega
      rw [this]
      rfl

theorem default_handle_stream_trace (self : CockpitWebServer) (r : CockpitWebRequest) :
    ∃ rest, (cockpit_web_server_default_handle_stream self r).2.2 =
        Event.emit_handle_resource (spec_detail (before_query (r.path.getD [])))
          (before_query (r.path.getD [])) :: rest ∧
      ∀ e ∈ rest, (∀ d q, e ≠ Event.emit_handle_resource d q) ∧
        ∀ i q, e = Event.handle_resource i q → q = before_query (r.path.getD []) := by
  unfold cockpit_web_server_default_handle_stream
  simp only [cut_at_strchr, detail_token_eq_spec]
  refine ⟨_, rfl, ?_⟩
  intro e he
  simp only [List.mem_append] at he
  rcases he with he | he
  · obtain ⟨i, hi⟩ := run_resource_handlers_events _ _ _ _ _ _ he
    subst hi
    exact ⟨fun d q hq => (by cases hq), fun j q hq => (by cases hq; rfl)⟩
  · split_ifs at he
    · simp at he
    · simp only [cockpit_web_server_default_handle_resource, List.mem_singleton] at he
      subst he
      exact ⟨fun d q hq => (by cases hq), fun j q hq => (by cases hq)⟩

theorem dispatch_trace (self : CockpitWebServer) (P : Parsers) (request : CockpitWebRequest)
    (e : Event) (he : e ∈ (parse_and_process_request self P request).trace)
    (hd : e.is_dispatch = true) :
    head_valid P request ∧
    (parse_and_process_request self P request).trace =
      Event.emit_handle_stream (set_path self (validated (parsed P request 0)
          (req_line P request).off (req_headers P request).off)) ::
        ((run_stream_handlers self.stream_handlers 0 (set_path self (validated
            (parsed P request 0) (req_line P request).off (req_headers P request).off))).2 ++
          if (run_stream_handlers self.stream_handlers 0 (set_path self (validated
            (parsed P request 0) (req_line P request).off (req_headers P request).off))).1
          then []
          else (cockpit_web_server_default_handle_stream self (set_path self (validated
            (parsed P request 0) (req_line P request).off
              (req_headers P request).off))).2.2) ++
        [Event.finish] := by
  obtain ⟨hv, -, -, -, -, -, hroot, hz, ht⟩ := dispatch_inv self P request e he hd
  have hroot2 : root_matches self ((validated (parsed P request 0) (req_line P request).off
      (req_headers P request).off).original_path.getD []) := by
    rw [validated_original_path, target_of_valid P request hv, Option.getD_some]
    exact hroot
  refine ⟨hv, ?_⟩
  rw [ht, process_request_dispatch_trace self _ hroot2 hz]

theorem default_handle_stream_unclaimed (self : CockpitWebServer) (r : CockpitWebRequest)
    (hr : ∀ dh ∈ self.resource_handlers,
      (dh.1 = none ∨ dh.1 = some (detail_token (before_query (r.path.getD [])))) →
      dh.2 (before_query (r.path.getD [])) (r.headers.getD []) = false) :
    (cockpit_web_server_default_handle_stream self r).2.2.filter Event.is_response =
      [Event.response_error 404] := by
  unfold cockpit_web_server_default_handle_stream
  simp only [cut_at_strchr]
  have hu := run_resource_handlers_unclaimed self.resource_handlers 0
    (detail_token (before_query (r.path.getD []))) (before_query (r.path.getD []))
    (r.headers.getD []) hr
  unfold before_query at hu
  simp only [hu, Bool.false_eq_true, if_false, cockpit_web_server_default_handle_resource]
  rw [List.filter_cons_of_neg (by simp [Event.is_response]), List.filter_append,
    run_resource_handlers_no_response]
  rfl

/-- C17: when a request is dispatched and no connected `handle-stream` handler claims it
(each returns `FALSE` on this request) and no connected `handle-resource` handler claims
it (each handler connected without detail or with the detail of the emission returns
`FALSE` on the path and the headers of this request; the other handlers are not invoked),
exactly one response is written, with status 404, the default stream handler reports the
request as claimed, and the `g_critical` branch of `process_request` is not taken. What
the handlers do on other requests plays no role. -/
theorem unclaimed_gets_404 (self : CockpitWebServer) (P : Parsers)
    (request : CockpitWebRequest) (r : CockpitWebRequest)
    (hd : Event.emit_handle_stream r ∈ (parse_and_process_request self P request).trace)
    (hs : ∀ f ∈ self.stream_handlers, f r = false)
    (hr : ∀ dh ∈ self.resource_handlers,
      (dh.1 = none ∨ dh.1 = some (detail_token (before_query (r.path.getD [])))) →
      dh.2 (before_query (r.path.getD [])) (r.headers.getD []) = false) :
    (parse_and_process_request self P request).trace.filter Event.is_response =
        [Event.response_error 404] ∧
      (cockpit_web_server_default_handle_stream self r).1 = true ∧
      Event.critical ∉ (parse_and_process_request self P request).trace := by
  refine ⟨?_, default_handle_stream_claimed self r, critical_never_logged self P request⟩
  obtain ⟨-, -, -, hreq⟩ := stream_event_request self P request r (Or.inl hd)
  obtain ⟨-, ht⟩ := dispatch_trace self P request _ hd rfl
  rw [ht, ← hreq]
  simp only [run_stream_handlers_unclaimed _ _ _ hs, Bool.false_eq_true, if_false]
  rw [List.filter_append, List.filter_cons_of_neg (by simp [Event.is_response]),
    List.filter_append, run_stream_handlers_no_response,
    default_handle_stream_unclaimed self _ hr]
  rfl

/-- Witness for C17: `GET /other` on a server whose `handle-stream` handler claims only
the path `/claimed` and whose `handle-resource` handler, connected with the detail
`/static/`, claims whatever it is invoked on. The stream handler declines, the resource
handler is not invoked, and the answer is 404, as it is for `GET /index` on a server whose
two handlers decline everything. -/
theorem unclaimed_gets_404_witness :
    (parse_and_process_request server_with_static spec_parsers
      (request_with "GET /other HTTP/1.1\r\nHost: x\r\n\r\n")).trace.map Event.is_handler =
      [false, true, false, false, false] ∧
    (parse_and_process_request server_with_static spec_parsers
      (request_with "GET /static/a HTTP/1.1\r\nHost: x\r\n\r\n")).trace.filter
        Event.is_response = [] ∧
    (parse_and_process_request server_with_decliners spec_parsers
      (request_with "GET /index HTTP/1.1\r\nHost: x\r\n\r\n")).trace.filter
        Event.is_response = [Event.response_error 404] ∧
    ((parse_and_process_request server_with_static spec_parsers
      (request_with "GET /other HTTP/1.1\r\nHost: x\r\n\r\n")).trace.filter Event.is_response =
        [Event.response_error 404] ∧
      (cockpit_web_server_default_handle_stream server_with_static
        (set_path server_with_static (validated (parsed spec_parsers
          (request_with "GET /other HTTP/1.1\r\nHost: x\r\n\r\n") 0) 21 11))).1 = true ∧
      Event.critical ∉ (parse_and_process_request server_with_static spec_parsers
        (request_with "GET /other HTTP/1.1\r\nHost: x\r\n\r\n")).trace) :=
  ⟨by decide, by decide, by decide,
    unclaimed_gets_404 server_with_static spec_parsers
      (request_with "GET /other HTTP/1.1\r\nHost: x\r\n\r\n")
      (set_path server_with_static (validated (parsed spec_parsers
        (request_with "GET /other HTTP/1.1\r\nHost: x\r\n\r\n") 0) 21 11))
      (by decide)
      (fun f hf => by
        simp only [server_with_static, List.mem_singleton] at hf
        subst hf; decide)
      (fun dh hdh hdetail => by
        simp only [server_with_static, List.mem_singleton] at hdh
        subst hdh
        revert hdetail
        decide)⟩

/-- C18: whenever `handle-resource` is emitted, the path of the emission is the request
target without the URL root, cut in front of its first `?`; the detail is that path up to
and including its first slash at an index of at least one, or the whole path when there
is no such slash; and every `handle-resource` handler that is invoked gets the same whole
path. -/
theorem detail_token_keyed (self : CockpitWebServer) (P : Parsers)
    (request : CockpitWebRequest) (d q : List Char)
    (h : Event.emit_handle_resource d q ∈ (parse_and_process_request self P request).trace) :
    q = before_query ((target P request).drop self.url_root.length) ∧
      d = spec_detail q ∧
      ∀ i q', Event.handle_resource i q' ∈ (parse_and_process_request self P request).trace →
        q' = q := by
  obtain ⟨hv, ht⟩ := dispatch_trace self P request _ h rfl
  have hpath : (set_path self (validated (parsed P request 0) (req_line P request).off
      (req_headers P request).off)).path.getD [] =
      (target P request).drop self.url_root.length := by
    show (Option.map _ (req_line P request).resource).getD [] = _
    rw [target_of_valid P request hv]
    rfl
  obtain ⟨rest, hrest, hall⟩ := default_handle_stream_trace self
    (set_path self (validated (parsed P request 0) (req_line P request).off
      (req_headers P request).off))
  rw [hpath] at hrest hall
  have key : ∀ e ∈ (parse_and_process_request self P request).trace,
      (∀ d' q', e = Event.emit_handle_resource d' q' →
        q' = before_query ((target P request).drop self.url_root.length) ∧
        d' = spec_detail (before_query ((target P request).drop self.url_root.length))) ∧
      (∀ i q', e = Event.handle_resource i q' →
        q' = before_query ((target P request).drop self.url_root.length)) := by
    intro e he
    rw [ht] at he
    simp only [List.cons_append, List.mem_cons, List.mem_append, List.not_mem_nil,
      or_false] at he
    rcases he with he | (he | he) | he
    · subst he
      exact ⟨fun d' q' hq => (by cases hq), fun i q' hq => (by cases hq)⟩
    · obtain ⟨i, hi⟩ := run_stream_handlers_events _ _ _ _ he
      subst hi
      exact ⟨fun d' q' hq => (by cases hq), fun i q' hq => (by cases hq)⟩
    · split_ifs at he
      · simp at he
      · rw [hrest] at he
        simp only [List.mem_cons] at he
        rcases he with he | he
        · subst he
          exact ⟨fun d' q' hq => (by cases hq; exact ⟨rfl, rfl⟩),
            fun i q' hq => (by cases hq)⟩
        · exact ⟨fun d' q' hq => absurd hq ((hall e he).1 d' q'),
            fun i q' hq => (hall e he).2 i q' hq⟩
    · subst he
      exact ⟨fun d' q' hq => (by cases hq), fun i q' hq => (by cases hq)⟩
  obtain ⟨hq, hd⟩ := (key _ h).1 d q rfl
  refine ⟨hq, by rw [hd, hq], ?_⟩
  intro i q' hi
  rw [(key _ hi).2 i q' rfl, hq]

/-- Witness for C18: the target `/app/a/b/c?x=1` under the root `/app` gives the path
`/a/b/c` and the detail `/a/`; further `/a/` gives `/a/`, `/a` gives `/a`, `/` gives `/`
and the empty path gives the empty detail. -/
theorem detail_token_keyed_witness :
    Event.emit_handle_resource "/a/".toList "/a/b/c".toList ∈
      (parse_and_process_request server_with_handlers spec_parsers
        (request_with "GET /app/a/b/c?x=1 HTTP/1.1\r\nHost: x\r\n\r\n")).trace ∧
    spec_detail "/a/".toList = "/a/".toList ∧ spec_detail "/a".toList = "/a".toList ∧
    spec_detail "/".toList = "/".toList ∧ spec_detail [] = [] ∧
    ("/a/b/c".toList = before_query ((target spec_parsers
        (request_with "GET /app/a/b/c?x=1 HTTP/1.1\r\nHost: x\r\n\r\n")).drop
          server_with_handlers.url_root.length) ∧
      "/a/".toList = spec_detail "/a/b/c".toList ∧
      ∀ i q', Event.handle_resource i q' ∈
        (parse_and_process_request server_with_handlers spec_parsers
          (request_with "GET /app/a/b/c?x=1 HTTP/1.1\r\nHost: x\r\n\r\n")).trace →
        q' = "/a/b/c".toList) :=
  ⟨by decide, by decide, by decide, by decide, by decide,
    detail_token_keyed server_with_handlers spec_parsers
      (request_with "GET /app/a/b/c?x=1 HTTP/1.1\r\nHost: x\r\n\r\n")
      "/a/".toList "/a/b/c".toList (by decide)⟩

/-- C19: on every request that is dispatched, the Host header has a value, the host of
the request is that value, the protocol is `http` and the origin is `http://` followed by
the host, whatever the server has configured and whatever the headers are. -/
theorem origin_is_http (self : CockpitWebServer) (P : Parsers)
    (request : CockpitWebRequest) (r : CockpitWebRequest)
    (h : Event.emit_handle_stream r ∈ (parse_and_process_request self P request).trace ∨
      ∃ i, Event.handle_stream i r ∈ (parse_and_process_request self P request).trace) :
    ∃ host, header P request "Host" = some host ∧ r.host = some host ∧
      r.protocol = some "http".toList ∧ r.origin = some ("http://".toList ++ host) := by
  obtain ⟨-, -, -, hr⟩ := stream_event_request self P request r h
  have key : ∃ e, e ∈ (parse_and_process_request self P request).trace ∧
      e.is_dispatch = true := by
    rcases h with h | ⟨i, h⟩
    · exact ⟨_, h, rfl⟩
    · exact ⟨_, h, rfl⟩
  obtain ⟨e, he, hd⟩ := key
  obtain ⟨-, -, -, -, hh1, -, -, -, -⟩ := dispatch_inv self P request e he hd
  obtain ⟨host, hhost⟩ := Option.ne_none_iff_exists'.mp hh1
  refine ⟨host, hhost, ?_, ?_, ?_⟩
  · subst hr
    exact hhost
  · subst hr
    rfl
  · subst hr
    show some ("http".toList ++ "://".toList ++
      (g_hash_table_lookup (req_headers P request).headers "Host".toList).getD
        "(null)".toList) = _
    simp only [header] at hhost
    rw [hhost]
    rfl

/-- Witness for C19: the configured forwarded-protocol header says `https`, the origin is
still `http://x`. -/
theorem origin_is_http_witness :
    ∃ r, Event.emit_handle_stream r ∈
        (parse_and_process_request
          { server_with_root "" with forwarded_protocol_header := some "X-Proto".toList }
          spec_parsers
          (request_with "GET /index HTTP/1.1\r\nHost: x\r\nX-Proto: https\r\n\r\n")).trace ∧
      r.origin = some "http://x".toList ∧
      ∃ host, header spec_parsers
          (request_with "GET /index HTTP/1.1\r\nHost: x\r\nX-Proto: https\r\n\r\n") "Host" =
          some host ∧
        r.host = some host ∧ r.protocol = some "http".toList ∧
        r.origin = some ("http://".toList ++ host) :=
  ⟨set_path { server_with_root "" with forwarded_protocol_header := some "X-Proto".toList }
      (validated (parsed spec_parsers
        (request_with "GET /index HTTP/1.1\r\nHost: x\r\nX-Proto: https\r\n\r\n") 0) 21 27),
    by decide, by decide,
    origin_is_http
      { server_with_root "" with forwarded_protocol_header := some "X-Proto".toList }
      spec_parsers
      (request_with "GET /index HTTP/1.1\r\nHost: x\r\nX-Proto: https\r\n\r\n") _
      (Or.inl (by decide))⟩

/-! ## Theorems: cookies -/

theorem starts_with_append (name rest : List Char) : starts_with (name ++ rest) name = true := by
  induction name with
  | nil => cases rest <;> rfl
  | cons a t ih => simp [starts_with, ih]

theorem strstr_at_start (name rest : List Char) :
    strstr (name ++ rest) name = some (name ++ rest) := by
  cases h : name ++ rest with
  | nil =>
    have : name = [] := (List.append_eq_nil.mp h).1
    simp [strstr, this]
  | cons c t =>
    unfold strstr
    rw [← h, starts_with_append]
    simp

/-- When the Cookie header begins with `name=`, the first iteration of the loop returns
the unescaped text up to the next semicolon. -/
theorem parse_cookie_loop_at_start (name rest : List Char) (fuel : Nat) :
    parse_cookie_loop name (fuel + 1) (name ++ '=' :: rest) true =
      some (g_uri_unescape_segment (rest.takeWhile (· ≠ ';'))) := by
  unfold parse_cookie_loop
  rw [strstr_at_start]
  simp only [ne_eq, not_true_eq_false, if_false, List.drop_left, List.head?_cons, true_and,
    if_true, List.tail_cons]
  congr 2
  have := cut_at_strchr rest ';'
  rcases strchr_spec rest ';' with ⟨h1, -⟩ | ⟨pos, h1, -, -, -⟩
  · rw [h1] at this ⊢
    simp only at this ⊢
    rw [← this]
    simp [cut_at]
  · rw [h1] at this ⊢
    exact this

/-- C20: when the Cookie header begins with `name` followed by `=`, the result of
`cockpit_web_server_parse_cookie` is what `g_uri_unescape_segment` makes of the text
between that `=` and the next semicolon (or the end of the header), whatever follows; and
for every table without a Cookie entry the result is `NULL`. -/
theorem parse_cookie_first (headers : GHashTable) (name rest : List Char)
    (h : g_hash_table_lookup headers "Cookie".toList = some (name ++ '=' :: rest)) :
    cockpit_web_server_parse_cookie headers name =
        some (g_uri_unescape_segment (rest.takeWhile (· ≠ ';'))) ∧
      ∀ table : GHashTable, g_hash_table_lookup table "Cookie".toList = none →
        cockpit_web_server_parse_cookie table name = some none := by
  constructor
  · unfold cockpit_web_server_parse_cookie
    rw [h]
    exact parse_cookie_loop_at_start name rest _
  · intro table ht
    unfold cockpit_web_server_parse_cookie
    rw [ht]

/-- Witness for C20: `parse_cookie ("a=1; b=2; a=3", "a")` is `"1"`. -/
theorem parse_cookie_first_witness :
    cockpit_web_server_parse_cookie (cookie_table "a=1; b=2; a=3") "a".toList =
      some (some "1".toList) ∧
    cockpit_web_server_parse_cookie [] "a".toList = some none ∧
    (cockpit_web_server_parse_cookie (cookie_table "a=1; b=2; a=3") "a".toList =
        some (g_uri_unescape_segment ("1; b=2; a=3".toList.takeWhile (· ≠ ';'))) ∧
      ∀ table : GHashTable, g_hash_table_lookup table "Cookie".toList = none →
        cockpit_web_server_parse_cookie table "a".toList = some none) :=
  ⟨by decide, by decide,
    parse_cookie_first (cookie_table "a=1; b=2; a=3") "a".toList "1; b=2; a=3".toList
      (by decide)⟩

/-! ## Theorems: the search loop of `cockpit_web_server_parse_cookie` -/

theorem parse_cookie_loop_succ (name header : List Char) (at_start : Bool) (fuel : Nat) :
    parse_cookie_loop name (fuel + 1) header at_start =
      match parse_cookie_iteration name header at_start with
      | Sum.inl r => some r
      | Sum.inr next => parse_cookie_loop name fuel next false := by
  unfold parse_cookie_iteration
  rw [parse_cookie_loop]
  cases strstr header name with
  | none => rfl
  | some pos =>
    simp only []
    split_ifs <;> rfl

theorem starts_with_split (s name : List Char) (h : starts_with s name = true) :
    ∃ rest, s = name ++ rest := by
  induction name generalizing s with
  | nil => exact ⟨s, rfl⟩
  | cons b t ih =>
    cases s with
    | nil => simp [starts_with] at h
    | cons a s =>
      simp only [starts_with, Bool.and_eq_true, decide_eq_true_eq] at h
      obtain ⟨rest, hr⟩ := ih s h.2
      exact ⟨rest, by rw [h.1, hr]; rfl⟩

theorem strstr_split (header name pos : List Char) (h : strstr header name = some pos) :
    ∃ pre rest, header = pre ++ pos ∧ pos = name ++ rest := by
  induction header with
  | nil =>
    unfold strstr at h
    split_ifs at h with hn
    cases h
    exact ⟨[], [], rfl, by rw [hn]; rfl⟩
  | cons c t ih =>
    unfold strstr at h
    split_ifs at h with hs
    · cases h
      obtain ⟨rest, hr⟩ := starts_with_split _ _ hs
      exact ⟨[], rest, rfl, hr⟩
    · obtain ⟨pre, rest, h1, h2⟩ := ih h
      exact ⟨c :: pre, rest, by rw [h1]; rfl, h2⟩

theorem scan_back_split (l : List Char) (h : scan_back l = true) :
    ∃ ws p, l = ws ++ ';' :: p ∧ ∀ c ∈ ws, g_ascii_isspace c = true := by
  induction l with
  | nil => simp [scan_back] at h
  | cons c t ih =>
    unfold scan_back at h
    split_ifs at h with hc
    · obtain ⟨ws, p, h1, h2⟩ := ih h
      refine ⟨c :: ws, p, by rw [h1]; rfl, ?_⟩
      intro x hx
      rcases List.mem_cons.mp hx with hx | hx
      · rw [hx]; exact hc
      · exact h2 x hx
    · simp only [decide_eq_true_eq] at h
      exact ⟨[], t, by rw [h]; rfl, fun x hx => by cases hx⟩

theorem cut_at_value_end (value : List Char) :
    cut_at value (match strchr value ';' with
      | none => []
      | some e => e) = value.takeWhile (· ≠ ';') := by
  have := cut_at_strchr value ';'
  rcases strchr_spec value ';' with ⟨h6, -⟩ | ⟨q, h6, -, -, -⟩
  · rw [h6] at this ⊢
    simp only at this ⊢
    rw [← this]
    simp [cut_at]
  · rw [h6] at this ⊢
    exact this

/-- What one iteration does: it returns `NULL` because `name` does not occur; or it returns
the unescaped value behind an occurrence of `name=` that is at the start of the header of
the first iteration or behind a semicolon and white space; or it goes on behind an
occurrence of `name`. -/
theorem parse_cookie_iteration_cases (name header : List Char) (at_start : Bool) :
    parse_cookie_iteration name header at_start = Sum.inl none ∨
    (∃ pre rest, header = pre ++ name ++ '=' :: rest ∧
      ((pre = [] ∧ at_start = true) ∨
        ∃ p ws, pre = p ++ ';' :: ws ∧ ∀ c ∈ ws, g_ascii_isspace c = true) ∧
      parse_cookie_iteration name header at_start =
        Sum.inl (g_uri_unescape_segment (rest.takeWhile (· ≠ ';')))) ∨
    (∃ pre next, header = pre ++ name ++ next ∧
      parse_cookie_iteration name header at_start = Sum.inr next) := by
  unfold parse_cookie_iteration
  cases hs : strstr header name with
  | none => exact Or.inl rfl
  | some pos =>
    right
    obtain ⟨pre, rest, h1, h2⟩ := strstr_split header name pos hs
    have hdrop : pos.drop name.length = rest := by rw [h2]; simp
    simp only [hdrop]
    split_ifs with hc hd hd
    · left
      obtain ⟨hhead, hat⟩ := hd
      obtain ⟨rest', hr⟩ : ∃ r, rest = '=' :: r := by
        cases rest with
        | nil => simp at hhead
        | cons a r => simp only [List.head?_cons, Option.some.injEq] at hhead; exact ⟨r, by rw [hhead]⟩
      refine ⟨pre, rest', by rw [h1, h2, hr, List.append_assoc], Or.inr ?_, ?_⟩
      · have hlen : header.length - pos.length = pre.length := by rw [h1]; simp
        rw [hlen, h1, List.take_left] at hat
        obtain ⟨ws, p, h3, h4⟩ := scan_back_split _ hat
        have h5 : pre.drop 1 = p.reverse ++ ';' :: ws.reverse := by
          have := congrArg List.reverse h3
          simpa using this
        refine ⟨pre.take 1 ++ p.reverse, ws.reverse, ?_, fun c hc => h4 c (List.mem_reverse.mp hc)⟩
        rw [List.append_assoc, ← h5, List.take_append_drop]
      · rw [hr]
        simp only [List.tail_cons, cut_at_value_end]
    · right
      exact ⟨pre, rest, by rw [h1, h2, List.append_assoc], rfl⟩
    · left
      obtain ⟨hhead, hat⟩ := hd
      obtain ⟨rest', hr⟩ : ∃ r, rest = '=' :: r := by
        cases rest with
        | nil => simp at hhead
        | cons a r => simp only [List.head?_cons, Option.some.injEq] at hhead; exact ⟨r, by rw [hhead]⟩
      have hpre : pre = [] := by
        have hl : pos.length = header.length := by
          by_contra hne
          exact hc hne
        rw [h1] at hl
        simp only [List.length_append] at hl
        exact List.length_eq_zero.mp (by omega)
      refine ⟨pre, rest', by rw [h1, h2, hr, List.append_assoc], Or.inl ⟨hpre, hat⟩, ?_⟩
      rw [hr]
      simp only [List.tail_cons, cut_at_value_end]
    · right
      exact ⟨pre, rest, by rw [h1, h2, List.append_assoc], rfl⟩


theorem parse_cookie_loop_sound (name : List Char) (value : List Char) (fuel : Nat) :
    ∀ (done header : List Char) (at_start : Bool), (at_start = true → done = []) →
      parse_cookie_loop name fuel header at_start = some (some value) →
      ∃ pre rest, done ++ header = pre ++ name ++ '=' :: rest ∧
        (pre = [] ∨ ∃ p ws, pre = p ++ ';' :: ws ∧ ∀ c ∈ ws, g_ascii_isspace c = true) ∧
        g_uri_unescape_segment (rest.takeWhile (· ≠ ';')) = some value := by
  induction fuel with
  | zero => intro done header at_start _ h; simp [parse_cookie_loop] at h
  | succ fuel ih =>
    intro done header at_start hdone h
    rw [parse_cookie_loop_succ] at h
    rcases parse_cookie_iteration_cases name header at_start with
      hc | ⟨pre, rest, h1, h2, hc⟩ | ⟨pre, next, h1, hc⟩
    · rw [hc] at h
      simp at h
    · rw [hc] at h
      simp only [Option.some.injEq] at h
      refine ⟨done ++ pre, rest, by rw [h1]; simp, ?_, h⟩
      rcases h2 with ⟨hp, hat⟩ | ⟨p, ws, hp, hws⟩
      · left
        rw [hp, hdone hat]
        rfl
      · right
        exact ⟨done ++ p, ws, by rw [hp]; simp, hws⟩
    · rw [hc] at h
      simp only at h
      obtain ⟨pre', rest, h2, h3, h4⟩ :=
        ih (done ++ pre ++ name) next false (fun h => by cases h) h
      exact ⟨pre', rest, by rw [← h2, h1]; simp, h3, h4⟩

/-- C22: whenever `cockpit_web_server_parse_cookie` returns a value, the Cookie header
is `pre ++ name ++ "=" ++ rest`, where `pre` is empty or ends in a semicolon followed by
white space only, and the value is what `g_uri_unescape_segment` makes of `rest` up to its
first semicolon. So a name without such an occurrence yields `NULL` or, for the empty
name, no result at all. -/
theorem parse_cookie_sound (headers : GHashTable) (name value : List Char)
    (h : cockpit_web_server_parse_cookie headers name = some (some value)) :
    ∃ header pre rest, g_hash_table_lookup headers "Cookie".toList = some header ∧
      header = pre ++ name ++ '=' :: rest ∧
      (pre = [] ∨ ∃ p ws, pre = p ++ ';' :: ws ∧ ∀ c ∈ ws, g_ascii_isspace c = true) ∧
      g_uri_unescape_segment (rest.takeWhile (· ≠ ';')) = some value := by
  unfold cockpit_web_server_parse_cookie at h
  cases hl : g_hash_table_lookup headers "Cookie".toList with
  | none => rw [hl] at h; simp at h
  | some header =>
    rw [hl] at h
    simp only at h
    obtain ⟨pre, rest, h1, h2, h3⟩ :=
      parse_cookie_loop_sound name value _ [] header true (fun _ => rfl) h
    exact ⟨header, pre, rest, rfl, by simpa using h1, h2, h3⟩

/-- Witness for C22: the cookie `cookie2` of `cookie1=value; cookie2=value2` is found
behind the semicolon, and the names `okie2` and `cookie`, which occur in that header only
inside the cookie names, yield `NULL`. -/
theorem parse_cookie_sound_witness :
    cockpit_web_server_parse_cookie (cookie_table "cookie1=value; cookie2=value2")
      "okie2".toList = some none ∧
    cockpit_web_server_parse_cookie (cookie_table "cookie1=value; cookie2=value2")
      "cookie".toList = some none ∧
    cockpit_web_server_parse_cookie (cookie_table "a=value; b=a") "value".toList =
      some none ∧
    ∃ header pre rest,
      g_hash_table_lookup (cookie_table "cookie1=value; cookie2=value2") "Cookie".toList =
        some header ∧
      header = pre ++ "cookie2".toList ++ '=' :: rest ∧
      (pre = [] ∨ ∃ p ws, pre = p ++ ';' :: ws ∧ ∀ c ∈ ws, g_ascii_isspace c = true) ∧
      g_uri_unescape_segment (rest.takeWhile (· ≠ ';')) = some "value2".toList :=
  ⟨by decide, by decide, by decide,
    parse_cookie_sound (cookie_table "cookie1=value; cookie2=value2") "cookie2".toList
      "value2".toList (by decide)⟩

/-- C21: in the Cookie header `x=a; a=1` the text `a=1` stands behind a semicolon and a
space and `1` is validly encoded, yet `cockpit_web_server_parse_cookie` returns `NULL` for
the name `a`. The first iteration finds `a` in the value of `x` and goes on at `; a=1`;
the backward scan of the second iteration looks at the space and stops before the first
character of that rest, the semicolon. The same header without the cookie `x` gives
`1`. -/
theorem parse_cookie_misses_after_name :
    cockpit_web_server_parse_cookie (cookie_table "x=a; a=1") "a".toList = some none ∧
    "x=a; a=1".toList = "x=a".toList ++ ';' :: " ".toList ++ "a".toList ++ '=' :: "1".toList ∧
    (∀ c ∈ " ".toList, g_ascii_isspace c = true) ∧
    g_uri_unescape_segment ("1".toList.takeWhile (· ≠ ';')) = some "1".toList ∧
    parse_cookie_iteration "a".toList "x=a; a=1".toList true = Sum.inr "; a=1".toList ∧
    parse_cookie_iteration "a".toList "; a=1".toList false = Sum.inr "=1".toList ∧
    cockpit_web_server_parse_cookie (cookie_table "y=b; a=1") "a".toList =
      some (some "1".toList) := by
  decide

theorem parse_cookie_loop_fuel (name : List Char) (hname : name ≠ []) (fuel : Nat) :
    ∀ (header : List Char) (at_start : Bool), header.length < fuel →
      ∃ r, parse_cookie_loop name fuel header at_start = some r ∧
        ∀ more, parse_cookie_loop name (fuel + more) header at_start = some r := by
  induction fuel with
  | zero => intro header at_start h; omega
  | succ fuel ih =>
    intro header at_start hlen
    have hsucc : ∀ more, fuel + 1 + more = (fuel + more) + 1 := fun more => by omega
    rcases parse_cookie_iteration_cases name header at_start with
      hc | ⟨pre, rest, h1, h2, hc⟩ | ⟨pre, next, h1, hc⟩
    · refine ⟨none, by rw [parse_cookie_loop_succ, hc], fun more => ?_⟩
      rw [hsucc, parse_cookie_loop_succ, hc]
    · refine ⟨_, by rw [parse_cookie_loop_succ, hc], fun more => ?_⟩
      rw [hsucc, parse_cookie_loop_succ, hc]
    · have hn : 0 < name.length := List.length_pos.mpr hname
      have hl : next.length < fuel := by
        rw [h1] at hlen
        simp only [List.length_append] at hlen
        omega
      obtain ⟨r, hr, hmore⟩ := ih next false hl
      refine ⟨r, by rw [parse_cookie_loop_succ, hc]; exact hr, fun more => ?_⟩
      rw [hsucc, parse_cookie_loop_succ, hc]
      exact hmore more

theorem parse_cookie_loop_empty_name (fuel : Nat) (header : List Char) (at_start : Bool)
    (h : header.head? ≠ some '=') :
    parse_cookie_iteration [] header at_start = Sum.inr header ∧
      parse_cookie_loop [] fuel header at_start = none := by
  have hs : strstr header [] = some header := by
    cases header with
    | nil => rfl
    | cons c t => simp [strstr, starts_with]
  have hi : ∀ a, parse_cookie_iteration [] header a = Sum.inr header := by
    intro a
    unfold parse_cookie_iteration
    rw [hs]
    simp [h]
  refine ⟨hi at_start, ?_⟩
  induction fuel generalizing at_start with
  | zero => rfl
  | succ fuel ih =>
    rw [parse_cookie_loop_succ, hi]
    exact ih false

/-- C27: for a name that is not empty `cockpit_web_server_parse_cookie` returns (`NULL`
or a value). Every iteration of its loop either returns or goes on at a later part of the
header that is shorter by at least the length of the name, which is at least 1; so the
loop returns within the fuel of one unit per character of the header and one more, and
more fuel does not change the result. With the empty name and a header that does not
begin with `=`, an iteration goes on at the same header and the loop runs out of any
fuel. -/
theorem parse_cookie_terminates (headers : GHashTable) (name : List Char)
    (hname : name ≠ []) :
    (∃ r, cockpit_web_server_parse_cookie headers name = some r) ∧
    1 ≤ name.length ∧
    (∀ (header : List Char) (at_start : Bool),
      (∃ r, parse_cookie_iteration name header at_start = Sum.inl r) ∨
      ∃ skipped next, parse_cookie_iteration name header at_start = Sum.inr next ∧
        header = skipped ++ next ∧ next.length + name.length ≤ header.length) ∧
    (∀ (header : List Char) (at_start : Bool) (fuel : Nat), header.length < fuel →
      ∃ r, parse_cookie_loop name fuel header at_start = some r ∧
        ∀ more, parse_cookie_loop name (fuel + more) header at_start = some r) ∧
    (∀ (header : List Char) (at_start : Bool) (fuel : Nat), header.head? ≠ some '=' →
      parse_cookie_iteration [] header at_start = Sum.inr header ∧
        parse_cookie_loop [] fuel header at_start = none) := by
  refine ⟨?_, List.length_pos.mpr hname, ?_, ?_, ?_⟩
  · unfold cockpit_web_server_parse_cookie
    cases g_hash_table_lookup headers "Cookie".toList with
    | none => exact ⟨none, rfl⟩
    | some header =>
      obtain ⟨r, hr, -⟩ := parse_cookie_loop_fuel name hname (header.length + 1) header true
        (by omega)
      exact ⟨r, hr⟩
  · intro header at_start
    rcases parse_cookie_iteration_cases name header at_start with
      hc | ⟨pre, rest, h1, h2, hc⟩ | ⟨pre, next, h1, hc⟩
    · exact Or.inl ⟨_, hc⟩
    · exact Or.inl ⟨_, hc⟩
    · refine Or.inr ⟨pre ++ name, next, hc, h1, ?_⟩
      rw [h1]
      simp only [List.length_append]
      omega
  · intro header at_start fuel hlen
    exact parse_cookie_loop_fuel name hname fuel header at_start hlen
  · intro header at_start fuel h
    exact parse_cookie_loop_empty_name fuel header at_start h

/-- Witness for C27: the name `b` and the header `a=1; b=2`; and the empty name with the
header `b=1`, where the loop does not return. -/
theorem parse_cookie_terminates_witness :
    "b".toList ≠ [] ∧
    cockpit_web_server_parse_cookie (cookie_table "a=1; b=2") "b".toList =
      some (some "2".toList) ∧
    cockpit_web_server_parse_cookie (cookie_table "b=1") [] = none ∧
    (∃ r, cockpit_web_server_parse_cookie (cookie_table "a=1; b=2") "b".toList = some r) :=
  ⟨by decide, by decide, by decide,
    (parse_cookie_terminates (cookie_table "a=1; b=2") "b".toList (by decide)).1⟩

/-! ## Theorems: end of file and the dispatched path -/

theorem process_request_no_close (self : CockpitWebServer) (r : CockpitWebRequest) :
    Event.close_io_stream ∉ (process_request self r).2 := by
  intro hc
  by_cases h : r.delayed_reply = 0 ∧ root_matches self (r.original_path.getD [])
  · rw [process_request_dispatch_trace self r h.2 h.1] at hc
    simp only [List.mem_cons, List.mem_append] at hc
    rcases hc with hc | hc | hc
    · cases hc
    · obtain ⟨i, hi⟩ := run_stream_handlers_events _ _ _ _ hc
      cases hi
    · split_ifs at hc
      · cases hc
      · rcases default_handle_stream_events _ _ _ hc with ⟨d, p, h⟩ | ⟨i, p, h⟩ | h <;> cases h
  · by_cases hm : self.url_root ≠ [] ∧
        ( path_has_prefix (r.original_path.getD []) self.url_root) = false
    · rw [process_request_mismatch self r hm.1 hm.2] at hc
      simp at hc
    · have hroot : root_matches self (r.original_path.getD []) := by
        by_cases h1 : self.url_root = []
        · exact Or.inl h1
        · right
          by_contra h2
          exact hm ⟨h1, by simpa using h2⟩
      have hd : r.delayed_reply ≠ 0 := fun h0 => h ⟨h0, hroot⟩
      have hcond : ¬ (self.url_root.length ≠ 0 ∧
          ( path_has_prefix (r.original_path.getD []) self.url_root) = false) := by
        rcases hroot with h | h
        · simp [h]
        · simp [h]
      unfold process_request process_delayed_reply at hc
      simp only [hcond, if_false, hd, ne_eq, not_false_eq_true, if_true] at hc
      split_ifs at hc <;> simp at hc

/-- The function `parse_and_process_request` never closes the stream. -/
theorem parse_never_closes (self : CockpitWebServer) (P : Parsers)
    (request : CockpitWebRequest) :
    Event.close_io_stream ∉ (parse_and_process_request self P request).trace := by
  intro hc
  by_cases hv : head_valid P request
  swap
  · rcases parse_invalid_head self P request hv with h | h <;> rw [h] at hc <;> simp at hc
  cases hn : declared_length P request with
  | none =>
    rw [parse_invalid_length self P request hv hn, out_trace] at hc
    simp at hc
  | some n =>
    by_cases hp : (request.buffer.length : Int) <
        needed_length (req_line P request).off (req_headers P request).off n
    · rw [parse_pending self P request hv n hn hp, out_trace] at hc
      simp at hc
    · rw [parse_received self P request hv n hn hp, out_trace] at hc
      simp only [Bool.false_eq_true, if_false, List.mem_append, List.mem_singleton] at hc
      rcases hc with hc | hc
      · exact process_request_no_close self _ hc
      · cases hc

theorem take_maximum_length (bytes : List Char) :
    (bytes.take (cockpit_webserver_request_maximum + 1)).length = 0 ↔ bytes = [] := by
  constructor
  · intro h
    cases bytes with
    | nil => rfl
    | cons c t => simp [cockpit_webserver_request_maximum] at h
  · intro h
    rw [h]
    rfl

/-- C26: the request that `cockpit_web_request_start` makes has `eof_okay` set, and this
is the request with which a stream is re-armed when a response reports it reusable. A
read of at least one byte leaves the request with `eof_okay` cleared, and once it is
cleared no call of `on_socket_input` sets it again. A read of zero bytes finishes the
request, closing the stream first exactly when `eof_okay` is set; no other call of
`on_socket_input` closes the stream. -/
theorem eof_okay_lifecycle (self : CockpitWebServer) (P : Parsers)
    (request : CockpitWebRequest) :
    cockpit_web_request_start.eof_okay = true ∧
    on_web_response_done true = (some cockpit_web_request_start, []) ∧
    (∀ bytes, bytes ≠ [] →
      (on_socket_input self P request (SocketRead.data bytes)).request.eof_okay = false) ∧
    (∀ read, request.eof_okay = false →
      (on_socket_input self P request read).request.eof_okay = false) ∧
    (on_socket_input self P request (SocketRead.data [])).again = false ∧
    (on_socket_input self P request (SocketRead.data [])).trace =
      (if request.eof_okay then [Event.close_io_stream] else []) ++ [Event.finish] ∧
    (∀ read, Event.close_io_stream ∈ (on_socket_input self P request read).trace ↔
      read = SocketRead.data [] ∧ request.eof_okay = true) := by
  have hdata : ∀ bytes, bytes ≠ [] →
      (on_socket_input self P request (SocketRead.data bytes)).request.eof_okay = false ∧
      Event.close_io_stream ∉
        (on_socket_input self P request (SocketRead.data bytes)).trace := by
    intro bytes hb
    have h0 : (bytes.take (cockpit_webserver_request_maximum + 1)).length ≠ 0 :=
      fun h => hb ((take_maximum_length bytes).mp h)
    rw [on_socket_input_data self P request bytes h0]
    exact ⟨(parse_step self P _).2.2, parse_never_closes self P _⟩
  have heof := on_socket_input_eof self P request [] rfl
  refine ⟨rfl, rfl, fun bytes hb => (hdata bytes hb).1, ?_, ?_, ?_, ?_⟩
  · intro read he
    cases read with
    | would_block uninit => exact he
    | failed uninit => exact he
    | data bytes =>
      by_cases hb : bytes = []
      · rw [hb, heof]
        exact he
      · exact (hdata bytes hb).1
  · rw [heof]
  · rw [heof]
  · intro read
    cases read with
    | would_block uninit =>
      constructor
      · intro h; simp [on_socket_input] at h
      · rintro ⟨h, -⟩; cases h
    | failed uninit =>
      constructor
      · intro h; simp [on_socket_input] at h
      · rintro ⟨h, -⟩; cases h
    | data bytes =>
      by_cases hb : bytes = []
      · rw [hb, heof]
        simp only [List.mem_append, List.mem_singleton, true_and]
        constructor
        · rintro (h | h)
          · by_contra hne
            rw [if_neg hne] at h
            cases h
          · cases h
        · intro h
          rw [if_pos h]
          exact Or.inl (List.mem_singleton.mpr rfl)
      · constructor
        · intro h
          exact absurd h (hdata bytes hb).2
        · rintro ⟨h, -⟩
          exact absurd (SocketRead.data.inj h) hb

/-- Witness for C26: a read of zero bytes on a new request closes the stream and finishes
the request; after a read of one byte, which asks for more, a read of zero bytes finishes
the request and leaves the stream open. -/
theorem eof_okay_lifecycle_witness :
    (on_socket_input cockpit_web_server_new spec_parsers cockpit_web_request_start
      (SocketRead.data [])).trace = [Event.close_io_stream, Event.finish] ∧
    (on_socket_input cockpit_web_server_new spec_parsers cockpit_web_request_start
      (SocketRead.data ['G'])).again = true ∧
    (on_socket_input cockpit_web_server_new spec_parsers
      (on_socket_input cockpit_web_server_new spec_parsers cockpit_web_request_start
        (SocketRead.data ['G'])).request (SocketRead.data [])).trace = [Event.finish] ∧
    (on_socket_input cockpit_web_server_new spec_parsers cockpit_web_request_start
      (SocketRead.data ['G'])).request.eof_okay = false :=
  ⟨by decide, by decide, by decide,
    (eof_okay_lifecycle cockpit_web_server_new spec_parsers cockpit_web_request_start).2.2.1
      ['G'] (by decide)⟩


theorem before_query_shape (p : List Char) (h : p = [] ∨ p.head? = some '/') :
    (before_query p = [] ∨ (before_query p).head? = some '/') ∧
      (before_query p = [] ↔ p = []) := by
  rcases h with h | h
  · rw [h]
    exact ⟨Or.inl rfl, Iff.rfl⟩
  · cases p with
    | nil => cases h
    | cons c t =>
      simp only [List.head?_cons, Option.some.injEq] at h
      rw [h]
      have : before_query ('/' :: t) = '/' :: before_query t := by
        simp [before_query, List.takeWhile]
      rw [this]
      exact ⟨Or.inr rfl, by simp⟩

theorem stripped_path_shape (self : CockpitWebServer) (t : List Char)
    (hroot : root_matches self t) (ht : t.head? = some '/') :
    (t.drop self.url_root.length = [] ∨ (t.drop self.url_root.length).head? = some '/') ∧
      (t.drop self.url_root.length = [] ↔ self.url_root ≠ [] ∧ t = self.url_root) := by
  rcases (root_matches_iff self t).mp hroot with h0 | ⟨rest, h1, h2⟩
  · rw [h0]
    simp only [List.length_nil, List.drop_zero]
    refine ⟨Or.inr ht, ?_⟩
    constructor
    · intro h; rw [h] at ht; cases ht
    · rintro ⟨h, -⟩; exact absurd rfl h
  · have hd : t.drop self.url_root.length = rest := by rw [h1]; simp
    rw [hd]
    refine ⟨h2, ?_⟩
    constructor
    · intro h
      rw [h, List.append_nil] at h1
      refine ⟨?_, h1⟩
      intro h0
      rw [h1, h0] at ht
      cases ht
    · rintro ⟨-, h⟩
      have := congrArg List.length h1
      rw [List.length_append] at this
      have hl : t.length = self.url_root.length := by rw [h]
      exact List.length_eq_zero.mp (by omega)

theorem root_query_mismatch (self : CockpitWebServer) (t query : List Char)
    (hroot : self.url_root ≠ []) (ht : t = self.url_root ++ '?' :: query) :
    ¬ root_matches self t := by
  intro h
  rcases (root_matches_iff self t).mp h with h0 | ⟨rest, h1, h2⟩
  · exact hroot h0
  · rw [ht] at h1
    have h3 := List.append_cancel_left h1
    rw [← h3] at h2
    rcases h2 with h2 | h2
    · cases h2
    · simp at h2

/-- C28 (amended): the path of every request that is dispatched to `handle-stream`, and
the path given to every `handle-resource` emission and handler, is empty or begins with a
slash;
it is empty exactly when the URL root is not empty and the request target, with its query
string, is the URL root. For a target that is a non-empty URL root followed by `?` and a
query nothing is dispatched, and the answer is 404 when the head is valid, the declared
body length is valid and the declared body is in the buffer. -/
theorem dispatched_path_shape (self : CockpitWebServer) (P : Parsers)
    (request : CockpitWebRequest) :
    (∀ r, (Event.emit_handle_stream r ∈ (parse_and_process_request self P request).trace ∨
        ∃ i, Event.handle_stream i r ∈ (parse_and_process_request self P request).trace) →
      ∃ path, r.path = some path ∧ (path = [] ∨ path.head? = some '/') ∧
        (path = [] ↔ self.url_root ≠ [] ∧ target P request = self.url_root)) ∧
    (∀ path,
      ((∃ d, Event.emit_handle_resource d path ∈
          (parse_and_process_request self P request).trace) ∨
        ∃ i, Event.handle_resource i path ∈
          (parse_and_process_request self P request).trace) →
      (path = [] ∨ path.head? = some '/') ∧
        (path = [] ↔ self.url_root ≠ [] ∧ target P request = self.url_root)) ∧
    (∀ query, self.url_root ≠ [] → target P request = self.url_root ++ '?' :: query →
      (∀ e ∈ (parse_and_process_request self P request).trace, e.is_dispatch = false) ∧
      (head_valid P request → ∀ n, declared_length P request = some n →
        ¬ ((request.buffer.length : Int) <
          needed_length (req_line P request).off (req_headers P request).off n) →
        (parse_and_process_request self P request).trace =
          [Event.response_error 404, Event.finish])) := by
  have hpath : ∀ e ∈ (parse_and_process_request self P request).trace,
      e.is_dispatch = true →
      (set_path self (validated (parsed P request 0) (req_line P request).off
        (req_headers P request).off)).path =
          some ((target P request).drop self.url_root.length) ∧
      (((target P request).drop self.url_root.length = [] ∨
          ((target P request).drop self.url_root.length).head? = some '/') ∧
        ((target P request).drop self.url_root.length = [] ↔
          self.url_root ≠ [] ∧ target P request = self.url_root)) := by
    intro e he hd
    obtain ⟨hv, -, -, -, -, -, hroot, -, -⟩ := dispatch_inv self P request e he hd
    refine ⟨?_, stripped_path_shape self _ hroot hv.2.2.2.1⟩
    show Option.map _ (req_line P request).resource = _
    rw [target_of_valid P request hv]
    rfl
  refine ⟨?_, ?_, ?_⟩
  · intro r h
    obtain ⟨-, -, -, hr⟩ := stream_event_request self P request r h
    have hp : ∃ e, e ∈ (parse_and_process_request self P request).trace ∧
        e.is_dispatch = true := by
      rcases h with h | ⟨i, h⟩
      · exact ⟨_, h, rfl⟩
      · exact ⟨_, h, rfl⟩
    obtain ⟨e, he, hd⟩ := hp
    obtain ⟨h1, h2⟩ := hpath e he hd
    exact ⟨_, by rw [hr]; exact h1, h2⟩
  · intro path h
    have hp : ∃ e, e ∈ (parse_and_process_request self P request).trace ∧
        e.is_dispatch = true ∧
        ((∃ d, e = Event.emit_handle_resource d path) ∨
          ∃ i, e = Event.handle_resource i path) := by
      rcases h with ⟨d, h⟩ | ⟨i, h⟩
      · exact ⟨_, h, rfl, Or.inl ⟨d, rfl⟩⟩
      · exact ⟨_, h, rfl, Or.inr ⟨i, rfl⟩⟩
    obtain ⟨e, he, hd, hform⟩ := hp
    obtain ⟨h1, h2⟩ := hpath e he hd
    obtain ⟨-, ht⟩ := dispatch_trace self P request e he hd
    have hq : path = before_query ((target P request).drop self.url_root.length) := by
      rw [ht] at he
      obtain ⟨rest, hdef, hrest⟩ := default_handle_stream_trace self
        (set_path self (validated (parsed P request 0) (req_line P request).off
          (req_headers P request).off))
      rw [h1, Option.getD_some] at hdef hrest
      simp only [List.mem_cons, List.mem_append, List.not_mem_nil, or_false] at he
      rcases he with (he | he | he) | he
      · rcases hform with ⟨d, hf⟩ | ⟨i, hf⟩
        · rw [he] at hf; cases hf
        · rw [he] at hf; cases hf
      · obtain ⟨i, hi⟩ := run_stream_handlers_events _ _ _ _ he
        rcases hform with ⟨d, hf⟩ | ⟨j, hf⟩
        · rw [hf] at hi; cases hi
        · rw [hf] at hi; cases hi
      · split_ifs at he with hc
        · cases he
        · rw [hdef] at he
          rcases List.mem_cons.mp he with he | he
          · rcases hform with ⟨d, hf⟩ | ⟨i, hf⟩
            · rw [he] at hf
              cases hf
              rfl
            · rw [he] at hf
              cases hf
          · rcases hform with ⟨d, hf⟩ | ⟨i, hf⟩
            · exact absurd hf ((hrest e he).1 d path)
            · exact (hrest e he).2 i path hf
      · rcases hform with ⟨d, hf⟩ | ⟨i, hf⟩
        · rw [he] at hf; cases hf
        · rw [he] at hf; cases hf
    obtain ⟨h3, h4⟩ := before_query_shape _ h2.1
    rw [hq]
    exact ⟨h3, h4.trans h2.2⟩
  · intro query hroot ht
    have hm : ¬ root_matches self (target P request) :=
      root_query_mismatch self _ query hroot ht
    refine ⟨?_, ?_⟩
    · intro e he
      by_contra hd
      have hd2 : e.is_dispatch = true := by simpa using hd
      obtain ⟨-, -, -, -, -, -, hr, -, -⟩ := dispatch_inv self P request e he hd2
      exact hm hr
    · intro hv n hn hrecv
      rw [parse_received self P request hv n hn hrecv, out_trace]
      have h2 := (not_root_matches self _ hm).2
      rw [process_request_mismatch self _ hroot
        (by rw [validated_original_path, target_of_valid P request hv]; exact h2)]
      rfl

/-- Witness for C28 (amended): with the URL root `/app` the target `/app` is dispatched with the
empty path, the target `/app/index` with the path `/index`, and the target `/app?x=1` is
answered with 404. -/
theorem dispatched_path_shape_witness :
    (parse_and_process_request server_with_handlers spec_parsers
      (request_with "GET /app HTTP/1.1\r\nHost: x\r\n\r\n")).trace.map Event.stream_path =
      [some [], none, none, none, none] ∧
    (parse_and_process_request server_with_handlers spec_parsers
      (request_with "GET /app/index HTTP/1.1\r\nHost: x\r\n\r\n")).trace.map
        Event.stream_path = [some "/index".toList, none, none, none, none] ∧
    (parse_and_process_request server_with_handlers spec_parsers
      (request_with "GET /app?x=1 HTTP/1.1\r\nHost: x\r\n\r\n")).trace =
      [Event.response_error 404, Event.finish] ∧
    (∀ path,
      ((∃ d, Event.emit_handle_resource d path ∈
          (parse_and_process_request server_with_handlers spec_parsers
            (request_with "GET /app HTTP/1.1\r\nHost: x\r\n\r\n")).trace) ∨
        ∃ i, Event.handle_resource i path ∈
          (parse_and_process_request server_with_handlers spec_parsers
            (request_with "GET /app HTTP/1.1\r\nHost: x\r\n\r\n")).trace) →
      (path = [] ∨ path.head? = some '/') ∧
        (path = [] ↔ server_with_handlers.url_root ≠ [] ∧
          target spec_parsers (request_with "GET /app HTTP/1.1\r\nHost: x\r\n\r\n") =
            server_with_handlers.url_root)) :=
  ⟨by decide, by decide, by decide,
    (dispatched_path_shape server_with_handlers spec_parsers
      (request_with "GET /app HTTP/1.1\r\nHost: x\r\n\r\n")).2.1⟩

/-- C28 (counterexample): with URL root `/app` the request line and the headers of
`GET /app?x=1` parse and the target is the root followed by `?` and a query, yet no 404 is
written: with `Content-Length: 5` and no body in the buffer the pipeline waits for more
input, and with `Content-Length: 5x` the request is finished without any response. -/
theorem root_query_no_reply :
    (server_with_root "/app").url_root = "/app".toList ∧
    (0 < (req_line spec_parsers
        (request_with "GET /app?x=1 HTTP/1.1\r\nHost: x\r\nContent-Length: 5\r\n\r\n")).off ∧
      target spec_parsers
        (request_with "GET /app?x=1 HTTP/1.1\r\nHost: x\r\nContent-Length: 5\r\n\r\n") =
        (server_with_root "/app").url_root ++ '?' :: "x=1".toList ∧
      0 < (req_headers spec_parsers
        (request_with "GET /app?x=1 HTTP/1.1\r\nHost: x\r\nContent-Length: 5\r\n\r\n")).off ∧
      (parse_and_process_request (server_with_root "/app") spec_parsers
        (request_with "GET /app?x=1 HTTP/1.1\r\nHost: x\r\nContent-Length: 5\r\n\r\n")).again
        = true ∧
      (parse_and_process_request (server_with_root "/app") spec_parsers
        (request_with "GET /app?x=1 HTTP/1.1\r\nHost: x\r\nContent-Length: 5\r\n\r\n")).trace
        = []) ∧
    (0 < (req_line spec_parsers
        (request_with "GET /app?x=1 HTTP/1.1\r\nHost: x\r\nContent-Length: 5x\r\n\r\n")).off ∧
      target spec_parsers
        (request_with "GET /app?x=1 HTTP/1.1\r\nHost: x\r\nContent-Length: 5x\r\n\r\n") =
        (server_with_root "/app").url_root ++ '?' :: "x=1".toList ∧
      0 < (req_headers spec_parsers
        (request_with "GET /app?x=1 HTTP/1.1\r\nHost: x\r\nContent-Length: 5x\r\n\r\n")).off ∧
      (parse_and_process_request (server_with_root "/app") spec_parsers
        (request_with "GET /app?x=1 HTTP/1.1\r\nHost: x\r\nContent-Length: 5x\r\n\r\n")).trace
        = [Event.finish]) := by
  decide

/-! ## Theorems: stable sorting -/

theorem orderedInsert_congr {α : Type} (r s : α → α → Prop) [DecidableRel r] [DecidableRel s]
    (h : ∀ a b, r a b ↔ s a b) (a : α) (l : List α) :
    l.orderedInsert r a = l.orderedInsert s a := by
  induction l with
  | nil => rfl
  | cons b t ih =>
    show (if r a b then a :: b :: t else b :: t.orderedInsert r a) =
      if s a b then a :: b :: t else b :: t.orderedInsert s a
    by_cases hr : r a b
    · rw [if_pos hr, if_pos ((h a b).mp hr)]
    · rw [if_neg hr, if_neg (fun hs => hr ((h a b).mpr hs)), ih]

theorem insertionSort_congr {α : Type} (r s : α → α → Prop) [DecidableRel r] [DecidableRel s]
    (h : ∀ a b, r a b ↔ s a b) (l : List α) :
    l.insertionSort r = l.insertionSort s := by
  induction l with
  | nil => rfl
  | cons b t ih =>
    show (t.insertionSort r).orderedInsert r b = (t.insertionSort s).orderedInsert s b
    rw [ih, orderedInsert_congr r s h]

theorem orderedInsert_cons {α : Type} (r : α → α → Prop) [DecidableRel r] (a b : α)
    (l : List α) :
    (b :: l).orderedInsert r a = if r a b then a :: b :: l else b :: l.orderedInsert r a :=
  rfl

/-- Inserting into a sorted list and filtering is filtering and then inserting, when the
inserted element passes the filter. -/
theorem filter_orderedInsert {α : Type} (r : α → α → Prop) [DecidableRel r] [IsTrans α r]
    (p : α → Bool) (a : α) (l : List α) (hs : l.Sorted r) :
    (l.orderedInsert r a).filter p =
      if p a = true then (l.filter p).orderedInsert r a else l.filter p := by
  induction l with
  | nil =>
    by_cases hp : p a = true
    · simp [hp]
    · simp [hp]
  | cons b t ih =>
    have ht : t.Sorted r := hs.of_cons
    have hbt : ∀ c ∈ t, r b c := fun c hc => List.rel_of_sorted_cons hs c hc
    rw [orderedInsert_cons]
    by_cases hr : r a b
    · rw [if_pos hr]
      by_cases hpa : p a = true
      · rw [if_pos hpa, List.filter_cons_of_pos hpa]
        by_cases hpb : p b = true
        · rw [List.filter_cons_of_pos hpb, orderedInsert_cons, if_pos hr]
        · rw [List.filter_cons_of_neg hpb]
          cases hf : t.filter p with
          | nil => rfl
          | cons c u =>
            have hc : c ∈ t := by
              have : c ∈ t.filter p := by rw [hf]; exact List.mem_cons_self _ _
              exact (List.mem_filter.mp this).1
            rw [orderedInsert_cons, if_pos (IsTrans.trans _ _ _ hr (hbt c hc))]
      · rw [if_neg hpa, List.filter_cons_of_neg hpa]
    · rw [if_neg hr]
      by_cases hpb : p b = true
      · rw [List.filter_cons_of_pos hpb, List.filter_cons_of_pos hpb, ih ht]
        by_cases hpa : p a = true
        · rw [if_pos hpa, if_pos hpa, orderedInsert_cons, if_neg hr]
        · rw [if_neg hpa, if_neg hpa]
      · rw [List.filter_cons_of_neg hpb, List.filter_cons_of_neg hpb, ih ht]

/-- Insertion sort commutes with filtering. -/
theorem filter_insertionSort {α : Type} (r : α → α → Prop) [DecidableRel r] [IsTotal α r]
    [IsTrans α r] (p : α → Bool) (l : List α) :
    (l.insertionSort r).filter p = (l.filter p).insertionSort r := by
  induction l with
  | nil => rfl
  | cons b t ih =>
    show ((t.insertionSort r).orderedInsert r b).filter p = _
    rw [filter_orderedInsert r p b _ (List.sorted_insertionSort r t), ih]
    by_cases hp : p b = true
    · rw [if_pos hp, List.filter_cons_of_pos hp]
      rfl
    · rw [if_neg hp, List.filter_cons_of_neg hp]

/-- Insertion sort leaves a list alone in which every element may stand in front of every
other one. -/
theorem insertionSort_of_all {α : Type} (r : α → α → Prop) [DecidableRel r] (l : List α)
    (h : ∀ a ∈ l, ∀ b ∈ l, r a b) : l.insertionSort r = l := by
  apply List.Sorted.insertionSort_eq
  induction l with
  | nil => exact List.sorted_nil
  | cons a t ih =>
    refine List.sorted_cons.mpr ⟨fun b hb => h a (List.mem_cons_self _ _) b
      (List.mem_cons_of_mem _ hb), ih ?_⟩
    intro x hx y hy
    exact h x (List.mem_cons_of_mem _ hx) y (List.mem_cons_of_mem _ hy)

theorem insertionSort_congr_mem {α : Type} (r s : α → α → Prop) [DecidableRel r]
    [DecidableRel s] (l : List α) (h : ∀ a ∈ l, ∀ b ∈ l, (r a b ↔ s a b)) :
    l.insertionSort r = l.insertionSort s := by
  induction l with
  | nil => rfl
  | cons x t ih =>
    have ht : t.insertionSort r = t.insertionSort s :=
      ih (fun a ha b hb => h a (List.mem_cons_of_mem _ ha) b (List.mem_cons_of_mem _ hb))
    show (t.insertionSort r).orderedInsert r x = (t.insertionSort s).orderedInsert s x
    rw [ht]
    have hmem : ∀ b ∈ t.insertionSort s, (r x b ↔ s x b) := fun b hb =>
      h x (List.mem_cons_self _ _) b (List.mem_cons_of_mem _ ((List.mem_insertionSort s).mp hb))
    generalize t.insertionSort s = u at hmem
    induction u with
    | nil => rfl
    | cons b u ihu =>
      rw [orderedInsert_cons, orderedInsert_cons]
      have hb := hmem b (List.mem_cons_self _ _)
      by_cases hr : r x b
      · rw [if_pos hr, if_pos (hb.mp hr)]
      · rw [if_neg hr, if_neg (fun hs => hr (hb.mpr hs)),
          ihu (fun c hc => hmem c (List.mem_cons_of_mem _ hc))]

/-! ## Theorems: the merge sort of `g_ptr_array_sort` -/

theorem merge_loop_nil_right {α : Type} (cmp : α → α → Int) (b1 : List α) :
    merge_loop cmp b1 [] = b1 := by
  induction b1 with
  | nil => rfl
  | cons x t ih =>
    show x :: merge_loop cmp t [] = x :: t
    rw [ih]

theorem merge_loop_cons_cons {α : Type} (cmp : α → α → Int) (x y : α) (b1 b2 : List α) :
    merge_loop cmp (x :: b1) (y :: b2) =
      if cmp x y ≤ 0 then x :: merge_loop cmp b1 (y :: b2)
      else y :: merge_loop cmp (x :: b1) b2 :=
  rfl

/-- Whatever the comparison function answers, merging rearranges the two runs. -/
theorem merge_loop_perm {α : Type} (cmp : α → α → Int) (b1 b2 : List α) :
    (merge_loop cmp b1 b2).Perm (b1 ++ b2) := by
  induction b1 generalizing b2 with
  | nil => exact List.Perm.refl _
  | cons x t ih =>
    induction b2 with
    | nil =>
      rw [merge_loop_nil_right, List.append_nil]
    | cons y u ihu =>
      rw [merge_loop_cons_cons]
      split_ifs
      · exact (ih (y :: u)).cons x
      · exact (ihu.cons y).trans (List.perm_middle.symm)

/-- Whatever the comparison function answers, the merge sort rearranges the array. -/
theorem msort_with_tmp_perm {α : Type} (cmp : α → α → Int) (fuel : Nat) (b : List α) :
    (msort_with_tmp cmp fuel b).Perm b := by
  induction fuel generalizing b with
  | zero => exact List.Perm.refl _
  | succ fuel ih =>
    rw [msort_with_tmp]
    split_ifs
    · exact List.Perm.refl _
    · refine (merge_loop_perm cmp _ _).trans ?_
      refine ((ih _).append (ih _)).trans ?_
      rw [List.take_append_drop]

/-- The merge sort never runs out of fuel when it has one unit for every element but one:
more fuel gives the same result, whatever the comparison function answers. -/
theorem msort_with_tmp_fuel {α : Type} (cmp : α → α → Int) (fuel : Nat) :
    ∀ (more : Nat) (b : List α), b.length ≤ fuel + 1 →
      msort_with_tmp cmp (fuel + more) b = msort_with_tmp cmp fuel b := by
  induction fuel with
  | zero =>
    intro more b hb
    cases more with
    | zero => rfl
    | succ more =>
      have h0 : msort_with_tmp cmp 0 b = b := rfl
      have h1 : msort_with_tmp cmp (more + 1) b = b := by
        rw [msort_with_tmp, if_pos (by omega)]
      rw [Nat.zero_add, h0, h1]
  | succ fuel ih =>
    intro more b hb
    have hsucc : fuel + 1 + more = (fuel + more) + 1 := by omega
    rw [hsucc, msort_with_tmp, msort_with_tmp]
    split_ifs with h1
    · rfl
    · have hlt : b.length / 2 < b.length := Nat.div_lt_self (by omega) (by omega)
      have hpos : 0 < b.length / 2 := Nat.div_pos (by omega) (by omega)
      rw [ih more _ (by rw [List.length_take]; omega),
        ih more _ (by rw [List.length_drop]; omega)]

theorem merge_loop_congr {α : Type} (cmp cmp' : α → α → Int) (b1 b2 : List α)
    (h : ∀ x ∈ b1, ∀ y ∈ b2, (cmp x y ≤ 0 ↔ cmp' x y ≤ 0)) :
    merge_loop cmp b1 b2 = merge_loop cmp' b1 b2 := by
  induction b1 generalizing b2 with
  | nil => rfl
  | cons x t ih =>
    induction b2 with
    | nil => rw [merge_loop_nil_right, merge_loop_nil_right]
    | cons y u ihu =>
      rw [merge_loop_cons_cons, merge_loop_cons_cons]
      have hxy := h x (List.mem_cons_self _ _) y (List.mem_cons_self _ _)
      by_cases hc : cmp x y ≤ 0
      · rw [if_pos hc, if_pos (hxy.mp hc),
          ih (y :: u) (fun a ha b hb => h a (List.mem_cons_of_mem _ ha) b hb)]
      · rw [if_neg hc, if_neg (fun hc' => hc (hxy.mpr hc')),
          ihu (fun a ha b hb => h a ha b (List.mem_cons_of_mem _ hb))]

/-- Two comparison functions that agree on the elements of the array sort it alike. -/
theorem msort_with_tmp_congr {α : Type} (cmp cmp' : α → α → Int) (fuel : Nat) (b : List α)
    (h : ∀ x ∈ b, ∀ y ∈ b, (cmp x y ≤ 0 ↔ cmp' x y ≤ 0)) :
    msort_with_tmp cmp fuel b = msort_with_tmp cmp' fuel b := by
  induction fuel generalizing b with
  | zero => rfl
  | succ fuel ih =>
    rw [msort_with_tmp, msort_with_tmp]
    split_ifs
    · rfl
    · have h1 : ∀ x ∈ b.take (b.length / 2), x ∈ b := fun x hx => List.mem_of_mem_take hx
      have h2 : ∀ x ∈ b.drop (b.length / 2), x ∈ b := fun x hx => List.mem_of_mem_drop hx
      rw [ih _ (fun x hx y hy => h x (h1 x hx) y (h1 y hy)),
        ih _ (fun x hx y hy => h x (h2 x hx) y (h2 y hy))]
      apply merge_loop_congr
      intro x hx y hy
      exact h x (h1 x ((msort_with_tmp_perm cmp' fuel _).mem_iff.mp hx)) y
        (h2 y ((msort_with_tmp_perm cmp' fuel _).mem_iff.mp hy))

/-- For a comparison function that is total and transitive, merging commutes with the
insertion of an element into the first run. -/
theorem merge_loop_orderedInsert {α : Type} (cmp : α → α → Int)
    (htot : ∀ a b, cmp a b ≤ 0 ∨ cmp b a ≤ 0)
    (htr : ∀ a b c, cmp a b ≤ 0 → cmp b c ≤ 0 → cmp a c ≤ 0) (a : α) (s1 s2 : List α) :
    merge_loop cmp (s1.orderedInsert (fun x y => cmp x y ≤ 0) a) s2 =
      (merge_loop cmp s1 s2).orderedInsert (fun x y => cmp x y ≤ 0) a := by
  induction s1 generalizing s2 with
  | nil =>
    show merge_loop cmp [a] s2 = s2.orderedInsert (fun x y => cmp x y ≤ 0) a
    induction s2 with
    | nil => rfl
    | cons y u ihu =>
      rw [merge_loop_cons_cons, orderedInsert_cons, ihu]
      rfl
  | cons c t ih1 =>
    induction s2 with
    | nil => rw [merge_loop_nil_right, merge_loop_nil_right]
    | cons y u ih2 =>
      rw [orderedInsert_cons] at ih2 ⊢
      by_cases hac : cmp a c ≤ 0
      · rw [if_pos hac] at ih2 ⊢
        rw [merge_loop_cons_cons]
        by_cases hay : cmp a y ≤ 0
        · rw [if_pos hay, merge_loop_cons_cons]
          by_cases hcy : cmp c y ≤ 0
          · rw [if_pos hcy, orderedInsert_cons, if_pos hac]
          · rw [if_neg hcy, orderedInsert_cons, if_pos hay]
        · have hcy : ¬ cmp c y ≤ 0 := fun hcy => hay (htr a c y hac hcy)
          rw [if_neg hay, merge_loop_cons_cons (x := c), if_neg hcy, orderedInsert_cons,
            if_neg hay, ih2]
      · rw [if_neg hac] at ih2 ⊢
        rw [merge_loop_cons_cons, merge_loop_cons_cons (x := c)]
        by_cases hcy : cmp c y ≤ 0
        · rw [if_pos hcy, if_pos hcy, orderedInsert_cons, if_neg hac, ih1]
        · have hay : ¬ cmp a y ≤ 0 := by
            intro hay
            rcases htot c y with h | h
            · exact hcy h
            · exact hac (htr a y c hay h)
          rw [if_neg hcy, if_neg hcy, orderedInsert_cons, if_neg hay, ih2]

theorem merge_loop_insertionSort {α : Type} (cmp : α → α → Int)
    (htot : ∀ a b, cmp a b ≤ 0 ∨ cmp b a ≤ 0)
    (htr : ∀ a b c, cmp a b ≤ 0 → cmp b c ≤ 0 → cmp a c ≤ 0) (l1 l2 : List α) :
    merge_loop cmp (l1.insertionSort (fun x y => cmp x y ≤ 0))
        (l2.insertionSort (fun x y => cmp x y ≤ 0)) =
      (l1 ++ l2).insertionSort (fun x y => cmp x y ≤ 0) := by
  induction l1 with
  | nil => rfl
  | cons a t ih =>
    show merge_loop cmp ((t.insertionSort _).orderedInsert _ a) _ =
      ((t ++ l2).insertionSort _).orderedInsert _ a
    rw [merge_loop_orderedInsert cmp htot htr, ih]

/-- For a comparison function that is total and transitive the merge sort, with fuel for
the length of the array, gives what the insertion sort gives: the stable sort. -/
theorem msort_with_tmp_eq_insertionSort {α : Type} (cmp : α → α → Int)
    (htot : ∀ a b, cmp a b ≤ 0 ∨ cmp b a ≤ 0)
    (htr : ∀ a b c, cmp a b ≤ 0 → cmp b c ≤ 0 → cmp a c ≤ 0) (fuel : Nat) :
    ∀ b : List α, b.length ≤ fuel + 1 →
      msort_with_tmp cmp fuel b = b.insertionSort (fun x y => cmp x y ≤ 0) := by
  have hshort : ∀ b : List α, b.length ≤ 1 →
      b = b.insertionSort (fun x y => cmp x y ≤ 0) := by
    intro b hb
    match b, hb with
    | [], _ => rfl
    | [_], _ => rfl
    | _ :: _ :: _, hb => simp at hb
  induction fuel with
  | zero =>
    intro b hb
    exact hshort b (by omega)
  | succ fuel ih =>
    intro b hb
    rw [msort_with_tmp]
    split_ifs with h1
    · exact hshort b h1
    · have hlt : b.length / 2 < b.length := Nat.div_lt_self (by omega) (by omega)
      have hpos : 0 < b.length / 2 := Nat.div_pos (by omega) (by omega)
      rw [ih _ (by rw [List.length_take]; omega), ih _ (by rw [List.length_drop]; omega),
        merge_loop_insertionSort cmp htot htr, List.take_append_drop]

/-! ## Theorems: `cockpit_web_server_parse_accept_list` -/

theorem strchr_split (s : List Char) (c : Char) :
    (strchr s c = none ∧ c ∉ s) ∨
      ∃ pre t, strchr s c = some (c :: t) ∧ s = pre ++ c :: t ∧ c ∉ pre := by
  induction s with
  | nil => exact Or.inl ⟨rfl, by simp⟩
  | cons a u ih =>
    by_cases h : a = c
    · right
      exact ⟨[], u, by simp [strchr, h], by rw [h]; rfl, by simp⟩
    · rcases ih with ⟨h1, h2⟩ | ⟨pre, t, h1, h2, h3⟩
      · left
        refine ⟨by simp [strchr, h, h1], ?_⟩
        simp only [List.mem_cons, not_or]
        exact ⟨fun hc => h hc.symm, h2⟩
      · right
        refine ⟨a :: pre, t, by simp [strchr, h, h1], by rw [h2]; rfl, ?_⟩
        simp only [List.mem_cons, not_or]
        exact ⟨fun hc => h hc.symm, h3⟩

theorem cut_at_append (pre pos : List Char) : cut_at (pre ++ pos) pos = pre := by
  simp [cut_at]

theorem takeWhile_ne_append (pre t : List Char) (c : Char) (h : c ∉ pre) :
    (pre ++ c :: t).takeWhile (· ≠ c) = pre ∧ (pre ++ c :: t).dropWhile (· ≠ c) = c :: t := by
  induction pre with
  | nil => simp
  | cons a u ih =>
    simp only [List.mem_cons, not_or] at h
    have ha : a ≠ c := fun hc => h.1 hc.symm
    obtain ⟨h1, h2⟩ := ih h.2
    constructor
    · simp only [List.cons_append, List.takeWhile_cons, ha, ne_eq, not_false_eq_true,
        decide_True, if_true, h1]
    · simp only [List.cons_append, List.dropWhile_cons, ha, ne_eq, not_false_eq_true,
        decide_True, if_true, h2]

theorem takeWhile_ne_all (s : List Char) (c : Char) (h : c ∉ s) :
    s.takeWhile (· ≠ c) = s ∧ s.dropWhile (· ≠ c) = [] := by
  induction s with
  | nil => simp
  | cons a u ih =>
    simp only [List.mem_cons, not_or] at h
    have ha : a ≠ c := fun hc => h.1 hc.symm
    obtain ⟨h1, h2⟩ := ih h.2
    constructor
    · simp only [List.takeWhile_cons, ha, ne_eq, not_false_eq_true, decide_True, if_true, h1]
    · simp only [List.dropWhile_cons, ha, ne_eq, not_false_eq_true, decide_True, if_true, h2]

theorem comma_pieces_cons (c : Char) (t : List Char) :
    comma_pieces (c :: t) =
      if c = ',' then [] :: comma_pieces t
      else match comma_pieces t with
        | [] => [[c]]
        | piece :: pieces => (c :: piece) :: pieces := by
  rw [comma_pieces]

theorem comma_pieces_ne_nil (s : List Char) : comma_pieces s ≠ [] := by
  induction s with
  | nil => simp [comma_pieces]
  | cons c t ih =>
    rw [comma_pieces_cons]
    split_ifs
    · simp
    · cases h : comma_pieces t with
      | nil => exact absurd h ih
      | cons p ps => simp

theorem comma_pieces_single (s : List Char) (h : ',' ∉ s) : comma_pieces s = [s] := by
  induction s with
  | nil => rfl
  | cons c t ih =>
    simp only [List.mem_cons, not_or] at h
    have hc : c ≠ ',' := fun hc => h.1 hc.symm
    rw [comma_pieces_cons, if_neg hc, ih h.2]

theorem comma_pieces_append (pre t : List Char) (h : ',' ∉ pre) :
    comma_pieces (pre ++ ',' :: t) = pre :: comma_pieces t := by
  induction pre with
  | nil => simp [comma_pieces]
  | cons c u ih =>
    simp only [List.mem_cons, not_or] at h
    have hc : c ≠ ',' := fun hc => h.1 hc.symm
    show comma_pieces (c :: (u ++ ',' :: t)) = _
    rw [comma_pieces_cons, if_neg hc, ih h.2]

/-- The loop `while (accept)` makes one entry for every piece between the commas of the
header, once it has more fuel than the header has characters. -/
theorem accept_loop_eq (strtod : List Char → Double) (fuel : Nat) :
    ∀ accept : List Char, accept.length < fuel →
      accept_loop strtod fuel (some accept) =
        (comma_pieces accept).map (parse_language strtod) := by
  induction fuel with
  | zero => intro accept h; omega
  | succ fuel ih =>
    intro accept hlen
    unfold accept_loop
    rcases strchr_split accept ',' with ⟨h1, h2⟩ | ⟨pre, t, h1, h2, h3⟩
    · rw [h1, comma_pieces_single accept h2]
      rfl
    · rw [h1]
      simp only [List.drop_succ_cons, List.drop_zero]
      rw [h2, cut_at_append, comma_pieces_append pre t h3, List.map_cons, ih t]
      rw [h2] at hlen
      simp only [List.length_append, List.length_cons] at hlen
      omega

/-- The entry that the loop makes of a piece: its value is the piece up to the first
semicolon and its q-value is `piece_qvalue`. -/
theorem parse_language_eq (strtod : List Char → Double) (piece : List Char) :
    parse_language strtod piece =
      { qvalue := piece_qvalue strtod piece, value := piece.takeWhile (· ≠ ';') } := by
  unfold parse_language piece_qvalue
  rcases strchr_split piece ';' with ⟨h1, h2⟩ | ⟨pre, t, h1, h2, h3⟩
  · rw [h1, (takeWhile_ne_all piece ';' h2).1, (takeWhile_ne_all piece ';' h2).2]
    simp [starts_with]
  · rw [h1]
    simp only []
    rw [h2, cut_at_append, (takeWhile_ne_append pre t ';' h3).1,
      (takeWhile_ne_append pre t ';' h3).2]
    have hs : starts_with (';' :: t) ";q=".toList = starts_with t "q=".toList := by
      show (decide (';' = ';') && starts_with t "q=".toList) = _
      simp
    rw [hs]
    rfl

theorem accept_langs_eq (strtod : List Char → Double) (accept : List Char)
    (defawlt : Option (List Char)) :
    accept_langs strtod (some accept) defawlt =
      entries_of (piece_qvalue strtod) accept defawlt := by
  unfold accept_langs entries_of
  rw [Option.getD_some, accept_loop_eq strtod _ accept (by omega)]
  congr 1
  apply List.map_congr_left
  intro piece _
  exact parse_language_eq strtod piece


theorem filterMap_if {α β : Type} (p : α → Bool) (f : α → Option β) (l : List α) :
    l.filterMap (fun x => if p x = true then f x else none) = (l.filter p).filterMap f := by
  induction l with
  | nil => rfl
  | cons a t ih =>
    by_cases h : p a = true
    · rw [List.filterMap_cons, if_pos h, List.filter_cons_of_pos h, List.filterMap_cons]
      cases f a <;> simp [ih]
    · rw [List.filterMap_cons, if_neg h, List.filter_cons_of_neg h]
      exact ih

theorem filterMap_base (l : List Language) :
    l.filterMap (fun lang =>
      match strchr lang.value '-' with
      | some pos => some (g_strstrip (g_ascii_strdown (cut_at lang.value pos)))
      | none => none) =
    (l.filter (fun lang => decide ('-' ∈ lang.value))).map base_token := by
  induction l with
  | nil => rfl
  | cons a t ih =>
    rcases strchr_split a.value '-' with ⟨h1, h2⟩ | ⟨pre, u, h1, h2, h3⟩
    · rw [List.filterMap_cons, h1, List.filter_cons_of_neg (by simpa using h2)]
      exact ih
    · have hm : '-' ∈ a.value := by rw [h2]; simp
      rw [List.filterMap_cons, h1, List.filter_cons_of_pos (by simpa using hm), List.map_cons,
        ih]
      simp only [List.cons.injEq, and_true]
      unfold base_token
      rw [h2, cut_at_append, (takeWhile_ne_append pre u '-' h3).1]

/-- The part of the function behind the loop, for every array `langs`: the tokens of the
entries of the sorted array whose q-value is above 0. -/
theorem accept_list_output_tokens (langs : List Language) :
    accept_list_output langs =
      tokens_of ((g_ptr_array_sort langs sort_qvalue).filter
        (fun lang => Double.lt (Double.finite 0) lang.qvalue)) := by
  unfold accept_list_output tokens_of
  simp only []
  rw [filterMap_if (fun lang : Language => Double.lt (Double.finite 0) lang.qvalue),
    filterMap_if (fun lang : Language => Double.lt (Double.finite 0) lang.qvalue),
    filterMap_base]
  congr 1
  exact congrFun (List.filterMap_eq_map full_token) _

theorem g_ptr_array_sort_perm (langs : List Language) (cmp : Language → Language → Int) :
    (g_ptr_array_sort langs cmp).Perm langs :=
  msort_with_tmp_perm cmp _ langs

theorem tokens_of_perm (l1 l2 : List Language) (h : l1.Perm l2) :
    (tokens_of l1).Perm (tokens_of l2) := by
  unfold tokens_of
  exact (h.map _).append ((h.filter _).map _)

/-! ### Comparisons of doubles -/

theorem Double.rank_le_total (a b : Double) : a.rank_le b = true ∨ b.rank_le a = true := by
  cases a <;> cases b <;>
    simp only [Double.rank_le, Double.le, Double.eq, Double.lt, Bool.or_eq_true,
      decide_eq_true_eq, or_true, true_or, Bool.true_or, Bool.or_true, Bool.or_false,
      Bool.false_or, or_self, or_false, false_or]
  rename_i x y
  rcases lt_trichotomy x y with h | h | h
  · exact Or.inl (Or.inr h)
  · exact Or.inl (Or.inl h)
  · exact Or.inr (Or.inr h)

theorem Double.rank_le_finite (x y : ℚ) :
    (Double.finite x).rank_le (Double.finite y) = true ↔ x ≤ y := by
  simp only [Double.rank_le, Double.le, Double.eq, Double.lt, Bool.or_eq_true,
    decide_eq_true_eq]
  exact le_iff_eq_or_lt.symm

theorem Double.rank_le_trans (a b c : Double) (h1 : a.rank_le b = true)
    (h2 : b.rank_le c = true) : a.rank_le c = true := by
  cases a <;> cases b <;> cases c <;>
    simp only [Double.rank_le, Double.le, Double.eq, Double.lt, Bool.or_eq_true,
      decide_eq_true_eq, Bool.or_self, Bool.or_false, Bool.false_or, Bool.true_or,
      Bool.or_true, Bool.false_eq_true, or_self, or_false, false_or] at h1 h2 ⊢
  rename_i x y z
  exact le_iff_eq_or_lt.mp (le_trans (le_iff_eq_or_lt.mpr h1) (le_iff_eq_or_lt.mpr h2))

theorem Double.rank_le_eq_le (a b : Double) (ha : a ≠ Double.nan) (hb : b ≠ Double.nan) :
    a.rank_le b = a.le b := by
  cases a <;> cases b <;> first | rfl | exact absurd rfl ha

theorem Double.ne_nan_of_lt (a b : Double) (h : Double.lt a b = true) :
    a ≠ Double.nan ∧ b ≠ Double.nan := by
  cases a <;> cases b <;>
    simp only [Double.lt, Bool.false_eq_true, ne_eq, not_true_eq_false, and_self,
      not_false_eq_true, and_true, reduceCtorEq] at h ⊢

theorem Double.ne_nan_of_le (a b : Double) (h : Double.le a b = true) :
    a ≠ Double.nan ∧ b ≠ Double.nan := by
  cases a <;> cases b <;>
    simp only [Double.le, Double.eq, Double.lt, Bool.or_self, Bool.false_eq_true, ne_eq,
      not_true_eq_false, and_self, not_false_eq_true, and_true, reduceCtorEq] at h ⊢

theorem sort_qvalue_le (la lb : Language) :
    sort_qvalue la lb ≤ 0 ↔ Double.le lb.qvalue la.qvalue = true := by
  unfold sort_qvalue Double.le
  by_cases h1 : Double.eq lb.qvalue la.qvalue = true
  · simp [h1]
  · by_cases h2 : Double.lt lb.qvalue la.qvalue = true
    · simp [h1, h2]
    · simp [h1, h2]

theorem rank_compare_le (la lb : Language) :
    rank_compare la lb ≤ 0 ↔ Double.rank_le lb.qvalue la.qvalue = true := by
  unfold rank_compare
  by_cases h : Double.rank_le lb.qvalue la.qvalue = true
  · simp [h]
  · simp [h]

theorem qvalue_total :
    IsTotal Language (fun a b => Double.rank_le b.qvalue a.qvalue = true) :=
  ⟨fun a b => Double.rank_le_total b.qvalue a.qvalue⟩

theorem qvalue_trans :
    IsTrans Language (fun a b => Double.rank_le b.qvalue a.qvalue = true) :=
  ⟨fun a b c h1 h2 => Double.rank_le_trans c.qvalue b.qvalue a.qvalue h2 h1⟩

/-- On an array without a NaN, `g_ptr_array_sort` with `sort_qvalue` is the stable sort
into descending order of q-value. -/
theorem g_ptr_array_sort_eq (langs : List Language)
    (hnan : ∀ lang ∈ langs, lang.qvalue ≠ Double.nan) :
    g_ptr_array_sort langs sort_qvalue =
      langs.insertionSort (fun a b => Double.rank_le b.qvalue a.qvalue = true) := by
  unfold g_ptr_array_sort
  have hagree : ∀ x ∈ langs, ∀ y ∈ langs,
      (sort_qvalue x y ≤ 0 ↔ rank_compare x y ≤ 0) := by
    intro x hx y hy
    rw [sort_qvalue_le, rank_compare_le, Double.rank_le_eq_le _ _ (hnan y hy) (hnan x hx)]
  rw [msort_with_tmp_congr sort_qvalue rank_compare _ _ hagree,
    msort_with_tmp_eq_insertionSort rank_compare
      (fun a b => by
        rw [rank_compare_le, rank_compare_le]
        exact (Double.rank_le_total a.qvalue b.qvalue).symm)
      (fun a b c h1 h2 => by
        rw [rank_compare_le] at h1 h2 ⊢
        exact Double.rank_le_trans _ _ _ h2 h1)
      _ _ (by omega)]
  exact insertionSort_congr _ _ rank_compare_le langs

/-- On an array without a NaN, the part of the function behind the loop lists the entries
the way `listed` does. -/
theorem accept_list_output_eq (langs : List Language)
    (hnan : ∀ lang ∈ langs, lang.qvalue ≠ Double.nan) :
    accept_list_output langs = listed langs := by
  haveI := qvalue_total
  haveI := qvalue_trans
  rw [accept_list_output_tokens, g_ptr_array_sort_eq langs hnan, filter_insertionSort]
  unfold listed
  congr 1
  apply insertionSort_congr_mem
  intro a ha b hb
  rw [Double.rank_le_eq_le _ _ (hnan b (List.mem_filter.mp hb).1)
    (hnan a (List.mem_filter.mp ha).1)]

/-- The function lists the entries of the header, with the q-values read the way
`piece_qvalue` says, when none of them is NaN. -/
theorem accept_list_eq_listed (strtod : List Char → Double) (accept : List Char)
    (defawlt : Option (List Char))
    (hnan : ∀ lang ∈ entries_of (piece_qvalue strtod) accept defawlt,
      lang.qvalue ≠ Double.nan) :
    cockpit_web_server_parse_accept_list strtod (some accept) defawlt =
      listed (entries_of (piece_qvalue strtod) accept defawlt) := by
  unfold cockpit_web_server_parse_accept_list
  rw [accept_langs_eq, accept_list_output_eq _ hnan]

theorem Double.lt_chain (a b c : Double) (h1 : Double.lt a b = true)
    (h2 : Double.lt b c = true) : Double.lt a c = true := by
  cases a <;> cases b <;> cases c <;>
    simp only [Double.lt, decide_eq_true_eq, Bool.false_eq_true] at h1 h2 ⊢
  rename_i x y z
  exact lt_trans h1 h2

theorem Double.lt_le_chain (a b c : Double) (h1 : Double.lt a b = true)
    (h2 : Double.le b c = true) : Double.lt a c = true := by
  cases a <;> cases b <;> cases c <;>
    simp only [Double.le, Double.eq, Double.lt, Bool.or_eq_true, decide_eq_true_eq,
      Bool.or_self, Bool.or_false, Bool.false_or, Bool.true_or, Bool.or_true,
      Bool.false_eq_true, or_self, or_false, false_or] at h1 h2 ⊢
  rename_i x y z
  exact lt_of_lt_of_le h1 (le_iff_eq_or_lt.mpr h2)

theorem Double.le_chain (a b c : Double) (h1 : Double.le a b = true)
    (h2 : Double.le b c = true) : Double.le a c = true := by
  cases a <;> cases b <;> cases c <;>
    simp only [Double.le, Double.eq, Double.lt, Bool.or_eq_true, decide_eq_true_eq,
      Bool.or_self, Bool.or_false, Bool.false_or, Bool.true_or, Bool.or_true,
      Bool.false_eq_true, or_self, or_false, false_or] at h1 h2 ⊢
  rename_i x y z
  exact le_iff_eq_or_lt.mp (le_trans (le_iff_eq_or_lt.mpr h1) (le_iff_eq_or_lt.mpr h2))

theorem Double.lt_not_gt (a b : Double) (h : Double.lt a b = true) :
    Double.lt b a = false := by
  cases a <;> cases b <;>
    simp only [Double.lt, decide_eq_true_eq, decide_eq_false_iff_not, Bool.false_eq_true,
      not_lt] at h ⊢
  exact le_of_lt h

/-- C24 (as stated): for the header `en;level=1;q=0.5,de` the q-value of the first piece
by the words of the claim is 0.5, the number behind `;q=`, which puts `de` first; the
function reads a q-value only right behind the first semicolon, takes 1 here, and returns
`en` first. And for the header `a,x;q=nan,b;q=0.5,c`, where `g_ascii_strtod` reads NaN,
the claim lists `a`, `c`, `b`, while `sort_qvalue` answers 1 for every comparison with
the NaN and the merge sort returns `c`, `b`, `a`. -/
theorem accept_list_later_parameter :
    cockpit_web_server_parse_accept_list g_ascii_strtod
      (some "en;level=1;q=0.5,de".toList) none = ["en".toList, "de".toList] ∧
    claimed_qvalue g_ascii_strtod "en;level=1;q=0.5".toList = Double.finite (mkRat 1 2) ∧
    listed (entries_of (claimed_qvalue g_ascii_strtod) "en;level=1;q=0.5,de".toList none) =
      ["de".toList, "en".toList] ∧
    g_ascii_strtod "nan".toList = Double.nan ∧
    cockpit_web_server_parse_accept_list g_ascii_strtod
      (some "a,x;q=nan,b;q=0.5,c".toList) none = ["c".toList, "b".toList, "a".toList] ∧
    listed (entries_of (claimed_qvalue g_ascii_strtod) "a,x;q=nan,b;q=0.5,c".toList none) =
      ["a".toList, "c".toList, "b".toList] := by
  decide

/-- C24 (amended): when no q-value of the header is NaN, the output of
`cockpit_web_server_parse_accept_list` is `tokens_of` of a list `sorted` of entries: the
full tokens of `sorted`, lower-cased and stripped, and behind them the base-language
tokens of those entries of `sorted` that contain `-`. The list `sorted` is a rearrangement
of the entries with a q-value above 0, in descending order of q-value, and entries of
equal q-value are in the order of the input. The entries are the default with q-value
`0.1`, when there is one, and one entry for every piece between commas, whose token is the
text in front of the first semicolon and whose q-value is the number right behind `;q=`
when the first semicolon begins a `;q=` (numbers below 0 count as 0), and 1 otherwise. -/
theorem accept_list_sorted (strtod : List Char → Double) (accept : List Char)
    (defawlt : Option (List Char))
    (hnan : ∀ lang ∈ entries_of (piece_qvalue strtod) accept defawlt,
      lang.qvalue ≠ Double.nan) :
    ∃ sorted : List Language,
      sorted.Perm ((entries_of (piece_qvalue strtod) accept defawlt).filter
        (fun lang : Language => Double.lt (Double.finite 0) lang.qvalue)) ∧
      sorted.Pairwise (fun a b => Double.le b.qvalue a.qvalue = true) ∧
      (∀ q : Double, sorted.filter (fun lang => decide (lang.qvalue = q)) =
        ((entries_of (piece_qvalue strtod) accept defawlt).filter
          (fun lang : Language => Double.lt (Double.finite 0) lang.qvalue)).filter
            (fun lang => decide (lang.qvalue = q))) ∧
      cockpit_web_server_parse_accept_list strtod (some accept) defawlt =
        sorted.map full_token ++
          (sorted.filter (fun lang => decide ('-' ∈ lang.value))).map base_token := by
  haveI := qvalue_total
  haveI := qvalue_trans
  have hmem : ∀ a ∈ (entries_of (piece_qvalue strtod) accept defawlt).filter
      (fun lang : Language => Double.lt (Double.finite 0) lang.qvalue),
      a.qvalue ≠ Double.nan := fun a ha => hnan a (List.mem_filter.mp ha).1
  have hsort : ((entries_of (piece_qvalue strtod) accept defawlt).filter
      (fun lang : Language => Double.lt (Double.finite 0) lang.qvalue)).insertionSort
        (fun a b => Double.le b.qvalue a.qvalue = true) =
      ((entries_of (piece_qvalue strtod) accept defawlt).filter
        (fun lang : Language => Double.lt (Double.finite 0) lang.qvalue)).insertionSort
        (fun a b => Double.rank_le b.qvalue a.qvalue = true) := by
    apply insertionSort_congr_mem
    intro a ha b hb
    rw [Double.rank_le_eq_le _ _ (hmem b hb) (hmem a ha)]
  refine ⟨((entries_of (piece_qvalue strtod) accept defawlt).filter
    (fun lang : Language => Double.lt (Double.finite 0) lang.qvalue)).insertionSort
      (fun a b => Double.le b.qvalue a.qvalue = true),
    List.perm_insertionSort _ _, ?_, ?_,
    accept_list_eq_listed strtod accept defawlt hnan⟩
  · rw [hsort]
    have hs := List.sorted_insertionSort
      (fun a b : Language => Double.rank_le b.qvalue a.qvalue = true)
      ((entries_of (piece_qvalue strtod) accept defawlt).filter
        (fun lang : Language => Double.lt (Double.finite 0) lang.qvalue))
    refine List.Pairwise.imp_of_mem ?_ hs
    intro a b ha hb hab
    rw [List.mem_insertionSort] at ha hb
    rw [← Double.rank_le_eq_le _ _ (hmem b hb) (hmem a ha)]
    exact hab
  · intro q
    rw [hsort, filter_insertionSort]
    apply insertionSort_of_all
    intro a ha b hb
    have h1 := (List.mem_filter.mp ha).2
    have h2 := (List.mem_filter.mp hb).2
    simp only [decide_eq_true_eq] at h1 h2
    rw [h1, h2]
    rcases Double.rank_le_total q q with h | h <;> exact h

/-- C23 (as stated): for the header `en-US,en;q=0.8,de;q=0.5` without a default the
function does not return the five tokens of the claim; the last one, `de`, is missing,
because `de` contains no `-`. -/
theorem accept_list_example_differs :
    cockpit_web_server_parse_accept_list g_ascii_strtod
        (some "en-US,en;q=0.8,de;q=0.5".toList) none ≠
      ["en-us".toList, "en".toList, "de".toList, "en".toList, "de".toList] ∧
    (cockpit_web_server_parse_accept_list g_ascii_strtod
        (some "en-US,en;q=0.8,de;q=0.5".toList) none).length = 4 := by
  decide

theorem listed_example (q8 q5 : Double) (h1 : Double.lt (Double.finite 0) q5 = true)
    (h2 : Double.le q5 q8 = true) (h3 : Double.le q8 (Double.finite 1) = true) :
    listed [{ qvalue := Double.finite 1, value := "en-US".toList },
        { qvalue := q8, value := "en".toList }, { qvalue := q5, value := "de".toList }] =
      ["en-us".toList, "en".toList, "de".toList, "en".toList] := by
  have h4 : Double.lt (Double.finite 0) q8 = true := Double.lt_le_chain _ _ _ h1 h2
  have h5 : Double.le q5 (Double.finite 1) = true := Double.le_chain _ _ _ h2 h3
  have h6 : Double.lt (Double.finite 0) (Double.finite 1) = true := by decide
  unfold listed
  have hf : ([{ qvalue := Double.finite 1, value := "en-US".toList },
        { qvalue := q8, value := "en".toList },
        { qvalue := q5, value := "de".toList }] : List Language).filter
      (fun lang => Double.lt (Double.finite 0) lang.qvalue) =
      [{ qvalue := Double.finite 1, value := "en-US".toList },
        { qvalue := q8, value := "en".toList }, { qvalue := q5, value := "de".toList }] := by
    simp only [List.filter, h6, h4, h1]
  rw [hf, List.Sorted.insertionSort_eq]
  · rfl
  · simp only [List.Sorted, List.pairwise_cons, List.mem_cons, List.mem_singleton,
      List.not_mem_nil, forall_eq_or_imp, forall_eq, false_implies, implies_true,
      List.Pairwise.nil, and_true]
    exact ⟨⟨h3, h5⟩, h2⟩

/-- C23 (amended): for the header `en-US,en;q=0.8,de;q=0.5` without a default the function
returns exactly `en-us`, `en`, `de`, `en`, whenever `g_ascii_strtod` reads `0.8` and `0.5`
as numbers with `0 < 0.5 <= 0.8 <= 1`. -/
theorem accept_list_example (strtod : List Char → Double)
    (h1 : Double.lt (Double.finite 0) (strtod "0.5".toList) = true)
    (h2 : Double.le (strtod "0.5".toList) (strtod "0.8".toList) = true)
    (h3 : Double.le (strtod "0.8".toList) (Double.finite 1) = true) :
    cockpit_web_server_parse_accept_list strtod (some "en-US,en;q=0.8,de;q=0.5".toList) none =
      ["en-us".toList, "en".toList, "de".toList, "en".toList] := by
  have h4 : Double.lt (Double.finite 0) (strtod "0.8".toList) = true :=
    Double.lt_le_chain _ _ _ h1 h2
  have he : entries_of (piece_qvalue strtod) "en-US,en;q=0.8,de;q=0.5".toList none =
      [{ qvalue := Double.finite 1, value := "en-US".toList },
        { qvalue := strtod "0.8".toList, value := "en".toList },
        { qvalue := strtod "0.5".toList, value := "de".toList }] := by
    have e1 : piece_qvalue strtod "en-US".toList = Double.finite 1 := rfl
    have e2 : piece_qvalue strtod "en;q=0.8".toList =
        if Double.lt (strtod "0.8".toList) (Double.finite 0) = true then Double.finite 0
        else strtod "0.8".toList := rfl
    have e3 : piece_qvalue strtod "de;q=0.5".toList =
        if Double.lt (strtod "0.5".toList) (Double.finite 0) = true then Double.finite 0
        else strtod "0.5".toList := rfl
    rw [Double.lt_not_gt _ _ h4] at e2
    rw [Double.lt_not_gt _ _ h1] at e3
    show [({ qvalue := piece_qvalue strtod "en-US".toList, value := "en-US".toList } : Language),
      { qvalue := piece_qvalue strtod "en;q=0.8".toList, value := "en".toList },
      { qvalue := piece_qvalue strtod "de;q=0.5".toList, value := "de".toList }] = _
    rw [e1, e2, e3]
    rfl
  have hnan : ∀ lang ∈ entries_of (piece_qvalue strtod) "en-US,en;q=0.8,de;q=0.5".toList none,
      lang.qvalue ≠ Double.nan := by
    rw [he]
    intro lang hl
    simp only [List.mem_cons, List.mem_singleton, List.not_mem_nil, or_false] at hl
    rcases hl with hl | hl | hl <;> rw [hl]
    · simp
    · exact (Double.ne_nan_of_lt _ _ h4).2
    · exact (Double.ne_nan_of_lt _ _ h1).2
  rw [accept_list_eq_listed _ _ _ hnan, he]
  exact listed_example _ _ h1 h2 h3

/-- Witness for C23: the numbers that `g_ascii_strtod` reads. -/
theorem accept_list_example_witness :
    g_ascii_strtod "0.8".toList = Double.finite (mkRat 3602879701896397 4503599627370496) ∧
    g_ascii_strtod "0.5".toList = Double.finite (mkRat 1 2) ∧
    cockpit_web_server_parse_accept_list g_ascii_strtod
        (some "en-US,en;q=0.8,de;q=0.5".toList) none =
      ["en-us".toList, "en".toList, "de".toList, "en".toList] :=
  ⟨by decide, by decide, accept_list_example g_ascii_strtod (by decide) (by decide) (by decide)⟩

/-- Witness for C24: the header `de;q=0.5, en-GB ;q=0.5,fr-CA` with the default `C`. The
two entries of q-value 0.5 stay in the order of the header, the default comes behind them,
and the base-language tokens follow the full tokens. -/
theorem accept_list_sorted_witness :
    cockpit_web_server_parse_accept_list g_ascii_strtod
        (some "de;q=0.5, en-GB ;q=0.5,fr-CA".toList) (some "C".toList) =
      ["fr-ca".toList, "de".toList, "en-gb".toList, "c".toList, "fr".toList,
        "en".toList] ∧
    ∃ sorted : List Language,
      sorted.Perm ((entries_of (piece_qvalue g_ascii_strtod)
        "de;q=0.5, en-GB ;q=0.5,fr-CA".toList (some "C".toList)).filter
        (fun lang : Language => Double.lt (Double.finite 0) lang.qvalue)) ∧
      sorted.Pairwise (fun a b => Double.le b.qvalue a.qvalue = true) ∧
      (∀ q : Double, sorted.filter (fun lang => decide (lang.qvalue = q)) =
        ((entries_of (piece_qvalue g_ascii_strtod)
          "de;q=0.5, en-GB ;q=0.5,fr-CA".toList (some "C".toList)).filter
          (fun lang : Language => Double.lt (Double.finite 0) lang.qvalue)).filter
            (fun lang => decide (lang.qvalue = q))) ∧
      cockpit_web_server_parse_accept_list g_ascii_strtod
          (some "de;q=0.5, en-GB ;q=0.5,fr-CA".toList) (some "C".toList) =
        sorted.map full_token ++
          (sorted.filter (fun lang => decide ('-' ∈ lang.value))).map base_token :=
  ⟨by decide,
    accept_list_sorted g_ascii_strtod "de;q=0.5, en-GB ;q=0.5,fr-CA".toList
      (some "C".toList) (by decide)⟩

theorem filter_skip {α : Type} (p : α → Bool) (before after : List α) (x : α)
    (h : p x = false) : (before ++ x :: after).filter p = (before ++ after).filter p := by
  rw [List.filter_append, List.filter_cons, h, List.filter_append]
  rfl

/-- C25 (as stated): the piece `de;q=2` of the header `de;q=2,en` carries a number above
1; its q-value is 2, not 0, and the function returns `de` and then `en`, not `en` alone. -/
theorem qvalue_above_one_kept :
    (parse_language g_ascii_strtod "de;q=2".toList).qvalue = Double.finite 2 ∧
    cockpit_web_server_parse_accept_list g_ascii_strtod (some "de;q=2,en".toList) none =
      ["de".toList, "en".toList] ∧
    cockpit_web_server_parse_accept_list g_ascii_strtod (some "de;q=2,en".toList) none ≠
      ["en".toList] := by
  decide

/-- C25 (amended): a piece `token;q=number`, where the token has no semicolon, makes the
entry with that token whose q-value is 0 when `g_ascii_strtod` reads a number below 0 and
what it reads otherwise. When that is not above 0 (a number below 0, or 0, or NaN), the
output is a rearrangement of what it is without the entry, wherever the entry stands; and
it is the same output when no q-value is NaN, this one included. When the number is above
1 the q-value is that number and the token is in the output. -/
theorem qvalue_clamped_below (strtod : List Char → Double) (token number : List Char)
    (before after : List Language) (htoken : ';' ∉ token) :
    parse_language strtod (token ++ ";q=".toList ++ number) =
      { qvalue := (if Double.lt (strtod number) (Double.finite 0) = true then Double.finite 0
          else strtod number),
        value := token } ∧
    (Double.lt (Double.finite 0) (strtod number) = false →
      (accept_list_output
          (before ++ parse_language strtod (token ++ ";q=".toList ++ number) :: after)).Perm
        (accept_list_output (before ++ after)) ∧
      ((∀ lang ∈ before ++ after, lang.qvalue ≠ Double.nan) → strtod number ≠ Double.nan →
        accept_list_output
            (before ++ parse_language strtod (token ++ ";q=".toList ++ number) :: after) =
          accept_list_output (before ++ after))) ∧
    (Double.lt (Double.finite 1) (strtod number) = true →
      (parse_language strtod (token ++ ";q=".toList ++ number)).qvalue = strtod number ∧
      g_strstrip (g_ascii_strdown token) ∈
        accept_list_output
          (before ++ parse_language strtod (token ++ ";q=".toList ++ number) :: after)) := by
  have hp : parse_language strtod (token ++ ";q=".toList ++ number) =
      { qvalue := (if Double.lt (strtod number) (Double.finite 0) = true then Double.finite 0
          else strtod number),
        value := token } := by
    rw [parse_language_eq]
    have hform : token ++ ";q=".toList ++ number = token ++ ';' :: ('q' :: '=' :: number) := by
      simp
    unfold piece_qvalue
    rw [hform, (takeWhile_ne_append token _ ';' htoken).1,
      (takeWhile_ne_append token _ ';' htoken).2]
    have hs : starts_with (';' :: 'q' :: '=' :: number) ";q=".toList = true := by
      simp [starts_with]
    rw [hs]
    rfl
  have hqv : (parse_language strtod (token ++ ";q=".toList ++ number)).qvalue =
      if Double.lt (strtod number) (Double.finite 0) = true then Double.finite 0
      else strtod number := by rw [hp]
  have hval : (parse_language strtod (token ++ ";q=".toList ++ number)).value = token := by
    rw [hp]
  refine ⟨hp, ?_, ?_⟩
  · intro hle
    generalize parse_language strtod (token ++ ";q=".toList ++ number) = x at hqv hval
    have hq : ¬ Double.lt (Double.finite 0) x.qvalue = true := by
      rw [hqv]
      split_ifs with h
      · decide
      · rw [hle]
        decide
    have hfilter : (before ++ x :: after).filter
        (fun lang => Double.lt (Double.finite 0) lang.qvalue) =
        (before ++ after).filter (fun lang => Double.lt (Double.finite 0) lang.qvalue) := by
      exact filter_skip (fun lang : Language => Double.lt (Double.finite 0) lang.qvalue)
        before after x (by simpa using hq)
    constructor
    · rw [accept_list_output_tokens, accept_list_output_tokens]
      apply tokens_of_perm
      refine ((g_ptr_array_sort_perm _ _).filter _).trans ?_
      rw [hfilter]
      exact ((g_ptr_array_sort_perm _ _).filter _).symm
    · intro hnan hv
      have hnan2 : ∀ lang ∈ before ++ x :: after, lang.qvalue ≠ Double.nan := by
        intro lang hl
        simp only [List.mem_append, List.mem_cons] at hl
        rcases hl with hl | hl | hl
        · exact hnan lang (List.mem_append_left _ hl)
        · rw [hl, hqv]
          split_ifs
          · simp
          · exact hv
        · exact hnan lang (List.mem_append_right _ hl)
      rw [accept_list_output_eq _ hnan2, accept_list_output_eq _ hnan]
      unfold listed
      rw [hfilter]
  · intro hgt
    have hpos : Double.lt (Double.finite 0) (strtod number) = true :=
      Double.lt_chain _ _ _ (by decide) hgt
    have hqv2 : (parse_language strtod (token ++ ";q=".toList ++ number)).qvalue =
        strtod number := by
      rw [hqv, Double.lt_not_gt _ _ hpos]
      rfl
    refine ⟨hqv2, ?_⟩
    generalize parse_language strtod (token ++ ";q=".toList ++ number) = x at hqv2 hval
    rw [accept_list_output_tokens]
    unfold tokens_of
    refine List.mem_append_left _ ?_
    have hm : x ∈ (g_ptr_array_sort (before ++ x :: after) sort_qvalue).filter
        (fun lang => Double.lt (Double.finite 0) lang.qvalue) := by
      rw [List.mem_filter, (g_ptr_array_sort_perm _ _).mem_iff]
      exact ⟨by simp, by rw [hqv2]; exact hpos⟩
    have := List.mem_map_of_mem full_token hm
    unfold full_token at this
    rw [hval] at this
    exact this

/-- Witness for C25: `de;q=-1,en` gives `en` alone, `de;q=2,en` gives `de` and `en`; and
with a NaN among the other entries the entry of q-value 0 changes the order of the
output, not its tokens. -/
theorem qvalue_clamped_below_witness :
    cockpit_web_server_parse_accept_list g_ascii_strtod (some "de;q=-1,en".toList) none =
      ["en".toList] ∧
    cockpit_web_server_parse_accept_list g_ascii_strtod (some "de;q=2,en".toList) none =
      ["de".toList, "en".toList] ∧
    g_ascii_strtod "-1".toList = Double.finite (-1) ∧
    g_ascii_strtod "2".toList = Double.finite 2 ∧
    accept_langs g_ascii_strtod (some "de;q=-1,en".toList) none =
      [] ++ parse_language g_ascii_strtod ("de".toList ++ ";q=".toList ++ "-1".toList) ::
        [{ qvalue := Double.finite 1, value := "en".toList }] ∧
    cockpit_web_server_parse_accept_list g_ascii_strtod
      (some "e;q=0,a,x;q=nan,b;q=0.5,c".toList) none = ["a".toList, "c".toList, "b".toList] ∧
    cockpit_web_server_parse_accept_list g_ascii_strtod
      (some "a,x;q=nan,b;q=0.5,c".toList) none = ["c".toList, "b".toList, "a".toList] ∧
    parse_language g_ascii_strtod ("de".toList ++ ";q=".toList ++ "-1".toList) =
      { qvalue := (if Double.lt (g_ascii_strtod "-1".toList) (Double.finite 0) = true then
          Double.finite 0 else g_ascii_strtod "-1".toList),
        value := "de".toList } :=
  ⟨by decide, by decide, by decide, by decide, by decide, by decide, by decide,
    (qvalue_clamped_below g_ascii_strtod "de".toList "-1".toList []
      [{ qvalue := Double.finite 1, value := "en".toList }] (by decide)).1⟩
end Cockpit
